import Mathlib

/-!
Verification of the cleoselene engine core (crates/engine) against its
natural-language specification.

Shallow embedding conventions:
* Rust `u8`/`u16`/`u32`/`u64` values are `Nat`; where the source truncates
  (`as u16`) the embedding takes `% 2^16` explicitly.
* `f32` values are embedded as real numbers (`ℝ`); the command-buffer wire
  format never computes on floats, it only serialises their 32-bit patterns,
  so there float fields are embedded as their IEEE-754 bit patterns (`Nat`).
* `HashMap` is embedded as a function map `key → Option value`; `HashSet` as
  `Finset`; `Vec` as `List`.
* Unspecified iteration orders (hash maps/sets) are embedded as explicit list
  parameters or canonical orders; the claims proved below do not depend on
  those orders.
* Rust panics are embedded as an explicit error result.
-/

namespace Engine

/-! # The binary command protocol (src/engine/crates/engine/src/lib.rs)

Opcode constants from lib.rs lines 14-22. -/

def OP_CLEAR : Nat := 0x01
def OP_SET_COLOR : Nat := 0x02
def OP_FILL_RECT : Nat := 0x03
def OP_DRAW_LINE : Nat := 0x04
def OP_DRAW_TEXT : Nat := 0x05
def OP_LOAD_SOUND : Nat := 0x06
def OP_PLAY_SOUND : Nat := 0x07
def OP_STOP_SOUND : Nat := 0x08
def OP_SET_VOLUME : Nat := 0x09

/-- A semantic command record, one per `CommandBuffer::cmd_*` writer.
Colour channels are `u8` values (`Nat`), coordinates and dimensions are the
32-bit IEEE-754 patterns of the `f32` arguments (`Nat`), strings are their
UTF-8 byte lists. -/
inductive Cmd where
  | clearScreen (r g b : Nat)
  | setColor (r g b a : Nat)
  | fillRect (x y w h : Nat)
  | drawLine (x1 y1 x2 y2 width : Nat)
  | drawText (x y : Nat) (text : List Nat)
  | loadSound (name url : List Nat)
  | playSound (name : List Nat) (loopSound : Bool) (volume : Nat)
  | stopSound (name : List Nat)
  | setVolume (name : List Nat) (volume : Nat)
  deriving DecidableEq

/-- `BytesMut::put_u16_le`: the `u16` cast in the source truncates, hence the
explicit `% 2^16`. -/
def putU16 (n : Nat) : List Nat := [n % 256, n / 256 % 256]

/-- `BytesMut::put_f32_le` on a stored 32-bit pattern (little endian). -/
def putU32 (n : Nat) : List Nat :=
  [n % 256, n / 256 % 256, n / 65536 % 256, n / 16777216 % 256]

/-- the `put_u16_le(len) ; put_slice(bytes)` idiom used for strings:
note the length is written `bytes.len() as u16` (truncating) while the whole
slice is written. -/
def putStr (s : List Nat) : List Nat := putU16 s.length ++ s

/-- `CommandBuffer`'s primitive writers, one byte list per record
(lib.rs lines 190-278). -/
def encodeCmd : Cmd → List Nat
  | .clearScreen r g b => [OP_CLEAR, r, g, b]
  | .setColor r g b a => [OP_SET_COLOR, r, g, b, a]
  | .fillRect x y w h => OP_FILL_RECT :: (putU32 x ++ putU32 y ++ putU32 w ++ putU32 h)
  | .drawLine x1 y1 x2 y2 w =>
      OP_DRAW_LINE :: (putU32 x1 ++ putU32 y1 ++ putU32 x2 ++ putU32 y2 ++ putU32 w)
  | .drawText x y text => OP_DRAW_TEXT :: (putU32 x ++ putU32 y ++ putStr text)
  | .loadSound name url => OP_LOAD_SOUND :: (putStr name ++ putStr url)
  | .playSound name lp vol =>
      OP_PLAY_SOUND :: (putStr name ++ [if lp then 1 else 0] ++ putU32 vol)
  | .stopSound name => OP_STOP_SOUND :: putStr name
  | .setVolume name vol => OP_SET_VOLUME :: (putStr name ++ putU32 vol)

/-- The byte stream of a sequence of writer calls (appends concatenate). -/
def encodeCmds (cs : List Cmd) : List Nat := (cs.map encodeCmd).flatten

/-! ## The decoder for the wire format of §6.1 (spec-side definition).

The spec's opcode table determines a unique parse; we define it and compare
round trips.  `Modelled from the spec:` the client-side decoder is not part of
this repository's sources (the browser renderer is out of scope), so the
parser below follows the spec's wire table §6.1 word for word. -/

def getU16 : List Nat → Option (Nat × List Nat)
  | a :: b :: rest => some (a + 256 * b, rest)
  | _ => none

def getU32 : List Nat → Option (Nat × List Nat)
  | a :: b :: c :: d :: rest =>
      some (a + 256 * b + 65536 * c + 16777216 * d, rest)
  | _ => none

def getBytes (n : Nat) (l : List Nat) : Option (List Nat × List Nat) :=
  if n ≤ l.length then some (l.take n, l.drop n) else none

def getStr (l : List Nat) : Option (List Nat × List Nat) := do
  let (n, r) ← getU16 l
  getBytes n r

/-- Parse one record according to the §6.1 opcode table. -/
def parseCmd : List Nat → Option (Cmd × List Nat)
  | [] => none
  | op :: rest =>
    if op = OP_CLEAR then
      match rest with
      | r :: g :: b :: rest => some (.clearScreen r g b, rest)
      | _ => none
    else if op = OP_SET_COLOR then
      match rest with
      | r :: g :: b :: a :: rest => some (.setColor r g b a, rest)
      | _ => none
    else if op = OP_FILL_RECT then do
      let (x, rest) ← getU32 rest
      let (y, rest) ← getU32 rest
      let (w, rest) ← getU32 rest
      let (h, rest) ← getU32 rest
      pure (.fillRect x y w h, rest)
    else if op = OP_DRAW_LINE then do
      let (x1, rest) ← getU32 rest
      let (y1, rest) ← getU32 rest
      let (x2, rest) ← getU32 rest
      let (y2, rest) ← getU32 rest
      let (w, rest) ← getU32 rest
      pure (.drawLine x1 y1 x2 y2 w, rest)
    else if op = OP_DRAW_TEXT then do
      let (x, rest) ← getU32 rest
      let (y, rest) ← getU32 rest
      let (t, rest) ← getStr rest
      pure (.drawText x y t, rest)
    else if op = OP_LOAD_SOUND then do
      let (n, rest) ← getStr rest
      let (u, rest) ← getStr rest
      pure (.loadSound n u, rest)
    else if op = OP_PLAY_SOUND then do
      let (n, rest) ← getStr rest
      match rest with
      | lp :: rest => do
          let (v, rest) ← getU32 rest
          pure (.playSound n (lp = 1) v, rest)
      | [] => none
    else if op = OP_STOP_SOUND then do
      let (n, rest) ← getStr rest
      pure (.stopSound n, rest)
    else if op = OP_SET_VOLUME then do
      let (n, rest) ← getStr rest
      let (v, rest) ← getU32 rest
      pure (.setVolume n v, rest)
    else none

/-- Parse a whole stream (fuel-indexed; `parseCmds` supplies ample fuel). -/
def parseCmdsAux : Nat → List Nat → Option (List Cmd)
  | _, [] => some []
  | 0, _ :: _ => none
  | fuel + 1, bs => do
      let (c, rest) ← parseCmd bs
      let cs ← parseCmdsAux fuel rest
      pure (c :: cs)

def parseCmds (bs : List Nat) : Option (List Cmd) := parseCmdsAux bs.length bs

/-- Well-formedness of a record as produced by the Rust writers: colour
channels and string bytes are `u8` and float fields are `u32` bit patterns by
type; the string-length bound is NOT guaranteed by the source (the writers
truncate `len as u16` while emitting the whole slice), it is exactly the
side condition under which the wire format round-trips. -/
def Cmd.wf : Cmd → Prop
  | .clearScreen _ _ _ => True
  | .setColor _ _ _ _ => True
  | .fillRect x y w h => x < 2 ^ 32 ∧ y < 2 ^ 32 ∧ w < 2 ^ 32 ∧ h < 2 ^ 32
  | .drawLine x1 y1 x2 y2 w =>
      x1 < 2 ^ 32 ∧ y1 < 2 ^ 32 ∧ x2 < 2 ^ 32 ∧ y2 < 2 ^ 32 ∧ w < 2 ^ 32
  | .drawText x y t => x < 2 ^ 32 ∧ y < 2 ^ 32 ∧ t.length < 2 ^ 16
  | .loadSound n u => n.length < 2 ^ 16 ∧ u.length < 2 ^ 16
  | .playSound n _ v => n.length < 2 ^ 16 ∧ v < 2 ^ 32
  | .stopSound n => n.length < 2 ^ 16
  | .setVolume n v => n.length < 2 ^ 16 ∧ v < 2 ^ 32

instance : DecidablePred Cmd.wf := by
  intro c
  cases c <;> simp only [Cmd.wf] <;> infer_instance

theorem getU32_putU32 (n : Nat) (h : n < 2 ^ 32) (rest : List Nat) :
    getU32 (putU32 n ++ rest) = some (n, rest) := by
  simp only [putU32, List.cons_append, List.nil_append, getU32]
  congr 2
  omega

theorem getU16_putU16 (n : Nat) (h : n < 2 ^ 16) (rest : List Nat) :
    getU16 (putU16 n ++ rest) = some (n, rest) := by
  simp only [putU16, List.cons_append, List.nil_append, getU16]
  congr 2
  omega

theorem getStr_putStr (s : List Nat) (h : s.length < 2 ^ 16) (rest : List Nat) :
    getStr (putStr s ++ rest) = some (s, rest) := by
  simp only [putStr, getStr, List.append_assoc, getU16_putU16 _ h, Option.bind_eq_bind,
    Option.some_bind, getBytes]
  rw [if_pos (by simp), List.take_left, List.drop_left]

theorem parseCmd_encodeCmd (c : Cmd) (hc : c.wf) (rest : List Nat) :
    parseCmd (encodeCmd c ++ rest) = some (c, rest) := by
  cases c with
  | clearScreen r g b => simp [encodeCmd, parseCmd, OP_CLEAR]
  | setColor r g b a =>
      simp [encodeCmd, parseCmd, OP_SET_COLOR, OP_CLEAR]
  | fillRect x y w h =>
      obtain ⟨h1, h2, h3, h4⟩ := hc
      simp [encodeCmd, parseCmd, OP_FILL_RECT, OP_CLEAR, OP_SET_COLOR, List.append_assoc,
        getU32_putU32 _ h1, getU32_putU32 _ h2, getU32_putU32 _ h3, getU32_putU32 _ h4]
  | drawLine x1 y1 x2 y2 w =>
      obtain ⟨h1, h2, h3, h4, h5⟩ := hc
      simp [encodeCmd, parseCmd, OP_DRAW_LINE, OP_CLEAR, OP_SET_COLOR, OP_FILL_RECT,
        List.append_assoc, getU32_putU32 _ h1, getU32_putU32 _ h2, getU32_putU32 _ h3,
        getU32_putU32 _ h4, getU32_putU32 _ h5]
  | drawText x y t =>
      obtain ⟨h1, h2, h3⟩ := hc
      simp [encodeCmd, parseCmd, OP_DRAW_TEXT, OP_CLEAR, OP_SET_COLOR, OP_FILL_RECT,
        OP_DRAW_LINE, List.append_assoc, getU32_putU32 _ h1, getU32_putU32 _ h2,
        getStr_putStr _ h3]
  | loadSound n u =>
      obtain ⟨h1, h2⟩ := hc
      simp [encodeCmd, parseCmd, OP_LOAD_SOUND, OP_CLEAR, OP_SET_COLOR, OP_FILL_RECT,
        OP_DRAW_LINE, OP_DRAW_TEXT, List.append_assoc, getStr_putStr _ h1, getStr_putStr _ h2]
  | playSound n lp v =>
      obtain ⟨h1, h2⟩ := hc
      cases lp <;>
        simp [encodeCmd, parseCmd, OP_PLAY_SOUND, OP_CLEAR, OP_SET_COLOR, OP_FILL_RECT,
          OP_DRAW_LINE, OP_DRAW_TEXT, OP_LOAD_SOUND, List.append_assoc, getStr_putStr _ h1,
          getU32_putU32 _ h2]
  | stopSound n =>
      simp [encodeCmd, parseCmd, OP_STOP_SOUND, OP_CLEAR, OP_SET_COLOR, OP_FILL_RECT,
        OP_DRAW_LINE, OP_DRAW_TEXT, OP_LOAD_SOUND, OP_PLAY_SOUND, List.append_assoc,
        getStr_putStr _ hc]
  | setVolume n v =>
      obtain ⟨h1, h2⟩ := hc
      simp [encodeCmd, parseCmd, OP_SET_VOLUME, OP_CLEAR, OP_SET_COLOR, OP_FILL_RECT,
        OP_DRAW_LINE, OP_DRAW_TEXT, OP_LOAD_SOUND, OP_PLAY_SOUND, OP_STOP_SOUND,
        List.append_assoc, getStr_putStr _ h1, getU32_putU32 _ h2]

theorem encodeCmd_ne_nil (c : Cmd) : encodeCmd c ≠ [] := by
  cases c <;> simp [encodeCmd]

theorem parseCmdsAux_encodeCmds (cs : List Cmd) (hc : ∀ c ∈ cs, c.wf) :
    ∀ fuel, cs.length ≤ fuel → parseCmdsAux fuel (encodeCmds cs) = some cs := by
  induction cs with
  | nil => intro fuel _; simp [encodeCmds, parseCmdsAux]
  | cons c cs ih =>
      intro fuel hfuel
      have hf1 : 1 ≤ fuel := le_trans (by simp) hfuel
      obtain ⟨f, rfl⟩ : ∃ f, fuel = f + 1 := ⟨fuel - 1, by omega⟩
      have hcw := hc c (by simp)
      have hrest : ∀ c' ∈ cs, c'.wf := fun c' h => hc c' (by simp [h])
      obtain ⟨b, bs, hb⟩ : ∃ b bs, encodeCmd c = b :: bs := by
        cases h : encodeCmd c with
        | nil => exact absurd h (encodeCmd_ne_nil c)
        | cons b bs => exact ⟨b, bs, rfl⟩
      have henc : encodeCmds (c :: cs) = b :: (bs ++ encodeCmds cs) := by
        simp [encodeCmds, hb]
      rw [henc]
      have hparse : parseCmd (b :: (bs ++ encodeCmds cs)) = some (c, encodeCmds cs) := by
        have := parseCmd_encodeCmd c hcw (encodeCmds cs)
        rwa [hb, List.cons_append] at this
      simp only [parseCmdsAux, hparse, Option.bind_eq_bind, Option.some_bind]
      rw [ih hrest f (by simpa using hfuel)]
      rfl

theorem length_le_encodeCmds (cs : List Cmd) : cs.length ≤ (encodeCmds cs).length := by
  induction cs with
  | nil => simp [encodeCmds]
  | cons c cs ih =>
      have : encodeCmds (c :: cs) = encodeCmd c ++ encodeCmds cs := by simp [encodeCmds]
      rw [this, List.length_append, List.length_cons]
      have : 1 ≤ (encodeCmd c).length := by
        cases h : encodeCmd c with
        | nil => exact absurd h (encodeCmd_ne_nil c)
        | cons _ _ => simp
      omega

/-! ## The script-facing `api` layer (lib.rs lines 333-407)

Each constructor is one `api.*` closure; `Option` arguments are the Lua
optionals, whose defaults the closures fill in with `unwrap_or`. -/

/-- IEEE-754 bit pattern of `1.0f32`, the default line width and volume. -/
def F32_ONE : Nat := 0x3F800000

inductive ApiCall where
  | clearScreen (r g b : Nat)
  | setColor (r g b : Nat) (a : Option Nat)
  | fillRect (x y w h : Nat)
  | drawLine (x1 y1 x2 y2 : Nat) (w : Option Nat)
  | drawText (text : List Nat) (x y : Nat)
  | loadSound (name url : List Nat)
  | playSound (name : List Nat) (loopVal : Option Bool) (volume : Option Nat)
  | stopSound (name : List Nat)
  | setVolume (name : List Nat) (volume : Nat)
  deriving DecidableEq

/-- The record a call emits, defaults applied exactly as the closures do:
`a.unwrap_or(255)`, `w.unwrap_or(1.0)`, `loop_val.unwrap_or(false)`,
`volume.unwrap_or(1.0)`. -/
def ApiCall.record : ApiCall → Cmd
  | .clearScreen r g b => .clearScreen r g b
  | .setColor r g b a => .setColor r g b (a.getD 255)
  | .fillRect x y w h => .fillRect x y w h
  | .drawLine x1 y1 x2 y2 w => .drawLine x1 y1 x2 y2 (w.getD F32_ONE)
  | .drawText t x y => .drawText x y t
  | .loadSound n u => .loadSound n u
  | .playSound n lp v => .playSound n (lp.getD false) (v.getD F32_ONE)
  | .stopSound n => .stopSound n
  | .setVolume n v => .setVolume n v

/-- `play_sound`, `stop_sound`, `set_volume` are the mode-sensitive calls
(lib.rs 368-407); all other writers always target the frame-local buffer. -/
def ApiCall.isSound : ApiCall → Bool
  | .playSound _ _ _ => true
  | .stopSound _ => true
  | .setVolume _ _ => true
  | _ => false

/-- The `current_mode` cell (lib.rs 24-28). -/
inductive GameMode where
  | update
  | draw
  deriving DecidableEq

/-- `GameState`'s buffer-relevant fields: the two byte buffers and the mode
cell (lib.rs 287-292).  The Lua interpreter itself is abstracted away: a
script callback is represented by the list of `api.*` calls it performs. -/
structure GameState where
  mode : GameMode
  commandBuffer : List Nat
  eventBuffer : List Nat

/-- One `api.*` call: the sound calls branch on the mode cell, writing to the
cross-frame event buffer in `Update` mode and the frame-local buffer in
`Draw` mode; all other calls write to the frame-local buffer. -/
def applyApi (gs : GameState) (c : ApiCall) : GameState :=
  if c.isSound then
    match gs.mode with
    | .update => { gs with eventBuffer := gs.eventBuffer ++ encodeCmd c.record }
    | .draw => { gs with commandBuffer := gs.commandBuffer ++ encodeCmd c.record }
  else
    { gs with commandBuffer := gs.commandBuffer ++ encodeCmd c.record }

/-- `GameState::begin_frame` (lib.rs 444-446): clear the event buffer. -/
def beginFrame (gs : GameState) : GameState := { gs with eventBuffer := [] }

/-- `GameState::update` (lib.rs 448-455): set mode to `Update`, then run the
script's `update`, whose api calls are `calls`. -/
def updateTick (gs : GameState) (calls : List ApiCall) : GameState :=
  calls.foldl applyApi { gs with mode := .update }

/-- `GameState::draw` (lib.rs 458-473): set mode to `Draw`, clear the
frame-local buffer, splice in the event buffer, run the script's `draw`,
return the frame-local bytes. -/
def drawTick (gs : GameState) (calls : List ApiCall) : List Nat × GameState :=
  let gs1 := { gs with mode := .draw, commandBuffer := [] ++ gs.eventBuffer }
  let gs2 := calls.foldl applyApi gs1
  (gs2.commandBuffer, gs2)

/-- Accumulate one session's draw output. -/
def drawFold (acc : List (List Nat) × GameState) (dcalls : List ApiCall) :
    List (List Nat) × GameState :=
  let r := drawTick acc.2 dcalls
  (acc.1 ++ [r.1], r.2)

/-- One dispatcher tick over the cited entry points: `begin_frame`, then the
`update` invocations, then one `draw` per session; returns the per-session
byte frames in order. -/
def runTick (gs : GameState) (updates : List (List ApiCall))
    (draws : List (List ApiCall)) : List (List Nat) × GameState :=
  let gs1 := (updates.foldl updateTick (beginFrame gs))
  draws.foldl drawFold ([], gs1)

theorem applyApi_mode (gs : GameState) (c : ApiCall) : (applyApi gs c).mode = gs.mode := by
  unfold applyApi
  cases hc : c.isSound <;> cases hm : gs.mode <;> simp [hm]

theorem foldl_applyApi_update (calls : List ApiCall) :
    ∀ gs : GameState, gs.mode = .update →
      calls.foldl applyApi gs =
        { gs with
          eventBuffer := gs.eventBuffer ++ encodeCmds ((calls.filter ApiCall.isSound).map ApiCall.record),
          commandBuffer :=
            gs.commandBuffer ++
              encodeCmds ((calls.filter (fun c => ¬c.isSound)).map ApiCall.record) } := by
  induction calls with
  | nil => intro gs _; simp [encodeCmds]
  | cons c cs ih =>
      intro gs hm
      rw [List.foldl_cons, ih _ (by rw [applyApi_mode]; exact hm)]
      by_cases hc : c.isSound
      · simp only [applyApi, hc, if_pos, hm]
        simp [hc, encodeCmds]
      · simp only [applyApi, hc, if_neg, Bool.false_eq_true, not_false_iff, if_false]
        simp [hc, encodeCmds]

theorem foldl_applyApi_draw (calls : List ApiCall) :
    ∀ gs : GameState, gs.mode = .draw →
      calls.foldl applyApi gs =
        { gs with commandBuffer := gs.commandBuffer ++ encodeCmds (calls.map ApiCall.record) } := by
  induction calls with
  | nil => intro gs _; simp [encodeCmds]
  | cons c cs ih =>
      intro gs hm
      rw [List.foldl_cons, ih _ (by rw [applyApi_mode]; exact hm)]
      by_cases hc : c.isSound
      · simp only [applyApi, hc, if_pos, hm]
        simp [encodeCmds]
      · simp only [applyApi, hc, if_neg, Bool.false_eq_true, not_false_iff, if_false]
        simp [encodeCmds]

/-- The event records accumulated by a block of `update` invocations. -/
def updateSounds (updates : List (List ApiCall)) : List Cmd :=
  (updates.flatten.filter ApiCall.isSound).map ApiCall.record

theorem foldl_updateTick (updates : List (List ApiCall)) :
    ∀ gs : GameState,
      ((updates.foldl updateTick gs).eventBuffer =
          gs.eventBuffer ++ encodeCmds (updateSounds updates)) ∧
        (updates ≠ [] → (updates.foldl updateTick gs).mode = .update) := by
  induction updates with
  | nil => intro gs; simp [updateSounds, encodeCmds]
  | cons u us ih =>
      intro gs
      rw [List.foldl_cons]
      have hstep : updateTick gs u =
          { gs with
            mode := .update,
            eventBuffer := gs.eventBuffer ++ encodeCmds ((u.filter ApiCall.isSound).map ApiCall.record),
            commandBuffer :=
              gs.commandBuffer ++
                encodeCmds ((u.filter (fun c => ¬c.isSound)).map ApiCall.record) } := by
        rw [updateTick, foldl_applyApi_update u _ rfl]
      constructor
      · rw [hstep, (ih _).1]
        simp [updateSounds, encodeCmds]
      · intro _
        rcases us with _ | ⟨v, vs⟩
        · simp [hstep]
        · exact (ih _).2 (by simp)

theorem drawTick_bytes (gs : GameState) (calls : List ApiCall) :
    (drawTick gs calls).1 = gs.eventBuffer ++ encodeCmds (calls.map ApiCall.record) ∧
      (drawTick gs calls).2.eventBuffer = gs.eventBuffer := by
  simp only [drawTick]
  rw [foldl_applyApi_draw calls _ rfl]
  simp

theorem foldl_drawFold (E : List Nat) :
    ∀ (draws : List (List ApiCall)) (acc : List (List Nat)) (gs : GameState),
      gs.eventBuffer = E →
      (draws.foldl drawFold (acc, gs)).1 =
        acc ++ draws.map (fun d => E ++ encodeCmds (d.map ApiCall.record)) := by
  intro draws
  induction draws with
  | nil => intro acc gs _; simp
  | cons d ds ih =>
      intro acc gs hE
      rw [List.foldl_cons]
      have h1 := drawTick_bytes gs d
      have : drawFold (acc, gs) d =
          (acc ++ [E ++ encodeCmds (d.map ApiCall.record)], (drawTick gs d).2) := by
        simp [drawFold, h1.1, hE]
      rw [this, ih _ _ (by rw [h1.2, hE])]
      simp

/-- **C1**: the byte frame returned by `draw(S)` at any tick consists of
exactly the records emitted by the mode-sensitive sound calls of the `update`
invocations since the previous `begin_frame`, in emission order, followed by
exactly the records emitted during that session's own `draw` callback — and
hence contains nothing emitted by any other session's `draw`.  The statement
holds for every starting `GameState`, every block of update invocations and
every list of per-session draw callbacks. -/
theorem c1_draw_stream (gs : GameState) (updates draws : List (List ApiCall)) :
    (runTick gs updates draws).1 =
      draws.map (fun d =>
        encodeCmds (updateSounds updates) ++ encodeCmds (d.map ApiCall.record)) := by
  simp only [runTick]
  have hE : (updates.foldl updateTick (beginFrame gs)).eventBuffer =
      encodeCmds (updateSounds updates) := by
    have h := (foldl_updateTick updates (beginFrame gs)).1
    simpa [beginFrame] using h
  rw [foldl_drawFold _ draws [] _ hE]
  simp

/-! ## Claim C9: wire round trip -/

/-- A 65536-byte string: `bytes.len() as u16` truncates its length to 0. -/
def c9longText : List Nat := List.replicate 65536 65

theorem parseCmdsAux_succ_cons (n b : Nat) (bs : List Nat) :
    parseCmdsAux (n + 1) (b :: bs) =
      (do
        let (c, rest) ← parseCmd (b :: bs)
        let cs ← parseCmdsAux n rest
        pure (c :: cs)) := rfl

theorem getBytes_zero (l : List Nat) : getBytes 0 l = some ([], l) := by
  simp [getBytes]

theorem parseCmdsAux_cons_step (n b : Nat) (bs rest : List Nat) (c : Cmd)
    (h1 : parseCmd (b :: bs) = some (c, rest)) (h2 : parseCmdsAux n rest = none) :
    parseCmdsAux (n + 1) (b :: bs) = none := by
  rw [parseCmdsAux_succ_cons, h1]
  simp [h2]

theorem parseCmdsAux_cons_fail (n b : Nat) (bs : List Nat)
    (h : parseCmd (b :: bs) = none) : parseCmdsAux (n + 1) (b :: bs) = none := by
  rw [parseCmdsAux_succ_cons, h]
  rfl

theorem drawText_header_length (t : List Nat) :
    (5 :: 0 :: 0 :: 0 :: 0 :: 0 :: 0 :: 0 :: 0 :: 0 :: 0 :: t).length =
      (t.length + 10) + 1 := by simp

/-- A `draw_text` header with zero coordinates and a zero length prefix
parses to an empty-text record, leaving the raw text bytes unconsumed. -/
theorem parse_drawText_header (t : List Nat) :
    parseCmd (5 :: 0 :: 0 :: 0 :: 0 :: 0 :: 0 :: 0 :: 0 :: 0 :: 0 :: t) =
      some (Cmd.drawText 0 0 [], t) := by
  simp [parseCmd, OP_CLEAR, OP_SET_COLOR, OP_FILL_RECT, OP_DRAW_LINE, OP_DRAW_TEXT,
    getU32, getStr, getU16, getBytes_zero]

/-- **C9 counterexample**: a single `draw_text` call with a 65536-byte string
produces a byte stream that does not parse back to its semantic record list
(the emitted length prefix is `65536 % 2^16 = 0`, so the parser hits the raw
text bytes as opcodes), refuting the claimed round trip for arbitrary call
sequences. -/
theorem c9_counterexample :
    parseCmds (encodeCmds ([ApiCall.drawText c9longText 0 0].map ApiCall.record)) = none := by
  have hrec : ([ApiCall.drawText c9longText 0 0].map ApiCall.record) =
      [Cmd.drawText 0 0 c9longText] := rfl
  rw [hrec]
  have hlen : c9longText.length = 65536 := by
    rw [c9longText, List.length_replicate]
  have hpre : putU16 c9longText.length = [0, 0] := by rw [hlen]; norm_num [putU16]
  have hz : putU32 0 = [0, 0, 0, 0] := by norm_num [putU32]
  have henc : encodeCmds [Cmd.drawText 0 0 c9longText] =
      5 :: 0 :: 0 :: 0 :: 0 :: 0 :: 0 :: 0 :: 0 :: 0 :: 0 :: c9longText := by
    simp only [encodeCmds, List.map_cons, List.map_nil, List.flatten_cons, List.flatten_nil,
      encodeCmd, putStr, hpre, hz, List.append_nil, OP_DRAW_TEXT, List.cons_append,
      List.nil_append]
  rw [henc, parseCmds]
  have hp1 := parse_drawText_header c9longText
  have hrep : c9longText = 65 :: List.replicate 65535 65 := by
    rw [c9longText, show (65536 : Nat) = 65535 + 1 from rfl, List.replicate_succ]
  have hbad : parseCmd (65 :: List.replicate 65535 65) = none := by
    simp [parseCmd, OP_CLEAR, OP_SET_COLOR, OP_FILL_RECT, OP_DRAW_LINE, OP_DRAW_TEXT,
      OP_LOAD_SOUND, OP_PLAY_SOUND, OP_STOP_SOUND, OP_SET_VOLUME]
  have h10 : c9longText.length + 10 = (c9longText.length + 9) + 1 := by omega
  rw [drawText_header_length c9longText]
  refine parseCmdsAux_cons_step _ _ _ _ _ hp1 ?_
  rw [h10, hrep]
  exact parseCmdsAux_cons_fail _ _ _ hbad

/-- **C9** (amended): for every sequence of `api.*` writer calls *whose string
arguments are shorter than 65536 bytes*, parsing the produced byte stream per
the §6.1 opcode table yields exactly the semantic records of the calls (with
the documented defaults `alpha = 255`, `width = 1.0`, `loop = false`,
`volume = 1.0` applied), and re-encoding that record list reproduces the byte
stream exactly.  The `Cmd.wf` side condition also records that float fields
are 32-bit patterns, which the Rust `f32` type guarantees; the string-length
clause is the part the counterexample forces. -/
theorem c9_roundtrip (calls : List ApiCall)
    (hw : ∀ a ∈ calls, (ApiCall.record a).wf) :
    parseCmds (encodeCmds (calls.map ApiCall.record)) = some (calls.map ApiCall.record) ∧
      ∀ cs', parseCmds (encodeCmds (calls.map ApiCall.record)) = some cs' →
        encodeCmds cs' = encodeCmds (calls.map ApiCall.record) := by
  have h := parseCmdsAux_encodeCmds (calls.map ApiCall.record)
    (by intro c hc; obtain ⟨a, ha, rfl⟩ := List.mem_map.1 hc; exact hw a ha)
    (encodeCmds (calls.map ApiCall.record)).length (length_le_encodeCmds _)
  refine ⟨h, fun cs' h' => ?_⟩
  have : some (calls.map ApiCall.record) = some cs' := by
    calc some (calls.map ApiCall.record) = parseCmds (encodeCmds (calls.map ApiCall.record)) :=
          h.symm
    _ = some cs' := h'
  rw [Option.some_inj.1 this]

/-- Witness for C9: a concrete call sequence exercising the defaults. -/
theorem c9_roundtrip_witness :
    parseCmds (encodeCmds ([ApiCall.setColor 10 20 30 none,
        ApiCall.playSound [98, 111, 111, 109] none none,
        ApiCall.drawText [104, 105] 0 1065353216].map ApiCall.record)) =
      some ([ApiCall.setColor 10 20 30 none,
        ApiCall.playSound [98, 111, 111, 109] none none,
        ApiCall.drawText [104, 105] 0 1065353216].map ApiCall.record) :=
  (c9_roundtrip _ (by decide)).1

/-! # The spatial index (src/engine/crates/engine/src/spatial_db.rs)

`f32` coordinates are embedded as `ℝ`. -/

inductive EntityKind where
  | circle (radius : ℝ)
  | segment (x2 y2 : ℝ)

/-- An indexed entity; keyed by its id in `SpatialDb.entities`, so the
source's redundant inner `id` field is dropped. -/
structure Entity where
  x : ℝ
  y : ℝ
  kind : EntityKind
  tag_hash : Nat

/-- Stand-in for `DefaultHasher` over the UTF-8 tag: any stable hash is
admissible per the spec (§4.1); insertion and filtering use this same
function, which is all the source relies on. -/
def calculate_hash (tag : String) : Nat :=
  tag.data.foldl (fun h c => h * 31 + c.toNat) 5381

structure SpatialDb where
  next_id : Nat
  cell_size : ℝ
  entities : Nat → Option Entity
  grid : Int × Int → List Nat

def SpatialDb.new (cell_size : ℝ) : SpatialDb :=
  { next_id := 1, cell_size := cell_size, entities := fun _ => none, grid := fun _ => [] }

noncomputable def SpatialDb.get_cell (db : SpatialDb) (x y : ℝ) : Int × Int :=
  (⌊x / db.cell_size⌋, ⌊y / db.cell_size⌋)

/-- The integer interval `a..=b` as a list. -/
def intRange (a b : Int) : List Int :=
  (List.range (b + 1 - a).toNat).map (fun i => a + Int.ofNat i)

/-- All cells of the rectangle `min_c..=max_c` (the source's double loop,
collected through a `HashSet`; the double loop is duplicate-free already). -/
def cellRect (minc maxc : Int × Int) : List (Int × Int) :=
  (intRange minc.1 maxc.1).flatMap (fun cx => (intRange minc.2 maxc.2).map (fun cy => (cx, cy)))

/-- `SpatialDb::get_cells_for_entity`: AABB cover for both kinds. -/
noncomputable def SpatialDb.get_cells_for_entity (db : SpatialDb) (e : Entity) :
    List (Int × Int) :=
  match e.kind with
  | .circle radius =>
      cellRect (db.get_cell (e.x - radius) (e.y - radius))
        (db.get_cell (e.x + radius) (e.y + radius))
  | .segment x2 y2 =>
      cellRect (db.get_cell (min e.x x2) (min e.y y2))
        (db.get_cell (max e.x x2) (max e.y y2))

/-- `SpatialDb::add_to_grid`: push the id into every covered cell. -/
noncomputable def SpatialDb.add_to_grid (db : SpatialDb) (id : Nat) : SpatialDb :=
  match db.entities id with
  | none => db
  | some e =>
      { db with
        grid := (db.get_cells_for_entity e).foldl
          (fun g cell => Function.update g cell (g cell ++ [id])) db.grid }

/-- `iter().position(|&x| x == id)`. -/
def findPos (l : List Nat) (id : Nat) : Option Nat :=
  match l with
  | [] => none
  | a :: t => if a = id then some 0 else (findPos t id).map (· + 1)

/-- `Vec::swap_remove(pos)` at the first occurrence of `id` (no-op when
absent): the last element is moved into the hole and the length shrinks. -/
def swapRemoveFirst (l : List Nat) (id : Nat) : List Nat :=
  match findPos l id with
  | none => l
  | some i => (l.set i (l.getLastD 0)).dropLast

/-- `SpatialDb::remove_from_grid`. -/
noncomputable def SpatialDb.remove_from_grid (db : SpatialDb) (id : Nat) : SpatialDb :=
  match db.entities id with
  | none => db
  | some e =>
      { db with
        grid := (db.get_cells_for_entity e).foldl
          (fun g cell => Function.update g cell (swapRemoveFirst (g cell) id)) db.grid }

/-- `SpatialDb::add_circle`; returns the new state and the allocated id. -/
noncomputable def SpatialDb.add_circle (db : SpatialDb) (x y radius : ℝ) (tag : String) :
    SpatialDb × Nat :=
  let id := db.next_id
  let e : Entity := { x := x, y := y, kind := .circle radius, tag_hash := calculate_hash tag }
  let db1 := { db with
    next_id := id + 1,
    entities := Function.update db.entities id (some e) }
  (db1.add_to_grid id, id)

/-- `SpatialDb::add_segment`. -/
noncomputable def SpatialDb.add_segment (db : SpatialDb) (x1 y1 x2 y2 : ℝ) (tag : String) :
    SpatialDb × Nat :=
  let id := db.next_id
  let e : Entity := { x := x1, y := y1, kind := .segment x2 y2, tag_hash := calculate_hash tag }
  let db1 := { db with
    next_id := id + 1,
    entities := Function.update db.entities id (some e) }
  (db1.add_to_grid id, id)

def SpatialDb.get_position (db : SpatialDb) (id : Nat) : Option (ℝ × ℝ) :=
  (db.entities id).map (fun e => (e.x, e.y))

def SpatialDb.get_entity_info (db : SpatialDb) (id : Nat) : Option (ℝ × ℝ × EntityKind) :=
  (db.entities id).map (fun e => (e.x, e.y, e.kind))

/-- The in-place mutation of `update_position`: segments translate rigidly
(the endpoint is shifted by the same delta), circles just move. -/
def moveEntity (e : Entity) (x y : ℝ) : Entity :=
  match e.kind with
  | .segment x2 y2 =>
      { e with x := x, y := y, kind := .segment (x2 + (x - e.x)) (y2 + (y - e.y)) }
  | .circle _ => { e with x := x, y := y }

/-- `SpatialDb::update_position`: guarded by `contains_key`; remove from
grid, mutate, re-insert. -/
noncomputable def SpatialDb.update_position (db : SpatialDb) (id : Nat) (x y : ℝ) :
    SpatialDb :=
  if (db.entities id).isSome then
    let db1 := db.remove_from_grid id
    let db2 := { db1 with
      entities := Function.update db1.entities id ((db1.entities id).map (moveEntity · x y)) }
    db2.add_to_grid id
  else db

/-- `SpatialDb::remove`: guarded by `contains_key`. -/
noncomputable def SpatialDb.remove (db : SpatialDb) (id : Nat) : SpatialDb :=
  if (db.entities id).isSome then
    let db1 := db.remove_from_grid id
    { db1 with entities := Function.update db1.entities id none }
  else db

/-! ## Grid-membership invariant (claim C5) -/

theorem intRange_nodup (a b : Int) : (intRange a b).Nodup := by
  unfold intRange
  refine List.Nodup.map ?_ (List.nodup_range _)
  intro i j h
  have h' : a + Int.ofNat i = a + Int.ofNat j := h
  exact Int.ofNat.inj (add_left_cancel h')

theorem cellRect_nodup (minc maxc : Int × Int) : (cellRect minc maxc).Nodup := by
  unfold cellRect
  refine List.nodup_flatMap.2 ⟨fun cx _ => ?_, ?_⟩
  · refine List.Nodup.map ?_ (intRange_nodup _ _)
    intro y z h
    have h' : ((cx, y) : Int × Int) = (cx, z) := h
    injection h' with h1 h2
  · refine (intRange_nodup _ _).imp ?_
    intro cx cx' hne p hp hp'
    simp only [List.mem_map] at hp hp'
    obtain ⟨cy, _, hcy⟩ := hp
    obtain ⟨cy', _, hcy'⟩ := hp'
    rw [← hcy] at hcy'
    exact hne (congrArg Prod.fst hcy').symm

theorem get_cells_nodup (db : SpatialDb) (e : Entity) :
    (db.get_cells_for_entity e).Nodup := by
  unfold SpatialDb.get_cells_for_entity
  cases e.kind <;> exact cellRect_nodup _ _

theorem get_cells_congr (db1 db2 : SpatialDb) (h : db1.cell_size = db2.cell_size)
    (e : Entity) : db1.get_cells_for_entity e = db2.get_cells_for_entity e := by
  unfold SpatialDb.get_cells_for_entity SpatialDb.get_cell
  rw [h]

theorem foldl_push_grid (id : Nat) (cells : List (Int × Int)) (hn : cells.Nodup)
    (g : Int × Int → List Nat) (c : Int × Int) :
    (cells.foldl (fun g cell => Function.update g cell (g cell ++ [id])) g) c =
      if c ∈ cells then g c ++ [id] else g c := by
  induction cells generalizing g with
  | nil => simp
  | cons c0 cs ih =>
      rw [List.foldl_cons, ih (List.Nodup.of_cons hn)]
      by_cases hc : c ∈ cs
      · have hne : c ≠ c0 := fun h => (List.nodup_cons.1 hn).1 (h ▸ hc)
        rw [if_pos hc, if_pos (by simp [hc]), Function.update_noteq hne]
      · by_cases hc0 : c = c0
        · subst hc0
          rw [if_neg hc, if_pos (by simp), Function.update_same]
        · rw [if_neg hc, if_neg (by simp [hc, hc0]), Function.update_noteq hc0]

theorem foldl_swapRemove_grid (id : Nat) (cells : List (Int × Int)) (hn : cells.Nodup)
    (g : Int × Int → List Nat) (c : Int × Int) :
    (cells.foldl (fun g cell => Function.update g cell (swapRemoveFirst (g cell) id)) g) c =
      if c ∈ cells then swapRemoveFirst (g c) id else g c := by
  induction cells generalizing g with
  | nil => simp
  | cons c0 cs ih =>
      rw [List.foldl_cons, ih (List.Nodup.of_cons hn)]
      by_cases hc : c ∈ cs
      · have hne : c ≠ c0 := fun h => (List.nodup_cons.1 hn).1 (h ▸ hc)
        rw [if_pos hc, if_pos (by simp [hc]), Function.update_noteq hne]
      · by_cases hc0 : c = c0
        · subst hc0
          rw [if_neg hc, if_pos (by simp), Function.update_same]
        · rw [if_neg hc, if_neg (by simp [hc, hc0]), Function.update_noteq hc0]

theorem findPos_eq_none (l : List Nat) (id : Nat) : findPos l id = none ↔ id ∉ l := by
  induction l with
  | nil => simp [findPos]
  | cons a t ih =>
      by_cases h : a = id
      · subst h; simp [findPos]
      · rw [findPos, if_neg h]
        have hmap : (findPos t id).map (· + 1) = none ↔ findPos t id = none := by
          cases findPos t id <;> simp
        rw [hmap, ih]
        simp only [List.mem_cons, not_or]
        exact ⟨fun hn => ⟨fun hc => h hc.symm, hn⟩, fun hp => hp.2⟩

theorem swapRemoveFirst_of_not_mem (l : List Nat) (id : Nat) (h : id ∉ l) :
    swapRemoveFirst l id = l := by
  rw [swapRemoveFirst, (findPos_eq_none _ _).2 h]

theorem getLastD_irrel (t : List Nat) (h : t ≠ []) (d d' : Nat) :
    t.getLastD d = t.getLastD d' := by
  cases t with
  | nil => exact absurd rfl h
  | cons b t' =>
      rw [List.getLastD_eq_getLast?, List.getLastD_eq_getLast?,
        List.getLast?_eq_getLast _ (by simp)]
      rfl

theorem swapRemoveFirst_perm (l : List Nat) (id : Nat) :
    (swapRemoveFirst l id).Perm (l.erase id) := by
  induction l with
  | nil => simp [swapRemoveFirst, findPos]
  | cons a t ih =>
      by_cases h : a = id
      · subst h
        cases t with
        | nil => simp [swapRemoveFirst, findPos]
        | cons b t' =>
            have hfp : findPos (a :: b :: t') a = some 0 := by simp [findPos]
            rw [swapRemoveFirst, hfp]
            show (((a :: b :: t').set 0 ((a :: b :: t').getLastD 0)).dropLast).Perm
              ((a :: b :: t').erase a)
            have hset : (a :: b :: t').set 0 ((a :: b :: t').getLastD 0) =
                (a :: b :: t').getLastD 0 :: b :: t' := rfl
            rw [hset, List.dropLast_cons₂, List.erase_cons_head]
            have hbt : (b :: t') ≠ [] := by simp
            have hz : (a :: b :: t').getLastD 0 = (b :: t').getLast hbt := by
              rw [List.getLastD_cons, List.getLastD_eq_getLast?,
                List.getLast?_eq_getLast _ hbt]
              rfl
            have h1 : (b :: t').dropLast ++ [(b :: t').getLast hbt] = b :: t' :=
              List.dropLast_append_getLast _
            rw [hz]
            refine List.Perm.trans (List.perm_append_singleton _ _).symm ?_
            rw [h1]
      · by_cases hm : id ∈ t
        · have hne : t ≠ [] := by rintro rfl; simp at hm
          obtain ⟨i, hi⟩ : ∃ i, findPos t id = some i := by
            cases hfp : findPos t id with
            | none => exact absurd ((findPos_eq_none t id).1 hfp) (by simpa using hm)
            | some i => exact ⟨i, rfl⟩
          have hfp : findPos (a :: t) id = some (i + 1) := by simp [findPos, h, hi]
          rw [swapRemoveFirst, hfp]
          show (((a :: t).set (i + 1) ((a :: t).getLastD 0)).dropLast).Perm
            ((a :: t).erase id)
          have hset : (a :: t).set (i + 1) ((a :: t).getLastD 0) =
              a :: t.set i (t.getLastD 0) := by
            rw [List.set_cons_succ, List.getLastD_cons, getLastD_irrel t hne a 0]
          rw [hset]
          have hlen : t.set i (t.getLastD 0) ≠ [] := by
            intro hcon
            have hl := congrArg List.length hcon
            simp only [List.length_set, List.length_nil] at hl
            exact hne (List.length_eq_zero.1 hl)
          rw [List.dropLast_cons_of_ne_nil hlen,
            List.erase_cons_tail (by simpa using h)]
          refine List.Perm.cons a ?_
          have ih' := ih
          rw [swapRemoveFirst, hi] at ih'
          exact ih'
        · have hnm : id ∉ a :: t := by
            simp only [List.mem_cons]
            rintro (rfl | hc)
            · exact h rfl
            · exact hm hc
          rw [swapRemoveFirst_of_not_mem _ _ hnm, List.erase_of_not_mem hnm]

theorem count_swapRemoveFirst (l : List Nat) (id n : Nat) :
    (swapRemoveFirst l id).count n = (l.erase id).count n :=
  (swapRemoveFirst_perm l id).count_eq n

/-- The C5 invariant: every grid cell holds an id exactly once if the entity
exists and covers the cell, never otherwise; ids at or above `next_id` are
unallocated (which keeps fresh ids out of the grid). -/
def SpatialDb.Inv (db : SpatialDb) : Prop :=
  (∀ id, db.next_id ≤ id → db.entities id = none) ∧
  (∀ id e c, db.entities id = some e →
    (db.grid c).count id = if c ∈ db.get_cells_for_entity e then 1 else 0) ∧
  (∀ id c, db.entities id = none → (db.grid c).count id = 0)

theorem add_to_grid_fields (db : SpatialDb) (id : Nat) :
    (db.add_to_grid id).entities = db.entities ∧
      (db.add_to_grid id).next_id = db.next_id ∧
      (db.add_to_grid id).cell_size = db.cell_size := by
  unfold SpatialDb.add_to_grid
  cases db.entities id <;> exact ⟨rfl, rfl, rfl⟩

theorem add_to_grid_grid (db : SpatialDb) (id : Nat) (e : Entity)
    (h : db.entities id = some e) (c : Int × Int) :
    (db.add_to_grid id).grid c =
      if c ∈ db.get_cells_for_entity e then db.grid c ++ [id] else db.grid c := by
  unfold SpatialDb.add_to_grid
  rw [h]
  exact foldl_push_grid id _ (get_cells_nodup db e) db.grid c

theorem remove_from_grid_fields (db : SpatialDb) (id : Nat) :
    (db.remove_from_grid id).entities = db.entities ∧
      (db.remove_from_grid id).next_id = db.next_id ∧
      (db.remove_from_grid id).cell_size = db.cell_size := by
  unfold SpatialDb.remove_from_grid
  cases db.entities id <;> exact ⟨rfl, rfl, rfl⟩

theorem remove_from_grid_grid (db : SpatialDb) (id : Nat) (e : Entity)
    (h : db.entities id = some e) (c : Int × Int) :
    (db.remove_from_grid id).grid c =
      if c ∈ db.get_cells_for_entity e then swapRemoveFirst (db.grid c) id
      else db.grid c := by
  unfold SpatialDb.remove_from_grid
  rw [h]
  exact foldl_swapRemove_grid id _ (get_cells_nodup db e) db.grid c

theorem count_append_singleton (l : List Nat) (a n : Nat) :
    (l ++ [a]).count n = l.count n + if a = n then 1 else 0 := by
  rw [List.count_append]
  simp [List.count_singleton']

/-- After `remove_from_grid`, the removed id has count 0 in every cell and
every other id's counts are untouched. -/
theorem remove_from_grid_counts (db : SpatialDb) (id : Nat) (e : Entity)
    (h : db.entities id = some e)
    (hcnt : ∀ c, (db.grid c).count id = if c ∈ db.get_cells_for_entity e then 1 else 0) :
    (∀ c, ((db.remove_from_grid id).grid c).count id = 0) ∧
      (∀ n c, n ≠ id → ((db.remove_from_grid id).grid c).count n = (db.grid c).count n) := by
  constructor
  · intro c
    rw [remove_from_grid_grid db id e h c]
    by_cases hc : c ∈ db.get_cells_for_entity e
    · rw [if_pos hc, count_swapRemoveFirst, List.count_erase_self, hcnt c, if_pos hc]
    · rw [if_neg hc, hcnt c, if_neg hc]
  · intro n c hn
    rw [remove_from_grid_grid db id e h c]
    by_cases hc : c ∈ db.get_cells_for_entity e
    · rw [if_pos hc, count_swapRemoveFirst, List.count_erase_of_ne hn]
    · rw [if_neg hc]

/-- Invariant preservation by the shared tail of `add_circle`/`add_segment`:
allocate `next_id`, insert the entity, `add_to_grid`. -/
theorem inv_add_entity (db : SpatialDb) (e : Entity) (hI : db.Inv) :
    (({ db with
        next_id := db.next_id + 1,
        entities := Function.update db.entities db.next_id (some e) }).add_to_grid
      db.next_id).Inv := by
  obtain ⟨hB, hS, hN⟩ := hI
  have hid0none : db.entities db.next_id = none := hB db.next_id le_rfl
  have hid0cnt : ∀ c, (db.grid c).count db.next_id = 0 := fun c => hN _ c hid0none
  set db1 : SpatialDb := { db with
    next_id := db.next_id + 1,
    entities := Function.update db.entities db.next_id (some e) } with hdb1
  have he1 : db1.entities db.next_id = some e := Function.update_same _ _ _
  have hflds := add_to_grid_fields db1 db.next_id
  have hgrid := add_to_grid_grid db1 db.next_id e he1
  have hcs1 : db1.cell_size = db.cell_size := rfl
  have hcells1 : ∀ e', db1.get_cells_for_entity e' = db.get_cells_for_entity e' :=
    fun e' => get_cells_congr _ _ hcs1 e'
  have hcellsD : ∀ e', (db1.add_to_grid db.next_id).get_cells_for_entity e' =
      db.get_cells_for_entity e' :=
    fun e' => get_cells_congr _ _ (by rw [hflds.2.2]) e'
  refine ⟨?_, ?_, ?_⟩
  · intro id hle
    rw [hflds.1]
    rw [hflds.2.1] at hle
    have hne : id ≠ db.next_id := by
      intro hcon
      rw [hcon] at hle
      simp [hdb1] at hle
    rw [show db1.entities = Function.update db.entities db.next_id (some e) from rfl,
      Function.update_noteq hne]
    refine hB id ?_
    have : db1.next_id = db.next_id + 1 := rfl
    rw [this] at hle
    omega
  · intro id e' c hsome
    rw [hflds.1] at hsome
    rw [hcellsD]
    by_cases hid : id = db.next_id
    · subst hid
      have : some e = some e' := by
        rw [← he1, hsome]
      obtain rfl : e = e' := by injection this
      rw [hgrid c, hcells1]
      by_cases hc : c ∈ db.get_cells_for_entity e
      · rw [if_pos hc, if_pos hc, count_append_singleton, hid0cnt c, if_pos rfl]
      · rw [if_neg hc, if_neg hc, hid0cnt c]
    · have hsome' : db.entities id = some e' := by
        rwa [show db1.entities = Function.update db.entities db.next_id (some e) from rfl,
          Function.update_noteq hid] at hsome
      rw [hgrid c, hcells1]
      by_cases hc : c ∈ db.get_cells_for_entity e
      · rw [if_pos hc, count_append_singleton, if_neg (fun hcon => hid hcon.symm),
          Nat.add_zero]
        exact hS id e' c hsome'
      · rw [if_neg hc]
        exact hS id e' c hsome'
  · intro id c hnone
    rw [hflds.1] at hnone
    have hid : id ≠ db.next_id := by
      intro hcon
      rw [hcon] at hnone
      rw [he1] at hnone
      exact Option.noConfusion hnone
    have hnone' : db.entities id = none := by
      rwa [show db1.entities = Function.update db.entities db.next_id (some e) from rfl,
        Function.update_noteq hid] at hnone
    rw [hgrid c]
    by_cases hc : c ∈ db1.get_cells_for_entity e
    · rw [if_pos hc, count_append_singleton, if_neg (fun hcon => hid hcon.symm),
        Nat.add_zero]
      exact hN id c hnone'
    · rw [if_neg hc]
      exact hN id c hnone'

/-- Invariant preservation by remove-from-grid followed by re-insertion of a
mutated entity under the same id (the body of `update_position`). -/
theorem inv_reinsert (db : SpatialDb) (id : Nat) (e0 : Entity) (f : Entity → Entity)
    (h0 : db.entities id = some e0) (hI : db.Inv) :
    (({ db.remove_from_grid id with
        entities := Function.update (db.remove_from_grid id).entities id
          (((db.remove_from_grid id).entities id).map f) }).add_to_grid id).Inv := by
  obtain ⟨hB, hS, hN⟩ := hI
  have hflds1 := remove_from_grid_fields db id
  have hcnts := remove_from_grid_counts db id e0 h0 (fun c => hS id e0 c h0)
  have he0' : (db.remove_from_grid id).entities id = some e0 := by rw [hflds1.1]; exact h0
  set db2 : SpatialDb := { db.remove_from_grid id with
    entities := Function.update (db.remove_from_grid id).entities id
      (((db.remove_from_grid id).entities id).map f) } with hdb2
  have he2 : db2.entities id = some (f e0) := by
    show Function.update (db.remove_from_grid id).entities id
      (((db.remove_from_grid id).entities id).map f) id = some (f e0)
    rw [Function.update_same, he0']
    rfl
  have hflds2 := add_to_grid_fields db2 id
  have hgrid2 := add_to_grid_grid db2 id (f e0) he2
  have hcs2 : db2.cell_size = db.cell_size := hflds1.2.2
  have hcellsD : ∀ e', (db2.add_to_grid id).get_cells_for_entity e' =
      db.get_cells_for_entity e' :=
    fun e' => get_cells_congr _ _ (by rw [hflds2.2.2, hcs2]) e'
  have hcells2 : ∀ e', db2.get_cells_for_entity e' = db.get_cells_for_entity e' :=
    fun e' => get_cells_congr _ _ hcs2 e'
  have hids : ∀ n, n ≠ id → db2.entities n = db.entities n := by
    intro n hn
    show Function.update (db.remove_from_grid id).entities id
      (((db.remove_from_grid id).entities id).map f) n = db.entities n
    rw [Function.update_noteq hn, hflds1.1]
  refine ⟨?_, ?_, ?_⟩
  · intro n hle
    rw [hflds2.1]
    rw [hflds2.2.1] at hle
    have hnextd : db2.next_id = db.next_id := hflds1.2.1
    rw [hnextd] at hle
    have hn : n ≠ id := by
      intro hcon
      subst hcon
      rw [hB n hle] at h0
      exact Option.noConfusion h0
    rw [hids n hn]
    exact hB n hle
  · intro n e' c hsome
    rw [hflds2.1] at hsome
    rw [hcellsD, hgrid2 c]
    by_cases hn : n = id
    · subst hn
      have : some (f e0) = some e' := by rw [← he2, hsome]
      obtain rfl : f e0 = e' := by injection this
      rw [hcells2]
      by_cases hc : c ∈ db.get_cells_for_entity (f e0)
      · rw [if_pos hc, if_pos hc, count_append_singleton, hcnts.1 c, if_pos rfl]
      · rw [if_neg hc, if_neg hc, hcnts.1 c]
    · have hsome' : db.entities n = some e' := by rw [← hids n hn]; exact hsome
      rw [hcells2]
      by_cases hc : c ∈ db.get_cells_for_entity (f e0)
      · rw [if_pos hc, count_append_singleton, if_neg (fun hcon => hn hcon.symm),
          Nat.add_zero, hcnts.2 n c hn]
        exact hS n e' c hsome'
      · rw [if_neg hc, hcnts.2 n c hn]
        exact hS n e' c hsome'
  · intro n c hnone
    rw [hflds2.1] at hnone
    have hn : n ≠ id := by
      intro hcon
      subst hcon
      rw [he2] at hnone
      exact Option.noConfusion hnone
    have hnone' : db.entities n = none := by rw [← hids n hn]; exact hnone
    rw [hgrid2 c]
    by_cases hc : c ∈ db2.get_cells_for_entity (f e0)
    · rw [if_pos hc, count_append_singleton, if_neg (fun hcon => hn hcon.symm),
        Nat.add_zero, hcnts.2 n c hn]
      exact hN n c hnone'
    · rw [if_neg hc, hcnts.2 n c hn]
      exact hN n c hnone'

/-- Invariant preservation by `remove`'s body. -/
theorem inv_erase_entity (db : SpatialDb) (id : Nat) (e0 : Entity)
    (h0 : db.entities id = some e0) (hI : db.Inv) :
    SpatialDb.Inv { db.remove_from_grid id with
      entities := Function.update (db.remove_from_grid id).entities id none } := by
  obtain ⟨hB, hS, hN⟩ := hI
  have hflds1 := remove_from_grid_fields db id
  have hcnts := remove_from_grid_counts db id e0 h0 (fun c => hS id e0 c h0)
  have hids : ∀ n, n ≠ id →
      Function.update (db.remove_from_grid id).entities id none n = db.entities n := by
    intro n hn
    rw [Function.update_noteq hn, hflds1.1]
  refine ⟨?_, ?_, ?_⟩
  · intro n hle
    have hle' : db.next_id ≤ n := by
      have h2 : (db.remove_from_grid id).next_id ≤ n := hle
      rw [hflds1.2.1] at h2
      exact h2
    show Function.update (db.remove_from_grid id).entities id none n = none
    by_cases hn : n = id
    · rw [hn]
      exact Function.update_same _ _ _
    · rw [hids n hn]
      exact hB n hle'
  · intro n e' c hsome
    have hsome0 : Function.update (db.remove_from_grid id).entities id none n = some e' :=
      hsome
    have hn : n ≠ id := by
      intro hcon
      rw [hcon, Function.update_same] at hsome0
      exact Option.noConfusion hsome0
    have hsome' : db.entities n = some e' := by
      rw [← hids n hn]
      exact hsome0
    have hcells : ({ db.remove_from_grid id with
        entities := Function.update (db.remove_from_grid id).entities id none } :
          SpatialDb).get_cells_for_entity e' = db.get_cells_for_entity e' :=
      get_cells_congr _ _ (show _ = db.cell_size from hflds1.2.2) e'
    rw [hcells]
    show ((db.remove_from_grid id).grid c).count n = _
    rw [hcnts.2 n c hn]
    exact hS n e' c hsome'
  · intro n c hnone
    have hnone0 : Function.update (db.remove_from_grid id).entities id none n = none := hnone
    show ((db.remove_from_grid id).grid c).count n = 0
    by_cases hn : n = id
    · rw [hn]
      exact hcnts.1 c
    · rw [hcnts.2 n c hn]
      have hdb : db.entities n = none := by
        rw [← hids n hn]
        exact hnone0
      exact hN n c hdb

theorem update_position_eq (db : SpatialDb) (id : Nat) (x y : ℝ) (e0 : Entity)
    (h0 : db.entities id = some e0) :
    db.update_position id x y =
      ({ db.remove_from_grid id with
        entities := Function.update (db.remove_from_grid id).entities id
          (((db.remove_from_grid id).entities id).map (moveEntity · x y)) }).add_to_grid
        id := by
  rw [SpatialDb.update_position, if_pos (by rw [h0]; rfl)]

theorem remove_eq (db : SpatialDb) (id : Nat) (e0 : Entity)
    (h0 : db.entities id = some e0) :
    db.remove id =
      { db.remove_from_grid id with
        entities := Function.update (db.remove_from_grid id).entities id none } := by
  rw [SpatialDb.remove, if_pos (by rw [h0]; rfl)]

/-- An abstract public operation on the spatial index (claim C5 quantifies
over arbitrary operation sequences). -/
inductive SpatialOp where
  | addCircle (x y radius : ℝ) (tag : String)
  | addSegment (x1 y1 x2 y2 : ℝ) (tag : String)
  | updatePosition (id : Nat) (x y : ℝ)
  | remove (id : Nat)

noncomputable def applySpatialOp (db : SpatialDb) : SpatialOp → SpatialDb
  | .addCircle x y r tag => (db.add_circle x y r tag).1
  | .addSegment x1 y1 x2 y2 tag => (db.add_segment x1 y1 x2 y2 tag).1
  | .updatePosition id x y => db.update_position id x y
  | .remove id => db.remove id

theorem inv_new (cell_size : ℝ) : (SpatialDb.new cell_size).Inv := by
  refine ⟨fun _ _ => rfl, fun id e c h => Option.noConfusion h, fun _ _ _ => rfl⟩

theorem inv_applySpatialOp (db : SpatialDb) (op : SpatialOp) (hI : db.Inv) :
    (applySpatialOp db op).Inv := by
  cases op with
  | addCircle x y r tag => exact inv_add_entity db _ hI
  | addSegment x1 y1 x2 y2 tag => exact inv_add_entity db _ hI
  | updatePosition id x y =>
      cases h0 : db.entities id with
      | none =>
          have heq : db.update_position id x y = db := by
            rw [SpatialDb.update_position, if_neg (by rw [h0]; simp)]
          show (db.update_position id x y).Inv
          rw [heq]
          exact hI
      | some e0 =>
          show (db.update_position id x y).Inv
          rw [update_position_eq db id x y e0 h0]
          exact inv_reinsert db id e0 _ h0 hI
  | remove id =>
      cases h0 : db.entities id with
      | none =>
          have heq : db.remove id = db := by
            rw [SpatialDb.remove, if_neg (by rw [h0]; simp)]
          show (db.remove id).Inv
          rw [heq]
          exact hI
      | some e0 =>
          show (db.remove id).Inv
          rw [remove_eq db id e0 h0]
          exact inv_erase_entity db id e0 h0 hI

theorem inv_foldl (ops : List SpatialOp) :
    ∀ db : SpatialDb, db.Inv → (ops.foldl applySpatialOp db).Inv := by
  induction ops with
  | nil => intro db h; exact h
  | cons op ops ih =>
      intro db h
      rw [List.foldl_cons]
      exact ih _ (inv_applySpatialOp db op h)

/-- **C5**: after any sequence of public operations (`add_circle`,
`add_segment`, `update_position`, `remove`) starting from a fresh index, an
entity's id appears in a grid cell's list iff the cell is covered by the
entity's current position and shape (AABB cover), and then exactly once;
ids without a live entity appear in no cell. -/
theorem c5_grid_membership (cell_size : ℝ) (ops : List SpatialOp) :
    (∀ id e c,
        (ops.foldl applySpatialOp (SpatialDb.new cell_size)).entities id = some e →
          ((ops.foldl applySpatialOp (SpatialDb.new cell_size)).grid c).count id =
            if c ∈ (ops.foldl applySpatialOp (SpatialDb.new cell_size)).get_cells_for_entity e
            then 1 else 0) ∧
      ∀ id c,
        (ops.foldl applySpatialOp (SpatialDb.new cell_size)).entities id = none →
          id ∉ (ops.foldl applySpatialOp (SpatialDb.new cell_size)).grid c := by
  obtain ⟨h1, h2, h3⟩ := inv_foldl ops (SpatialDb.new cell_size) (inv_new cell_size)
  exact ⟨h2, fun id c h => List.count_eq_zero.1 (h3 id c h)⟩

/-- **C10**: `update_position` and `remove` with an id that is not present
leave the spatial index entirely unchanged (no entity, no grid cell, no
counter is touched) and raise no error. -/
theorem c10_missing_id_noop (db : SpatialDb) (id : Nat) (x y : ℝ)
    (h : db.entities id = none) :
    db.update_position id x y = db ∧ db.remove id = db := by
  constructor
  · rw [SpatialDb.update_position, if_neg (by rw [h]; simp)]
  · rw [SpatialDb.remove, if_neg (by rw [h]; simp)]

/-- Witness for C10 at a concrete index: a fresh index with one circle, and
an id (99) that was never allocated. -/
theorem c10_missing_id_noop_witness :
    ((SpatialDb.new 10).add_circle 0 0 5 "a").1.entities 99 = none ∧
      ((SpatialDb.new 10).add_circle 0 0 5 "a").1.update_position 99 3 4 =
        ((SpatialDb.new 10).add_circle 0 0 5 "a").1 ∧
      ((SpatialDb.new 10).add_circle 0 0 5 "a").1.remove 99 =
        ((SpatialDb.new 10).add_circle 0 0 5 "a").1 := by
  have hent : ((SpatialDb.new 10).add_circle 0 0 5 "a").1.entities 99 = none := by
    have hstep : ((SpatialDb.new 10).add_circle 0 0 5 "a").1.entities =
        Function.update (SpatialDb.new 10).entities 1
          (some { x := 0, y := 0, kind := .circle 5, tag_hash := calculate_hash "a" }) :=
      (add_to_grid_fields _ _).1
    rw [hstep, Function.update_noteq (by omega)]
    rfl
  have h := c10_missing_id_noop ((SpatialDb.new 10).add_circle 0 0 5 "a").1 99 3 4 hent
  exact ⟨hent, h.1, h.2⟩

/-! # Queries of the spatial index needed by physics (spatial_db.rs 229-281) -/

/-- The tag filter predicate: hash equality when a filter is given. -/
def tagOk (target_hash : Option Nat) (e : Entity) : Prop :=
  ∀ th, target_hash = some th → e.tag_hash = th

instance (target_hash : Option Nat) (e : Entity) : Decidable (tagOk target_hash e) := by
  unfold tagOk
  cases target_hash with
  | none => exact isTrue (by intro th h; exact Option.noConfusion h)
  | some th =>
      by_cases h : e.tag_hash = th
      · exact isTrue (by intro t ht; injection ht with ht; rw [← ht]; exact h)
      · exact isFalse (fun hc => h (hc th rfl))

/-- `query_range`'s precise test: centre distance for circles, clamped
point-to-segment distance for segments.  A degenerate segment divides by
zero; Rust's NaN clamps to `t = 0` and so does real division by zero, both
selecting the segment's start point. -/
noncomputable def preciseRangeHit (x y range : ℝ) (e : Entity) : Prop :=
  match e.kind with
  | .circle radius =>
      (x - e.x) * (x - e.x) + (y - e.y) * (y - e.y) ≤ (range + radius) * (range + radius)
  | .segment x2 y2 =>
      let seg_len2 := (x2 - e.x) ^ 2 + (y2 - e.y) ^ 2
      let t := min (max (((x - e.x) * (x2 - e.x) + (y - e.y) * (y2 - e.y)) / seg_len2) 0) 1
      let closest_x := e.x + t * (x2 - e.x)
      let closest_y := e.y + t * (y2 - e.y)
      (x - closest_x) ^ 2 + (y - closest_y) ^ 2 ≤ range * range

noncomputable instance (x y range : ℝ) (e : Entity) : Decidable (preciseRangeHit x y range e) := by
  unfold preciseRangeHit
  cases e.kind <;> exact Real.decidableLE _ _

/-- `SpatialDb::query_range`: enumerate candidate cells, skip already-seen
ids, filter by tag hash then by the precise test.  The `HashSet` result order
is unspecified in the source; the embedding returns first-encounter order
over the cell rectangle. -/
noncomputable def SpatialDb.query_range (db : SpatialDb) (x y range : ℝ)
    (tag_filter : Option String) : List Nat :=
  let target_hash := tag_filter.map calculate_hash
  let minc := db.get_cell (x - range) (y - range)
  let maxc := db.get_cell (x + range) (y + range)
  (cellRect minc maxc).foldl
    (fun acc cell =>
      (db.grid cell).foldl
        (fun acc id =>
          if id ∈ acc then acc
          else
            match db.entities id with
            | none => acc
            | some e =>
                if tagOk target_hash e ∧ preciseRangeHit x y range e then acc ++ [id]
                else acc)
        acc)
    []

/-! # The physics world (src/engine/crates/engine/src/physics.rs) -/

structure RigidBody where
  vx : ℝ
  vy : ℝ
  mass : ℝ
  inv_mass : ℝ
  restitution : ℝ
  drag : ℝ
  is_static : Bool

/-- `RigidBody::new`: non-positive mass means static with `inv_mass = 0`,
otherwise `inv_mass = 1/mass`. -/
noncomputable def RigidBody.new (mass restitution drag : ℝ) : RigidBody :=
  { vx := 0, vy := 0, mass := mass,
    inv_mass := if mass ≤ 0 then 0 else 1 / mass,
    restitution := restitution, drag := drag,
    is_static := if mass ≤ 0 then true else false }

/-- The bodies `HashMap` as an association list (iteration order stands in
for the unspecified hash order; the claims below do not depend on it). -/
def alLookup (l : List (Nat × RigidBody)) (id : Nat) : Option RigidBody :=
  (l.find? (fun p => p.1 = id)).map (·.2)

def alModify (l : List (Nat × RigidBody)) (id : Nat) (f : RigidBody → RigidBody) :
    List (Nat × RigidBody) :=
  l.map (fun p => if p.1 = id then (p.1, f p.2) else p)

/-- `HashMap::insert` (overwrite). -/
def alInsert (l : List (Nat × RigidBody)) (id : Nat) (b : RigidBody) :
    List (Nat × RigidBody) :=
  if (alLookup l id).isSome then alModify l id (fun _ => b) else (id, b) :: l

/-- `HashSet::insert` on the per-tick collision-pair set. -/
def insertPair (l : List (Nat × Nat)) (p : Nat × Nat) : List (Nat × Nat) :=
  if p ∈ l then l else l ++ [p]

structure PhysicsWorld where
  db : SpatialDb
  bodies : List (Nat × RigidBody)
  gravity_x : ℝ
  gravity_y : ℝ
  collisions : List (Nat × Nat)

def PhysicsWorld.new (db : SpatialDb) : PhysicsWorld :=
  { db := db, bodies := [], gravity_x := 0, gravity_y := 0, collisions := [] }

/-- `get_collision_events` drains the pair set. -/
def PhysicsWorld.get_collision_events (w : PhysicsWorld) :
    List (Nat × Nat) × PhysicsWorld :=
  (w.collisions, { w with collisions := [] })

noncomputable def PhysicsWorld.add_body (w : PhysicsWorld) (id : Nat)
    (mass restitution drag : ℝ) : PhysicsWorld :=
  { w with bodies := alInsert w.bodies id (RigidBody.new mass restitution drag) }

def PhysicsWorld.remove_body (w : PhysicsWorld) (id : Nat) : PhysicsWorld :=
  { w with bodies := w.bodies.filter (fun p => ¬p.1 = id) }

def PhysicsWorld.set_velocity (w : PhysicsWorld) (id : Nat) (vx vy : ℝ) : PhysicsWorld :=
  { w with bodies := alModify w.bodies id (fun b => { b with vx := vx, vy := vy }) }

def PhysicsWorld.get_velocity (w : PhysicsWorld) (id : Nat) : Option (ℝ × ℝ) :=
  (alLookup w.bodies id).map (fun b => (b.vx, b.vy))

def PhysicsWorld.set_gravity (w : PhysicsWorld) (x y : ℝ) : PhysicsWorld :=
  { w with gravity_x := x, gravity_y := y }

/-- The integration of one dynamic body's velocity (gravity then drag). -/
noncomputable def integrateBody (gx gy dt : ℝ) (b : RigidBody) : RigidBody :=
  if b.is_static then b
  else
    let vx1 := b.vx + gx * dt
    let vy1 := b.vy + gy * dt
    if 0 < b.drag then
      { b with vx := vx1 * (1 - b.drag * dt), vy := vy1 * (1 - b.drag * dt) }
    else { b with vx := vx1, vy := vy1 }

/-- `step`'s narrow phase for one candidate `B` against the (stale) position
of `A` read before the inner loop: circle-circle or circle-segment, returning
`(normal_x, normal_y, penetration)`. -/
noncomputable def detectCollision (pos_a : ℝ × ℝ) (radius_a : ℝ) (x_b y_b : ℝ)
    (kind_b : EntityKind) : Option (ℝ × ℝ × ℝ) :=
  match kind_b with
  | .circle radius_b =>
      let dx := x_b - pos_a.1
      let dy := y_b - pos_a.2
      let dist_sq := dx * dx + dy * dy
      let r_sum := radius_a + radius_b
      if dist_sq < r_sum * r_sum ∧ 0.0001 < dist_sq then
        let dist := Real.sqrt dist_sq
        some (dx / dist, dy / dist, r_sum - dist)
      else none
  | .segment x2 y2 =>
      let dx_seg := x2 - x_b
      let dy_seg := y2 - y_b
      let len_sq := dx_seg * dx_seg + dy_seg * dy_seg
      let t := if 0 < len_sq then
          min (max (((pos_a.1 - x_b) * dx_seg + (pos_a.2 - y_b) * dy_seg) / len_sq) 0) 1
        else 0
      let closest_x := x_b + t * dx_seg
      let closest_y := y_b + t * dy_seg
      let dx := pos_a.1 - closest_x
      let dy := pos_a.2 - closest_y
      let dist_sq := dx * dx + dy * dy
      if dist_sq < radius_a * radius_a then
        let dist := Real.sqrt dist_sq
        let nx := if 0.0001 < dist then dx / dist else 0
        let ny := if 0.0001 < dist then dy / dist else 1
        some (-nx, -ny, radius_a - dist)
      else none

/-- The collision-loop state threaded through `step`'s folds. -/
abbrev PhysState := SpatialDb × List (Nat × RigidBody) × List (Nat × Nat)

/-- The positional correction of `step` (physics.rs 202-216): push A by the
correction scaled with its inverse mass, and push B likewise when B is
dynamic, re-reading B's position after A moved. -/
noncomputable def applyCorrection (id_a : Nat) (pos_a : ℝ × ℝ) (inv_a : ℝ) (id_b : Nat)
    (inv_b : ℝ) (db : SpatialDb) (cx cy : ℝ) : SpatialDb :=
  let db2 := db.update_position id_a (pos_a.1 - cx * inv_a) (pos_a.2 - cy * inv_a)
  if 0 < inv_b then
    match db2.get_position id_b with
    | some pb => db2.update_position id_b (pb.1 + cx * inv_b) (pb.2 + cy * inv_b)
    | none => db2
  else db2

/-- The velocity impulse of `step` (physics.rs 234-245). -/
noncomputable def applyImpulse (id_a id_b : Nat) (inv_a inv_b j nx ny : ℝ)
    (bodies : List (Nat × RigidBody)) : List (Nat × RigidBody) :=
  let bodies2 := alModify bodies id_a (fun b =>
    { b with vx := b.vx - j * nx * inv_a, vy := b.vy - j * ny * inv_a })
  if 0 < inv_b then
    alModify bodies2 id_b (fun b =>
      { b with vx := b.vx + j * nx * inv_b, vy := b.vy + j * ny * inv_b })
  else bodies2

/-- The body of `step`'s resolution once a collision is detected: record the
normalised pair, early-exit on non-positive total inverse mass, apply the
positional correction, then the impulse unless the bodies separate
(`vn > 0`).  `body_a` is the clone taken before the inner loop; velocities
are re-read live.  The `none` fallback for `alLookup bodies id_a` is
unreachable: `id_a` is a live key throughout the loop (the source
`unwrap`s). -/
noncomputable def resolveCollision (id_a : Nat) (pos_a : ℝ × ℝ) (body_a : RigidBody)
    (id_b : Nat) (db : SpatialDb) (bodies : List (Nat × RigidBody))
    (cols : List (Nat × Nat)) (nx ny pen : ℝ) : PhysState :=
  let pair := if id_a < id_b then (id_a, id_b) else (id_b, id_a)
  let cols1 := insertPair cols pair
  let bdata := match alLookup bodies id_b with
    | some bb => (bb.inv_mass, bb.vx, bb.vy, bb.restitution)
    | none => (0, 0, 0, 1)
  let inv_mass_b := bdata.1
  let total_inv_mass := body_a.inv_mass + inv_mass_b
  if total_inv_mass ≤ 0 then (db, bodies, cols1)
  else
    let correction_mag := max (pen - 0.01) 0 / total_inv_mass * 0.8
    let db3 := applyCorrection id_a pos_a body_a.inv_mass id_b inv_mass_b db
      (nx * correction_mag) (ny * correction_mag)
    match alLookup bodies id_a with
    | none => (db3, bodies, cols1)
    | some ba =>
        let vn := (bdata.2.1 - ba.vx) * nx + (bdata.2.2.1 - ba.vy) * ny
        if 0 < vn then (db3, bodies, cols1)
        else
          let e := min body_a.restitution bdata.2.2.2
          let j := -(1 + e) * vn / total_inv_mass
          (db3, applyImpulse id_a id_b body_a.inv_mass inv_mass_b j nx ny bodies, cols1)

/-- One iteration of the inner candidate loop. -/
noncomputable def processPair (id_a : Nat) (pos_a : ℝ × ℝ) (radius_a : ℝ)
    (body_a : RigidBody) (st : PhysState) (id_b : Nat) : PhysState :=
  if id_a = id_b then st
  else
    match st.1.get_entity_info id_b with
    | none => st
    | some (x_b, y_b, kind_b) =>
        match detectCollision pos_a radius_a x_b y_b kind_b with
        | none => st
        | some (nx, ny, pen) =>
            resolveCollision id_a pos_a body_a id_b st.1 st.2.1 st.2.2 nx ny pen

/-- One iteration of the outer loop over dynamic ids: read A's (circle)
entity, clone its body, query candidates, fold the inner loop. -/
noncomputable def stepBody (st : PhysState) (id_a : Nat) : PhysState :=
  match st.1.get_entity_info id_a with
  | some (x, y, EntityKind.circle radius) =>
      match alLookup st.2.1 id_a with
      | none => st
      | some body_a =>
          let nearby := st.1.query_range x y (radius + 50) none
          nearby.foldl (processPair id_a (x, y) radius body_a) st
  | _ => st

/-- `PhysicsWorld::step`: integrate all dynamic bodies and write the moved
positions back, then detect and resolve collisions for every dynamic body. -/
noncomputable def PhysicsWorld.step (w : PhysicsWorld) (dt : ℝ) : PhysicsWorld :=
  let bodies1 := w.bodies.map (fun p => (p.1, integrateBody w.gravity_x w.gravity_y dt p.2))
  let updates := bodies1.filterMap (fun p =>
    if p.2.is_static then none
    else (w.db.get_position p.1).map (fun pos =>
      (p.1, pos.1 + p.2.vx * dt, pos.2 + p.2.vy * dt)))
  let db1 := updates.foldl (fun db u => db.update_position u.1 u.2.1 u.2.2) w.db
  let dynamic_ids := (bodies1.filter (fun p => ¬p.2.is_static = true)).map (·.1)
  let final := dynamic_ids.foldl stepBody (db1, bodies1, w.collisions)
  { w with db := final.1, bodies := final.2.1, collisions := final.2.2 }

/-! ## Association-list facts for the bodies map -/

theorem alLookup_nil (id : Nat) : alLookup [] id = none := rfl

theorem alLookup_cons (p : Nat × RigidBody) (l : List (Nat × RigidBody)) (id : Nat) :
    alLookup (p :: l) id = if p.1 = id then some p.2 else alLookup l id := by
  unfold alLookup
  by_cases h : p.1 = id
  · rw [if_pos h, List.find?_cons_of_pos _ (by simpa using h)]
    rfl
  · rw [if_neg h, List.find?_cons_of_neg _ (by simpa using h)]

theorem alLookup_map (l : List (Nat × RigidBody)) (f : RigidBody → RigidBody) (id : Nat) :
    alLookup (l.map (fun p => (p.1, f p.2))) id = (alLookup l id).map f := by
  induction l with
  | nil => rfl
  | cons p l ih =>
      rw [List.map_cons, alLookup_cons, alLookup_cons]
      by_cases h : p.1 = id
      · rw [if_pos h, if_pos h]
        rfl
      · rw [if_neg h, if_neg h, ih]

theorem alModify_lookup (l : List (Nat × RigidBody)) (id : Nat) (f : RigidBody → RigidBody)
    (n : Nat) :
    alLookup (alModify l id f) n =
      if n = id then (alLookup l n).map f else alLookup l n := by
  induction l with
  | nil => unfold alModify; by_cases h : n = id <;> simp [h, alLookup_nil]
  | cons p l ih =>
      unfold alModify at ih ⊢
      rw [List.map_cons]
      by_cases hp : p.1 = id
      · rw [if_pos hp]
        rw [alLookup_cons, alLookup_cons]
        by_cases hn : p.1 = n
        · have hnid : n = id := by rw [← hn, hp]
          rw [if_pos hn, if_pos hn, if_pos hnid]
          rfl
        · rw [if_neg hn, if_neg hn, ih]
      · rw [if_neg hp]
        rw [alLookup_cons, alLookup_cons]
        by_cases hn : p.1 = n
        · have hnid : ¬n = id := by rw [← hn]; exact hp
          rw [if_pos hn, if_pos hn, if_neg hnid]
        · rw [if_neg hn, if_neg hn, ih]

theorem alLookup_of_mem (l : List (Nat × RigidBody)) (hk : (l.map Prod.fst).Nodup)
    (p : Nat × RigidBody) (hp : p ∈ l) : alLookup l p.1 = some p.2 := by
  induction l with
  | nil => exact absurd hp (List.not_mem_nil p)
  | cons q l ih =>
      rw [alLookup_cons]
      rcases List.mem_cons.1 hp with rfl | hmem
      · rw [if_pos rfl]
      · have hq : ¬q.1 = p.1 := by
          intro hcon
          have : p.1 ∈ l.map Prod.fst := List.mem_map.2 ⟨p, hmem, rfl⟩
          rw [List.map_cons, List.nodup_cons] at hk
          exact hk.1 (hcon ▸ this)
        rw [if_neg hq]
        exact ih (by rw [List.map_cons, List.nodup_cons] at hk; exact hk.2) hmem

/-! ## Claim C6: collision pairs are normalised and deduplicated -/

/-- The C6 invariant on the pair set. -/
def PairsOk (cols : List (Nat × Nat)) : Prop :=
  cols.Nodup ∧ ∀ p ∈ cols, p.1 < p.2

theorem insertPair_pairsOk (cols : List (Nat × Nat)) (p : Nat × Nat)
    (h : PairsOk cols) (hp : p.1 < p.2) : PairsOk (insertPair cols p) := by
  unfold insertPair
  by_cases hm : p ∈ cols
  · rw [if_pos hm]; exact h
  · rw [if_neg hm]
    constructor
    · rw [List.nodup_append]
      refine ⟨h.1, List.nodup_singleton _, ?_⟩
      intro q hq hq'
      simp only [List.mem_singleton] at hq'
      exact hm (hq' ▸ hq)
    · intro q hq
      rcases List.mem_append.1 hq with h1 | h2
      · exact h.2 q h1
      · simp only [List.mem_singleton] at h2
        rw [h2]
        exact hp

/-- Every branch of `resolveCollision` records exactly the normalised pair. -/
theorem resolveCollision_cols (id_a : Nat) (pos_a : ℝ × ℝ) (body_a : RigidBody)
    (id_b : Nat) (db : SpatialDb) (bodies : List (Nat × RigidBody))
    (cols : List (Nat × Nat)) (nx ny pen : ℝ) :
    (resolveCollision id_a pos_a body_a id_b db bodies cols nx ny pen).2.2 =
      insertPair cols (if id_a < id_b then (id_a, id_b) else (id_b, id_a)) := by
  unfold resolveCollision
  dsimp only
  repeat' split
  all_goals rfl

theorem processPair_cols (id_a : Nat) (pos_a : ℝ × ℝ) (radius_a : ℝ) (body_a : RigidBody)
    (st : PhysState) (id_b : Nat) :
    (processPair id_a pos_a radius_a body_a st id_b).2.2 = st.2.2 ∨
      (¬id_a = id_b ∧
        (processPair id_a pos_a radius_a body_a st id_b).2.2 =
          insertPair st.2.2 (if id_a < id_b then (id_a, id_b) else (id_b, id_a))) := by
  unfold processPair
  by_cases h : id_a = id_b
  · rw [if_pos h]; left; rfl
  · rw [if_neg h]
    cases st.1.get_entity_info id_b with
    | none => left; rfl
    | some info =>
        cases hdet : detectCollision pos_a radius_a info.1 info.2.1 info.2.2 with
        | none => left; simp [hdet]
        | some nrm => right; exact ⟨h, by simp [hdet, resolveCollision_cols]⟩

theorem processPair_pairsOk (id_a : Nat) (pos_a : ℝ × ℝ) (radius_a : ℝ)
    (body_a : RigidBody) (st : PhysState) (id_b : Nat) (h : PairsOk st.2.2) :
    PairsOk (processPair id_a pos_a radius_a body_a st id_b).2.2 := by
  rcases processPair_cols id_a pos_a radius_a body_a st id_b with heq | ⟨hne, heq⟩
  · rw [heq]; exact h
  · rw [heq]
    refine insertPair_pairsOk _ _ h ?_
    by_cases hlt : id_a < id_b
    · rw [if_pos hlt]; exact hlt
    · rw [if_neg hlt]
      show id_b < id_a
      omega

theorem foldl_processPair_pairsOk (id_a : Nat) (pos_a : ℝ × ℝ) (radius_a : ℝ)
    (body_a : RigidBody) (ids : List Nat) :
    ∀ st : PhysState, PairsOk st.2.2 →
      PairsOk (ids.foldl (processPair id_a pos_a radius_a body_a) st).2.2 := by
  induction ids with
  | nil => intro st h; exact h
  | cons id ids ih =>
      intro st h
      rw [List.foldl_cons]
      exact ih _ (processPair_pairsOk _ _ _ _ _ _ h)

theorem stepBody_pairsOk (st : PhysState) (id_a : Nat) (h : PairsOk st.2.2) :
    PairsOk (stepBody st id_a).2.2 := by
  unfold stepBody
  split
  · split
    · exact h
    · exact foldl_processPair_pairsOk _ _ _ _ _ st h
  · exact h

theorem foldl_stepBody_pairsOk (ids : List Nat) :
    ∀ st : PhysState, PairsOk st.2.2 → PairsOk (ids.foldl stepBody st).2.2 := by
  induction ids with
  | nil => intro st h; exact h
  | cons id ids ih =>
      intro st h
      rw [List.foldl_cons]
      exact ih _ (stepBody_pairsOk st id h)

theorem step_pairsOk (w : PhysicsWorld) (dt : ℝ) (h : PairsOk w.collisions) :
    PairsOk (w.step dt).collisions :=
  foldl_stepBody_pairsOk _ _ h

/-- An abstract public operation on the physics world; `mutateDb` stands for
arbitrary concurrent mutation of the shared spatial index by the script
(it cannot touch the collision set). -/
inductive PhysOp where
  | addBody (id : Nat) (mass restitution drag : ℝ)
  | removeBody (id : Nat)
  | setVelocity (id : Nat) (vx vy : ℝ)
  | setGravity (x y : ℝ)
  | step (dt : ℝ)
  | drainEvents
  | mutateDb (f : SpatialDb → SpatialDb)

noncomputable def applyPhysOp (w : PhysicsWorld) : PhysOp → PhysicsWorld
  | .addBody id m e d => w.add_body id m e d
  | .removeBody id => w.remove_body id
  | .setVelocity id vx vy => w.set_velocity id vx vy
  | .setGravity x y => w.set_gravity x y
  | .step dt => w.step dt
  | .drainEvents => (w.get_collision_events).2
  | .mutateDb f => { w with db := f w.db }

theorem applyPhysOp_pairsOk (w : PhysicsWorld) (op : PhysOp) (h : PairsOk w.collisions) :
    PairsOk (applyPhysOp w op).collisions := by
  cases op with
  | step dt => exact step_pairsOk w dt h
  | drainEvents => exact ⟨List.nodup_nil, fun p hp => absurd hp (List.not_mem_nil p)⟩
  | addBody id m e d => exact h
  | removeBody id => exact h
  | setVelocity id vx vy => exact h
  | setGravity x y => exact h
  | mutateDb f => exact h

/-- **C6**: after any sequence of physics-world operations starting from a
fresh world (arbitrary interleavings of `step` calls, body management and
event drains), the list returned by `get_collision_events` contains each
unordered pair at most once, and every reported pair `(a, b)` satisfies
`a < b` — however many times the two bodies were detected as colliding. -/
theorem c6_collision_pairs (db0 : SpatialDb) (ops : List PhysOp) :
    ((ops.foldl applyPhysOp (PhysicsWorld.new db0)).get_collision_events).1.Nodup ∧
      ∀ p ∈ ((ops.foldl applyPhysOp (PhysicsWorld.new db0)).get_collision_events).1,
        p.1 < p.2 := by
  have hfold : ∀ (ops : List PhysOp) (w : PhysicsWorld), PairsOk w.collisions →
      PairsOk (ops.foldl applyPhysOp w).collisions := by
    intro ops
    induction ops with
    | nil => intro w h; exact h
    | cons op ops ih =>
        intro w h
        rw [List.foldl_cons]
        exact ih _ (applyPhysOp_pairsOk w op h)
  have h := hfold ops (PhysicsWorld.new db0)
    ⟨List.nodup_nil, fun p hp => absurd hp (List.not_mem_nil p)⟩
  exact ⟨h.1, h.2⟩

/-! ## Claim C7: static bodies and the impulse divisor guard -/

/-- **C7**: a body built by `add_body` with non-positive mass is static with
`inv_mass` exactly zero, and otherwise has `inv_mass = 1/mass`; and in the
collision resolution the impulse `j` (the only division by the total inverse
mass) is computed only after the `total_inv_mass ≤ 0` branch early-exits:
when the total inverse mass is non-positive, `resolveCollision` returns with
only the collision event recorded — no position or velocity is touched and
`j` is never formed. -/
theorem c7_static_inv_mass_guard :
    (∀ m e d : ℝ,
        (RigidBody.new m e d).inv_mass = (if m ≤ 0 then 0 else 1 / m) ∧
          ((RigidBody.new m e d).is_static = true ↔ m ≤ 0)) ∧
      ∀ (id_a : Nat) (pos_a : ℝ × ℝ) (body_a : RigidBody) (id_b : Nat) (db : SpatialDb)
        (bodies : List (Nat × RigidBody)) (cols : List (Nat × Nat)) (nx ny pen : ℝ),
        body_a.inv_mass + ((alLookup bodies id_b).elim 0 RigidBody.inv_mass) ≤ 0 →
          resolveCollision id_a pos_a body_a id_b db bodies cols nx ny pen =
            (db, bodies, insertPair cols (if id_a < id_b then (id_a, id_b) else (id_b, id_a))) := by
  constructor
  · intro m e d
    refine ⟨rfl, ?_⟩
    show (if m ≤ 0 then true else false) = true ↔ m ≤ 0
    by_cases h : m ≤ 0
    · rw [if_pos h]; exact ⟨fun _ => h, fun _ => rfl⟩
    · rw [if_neg h]
      exact ⟨fun hc => Bool.noConfusion hc, fun hc => absurd hc h⟩
  · intro id_a pos_a body_a id_b db bodies cols nx ny pen hle
    unfold resolveCollision
    cases hlb : alLookup bodies id_b with
    | none =>
        rw [hlb] at hle
        dsimp only
        rw [if_pos (by simpa using hle)]
    | some bb =>
        rw [hlb] at hle
        dsimp only
        rw [if_pos (by simpa using hle)]

/-- Witness for C7: a static body (mass ≤ 0) has zero inverse mass, and the
degenerate static-vs-wall resolution early-exits past the division. -/
theorem c7_witness :
    (RigidBody.new (-1) 0 0).inv_mass = (if (-1 : ℝ) ≤ 0 then 0 else 1 / (-1)) ∧
      resolveCollision 1 (0, 0) (RigidBody.new (-1) 0 0) 2 (SpatialDb.new 10) [] [] 1 0 (1 / 2) =
        (SpatialDb.new 10, [], insertPair [] (if 1 < 2 then (1, 2) else (2, 1))) := by
  refine ⟨(c7_static_inv_mass_guard.1 (-1) 0 0).1, c7_static_inv_mass_guard.2 _ _ _ _ _ _ _ _ _ _ ?_⟩
  have h1 : (RigidBody.new (-1 : ℝ) 0 0).inv_mass = 0 := by
    rw [(c7_static_inv_mass_guard.1 (-1) 0 0).1, if_pos (by norm_num)]
  rw [h1]
  show (0 : ℝ) + ((alLookup [] 2).elim 0 RigidBody.inv_mass) ≤ 0
  rw [alLookup_nil]
  norm_num

/-! ## Claim C8: static bodies are inert under `step` -/

theorem update_position_entities_ne (db : SpatialDb) (id : Nat) (x y : ℝ) (s : Nat)
    (h : s ≠ id) : (db.update_position id x y).entities s = db.entities s := by
  cases h0 : db.entities id with
  | none => rw [SpatialDb.update_position, if_neg (by rw [h0]; simp)]
  | some e0 =>
      rw [update_position_eq db id x y e0 h0, (add_to_grid_fields _ _).1]
      show Function.update (db.remove_from_grid id).entities id
        (((db.remove_from_grid id).entities id).map (moveEntity · x y)) s = db.entities s
      rw [Function.update_noteq h, (remove_from_grid_fields db id).1]

theorem integrateBody_static (gx gy dt : ℝ) (b : RigidBody) (h : b.is_static = true) :
    integrateBody gx gy dt b = b := by
  unfold integrateBody
  rw [if_pos h]

/-- Integration neither flips `is_static` nor changes the mass data. -/
theorem integrateBody_sig (gx gy dt : ℝ) (b : RigidBody) :
    (integrateBody gx gy dt b).is_static = b.is_static ∧
      (integrateBody gx gy dt b).inv_mass = b.inv_mass := by
  unfold integrateBody
  split
  · exact ⟨rfl, rfl⟩
  · dsimp only
    split
    · exact ⟨rfl, rfl⟩
    · exact ⟨rfl, rfl⟩

/-- The static/mass signature of a body. -/
def sig (b : RigidBody) : Bool × ℝ := (b.is_static, b.inv_mass)

theorem applyCorrection_entities (id_a : Nat) (pos_a : ℝ × ℝ) (inv_a : ℝ) (id_b : Nat)
    (inv_b : ℝ) (db : SpatialDb) (cx cy : ℝ) (s : Nat) (hsa : ¬s = id_a)
    (hsb : s = id_b → inv_b ≤ 0) :
    (applyCorrection id_a pos_a inv_a id_b inv_b db cx cy).entities s = db.entities s := by
  unfold applyCorrection
  dsimp only
  by_cases hb : 0 < inv_b
  · rw [if_pos hb]
    have hsnb : ¬s = id_b := fun hc => absurd (hsb hc) (not_le.2 hb)
    split
    · rw [update_position_entities_ne _ _ _ _ _ hsnb, update_position_entities_ne _ _ _ _ _ hsa]
    · rw [update_position_entities_ne _ _ _ _ _ hsa]
  · rw [if_neg hb]
    exact update_position_entities_ne _ _ _ _ _ hsa

theorem applyImpulse_lookup_ne (id_a id_b : Nat) (inv_a inv_b j nx ny : ℝ)
    (bodies : List (Nat × RigidBody)) (n : Nat) (hna : ¬n = id_a)
    (hnb : n = id_b → inv_b ≤ 0) :
    alLookup (applyImpulse id_a id_b inv_a inv_b j nx ny bodies) n = alLookup bodies n := by
  unfold applyImpulse
  dsimp only
  by_cases hb : 0 < inv_b
  · rw [if_pos hb, alModify_lookup, if_neg (fun hc => absurd (hnb hc) (not_le.2 hb)),
      alModify_lookup, if_neg hna]
  · rw [if_neg hb, alModify_lookup, if_neg hna]

theorem applyImpulse_sig (id_a id_b : Nat) (inv_a inv_b j nx ny : ℝ)
    (bodies : List (Nat × RigidBody)) (n : Nat) :
    (alLookup (applyImpulse id_a id_b inv_a inv_b j nx ny bodies) n).map sig =
      (alLookup bodies n).map sig := by
  unfold applyImpulse
  dsimp only
  by_cases hb : 0 < inv_b
  · rw [if_pos hb, alModify_lookup]
    by_cases h1 : n = id_b
    · rw [if_pos h1, alModify_lookup]
      by_cases h2 : n = id_a
      · rw [if_pos h2]
        cases alLookup bodies n <;> rfl
      · rw [if_neg h2]
        cases alLookup bodies n <;> rfl
    · rw [if_neg h1, alModify_lookup]
      by_cases h2 : n = id_a
      · rw [if_pos h2]
        cases alLookup bodies n <;> rfl
      · rw [if_neg h2]
  · rw [if_neg hb, alModify_lookup]
    by_cases h2 : n = id_a
    · rw [if_pos h2]
      cases alLookup bodies n <;> rfl
    · rw [if_neg h2]

/-- The collision resolution leaves every body's signature unchanged. -/
theorem resolveCollision_sig (id_a : Nat) (pos_a : ℝ × ℝ) (body_a : RigidBody)
    (id_b : Nat) (db : SpatialDb) (bodies : List (Nat × RigidBody))
    (cols : List (Nat × Nat)) (nx ny pen : ℝ) (n : Nat) :
    (alLookup (resolveCollision id_a pos_a body_a id_b db bodies cols nx ny pen).2.1 n).map
        sig = (alLookup bodies n).map sig := by
  unfold resolveCollision
  dsimp only
  repeat' split
  any_goals rfl
  all_goals exact applyImpulse_sig _ _ _ _ _ _ _ _ _

/-- A body that is not the dynamic side and has non-positive inverse mass is
not touched by the resolution. -/
theorem resolveCollision_body_frozen (id_a : Nat) (pos_a : ℝ × ℝ) (body_a : RigidBody)
    (id_b : Nat) (db : SpatialDb) (bodies : List (Nat × RigidBody))
    (cols : List (Nat × Nat)) (nx ny pen : ℝ) (n : Nat) (bn : RigidBody)
    (hn : alLookup bodies n = some bn) (hna : ¬n = id_a) (hinv : bn.inv_mass ≤ 0) :
    alLookup (resolveCollision id_a pos_a body_a id_b db bodies cols nx ny pen).2.1 n =
      some bn := by
  have hnb : ∀ inv_a inv_b j nxx nyy, (n = id_b → inv_b ≤ 0) →
      alLookup (applyImpulse id_a id_b inv_a inv_b j nxx nyy bodies) n = some bn :=
    fun inv_a inv_b j nxx nyy hgate => by
      rw [applyImpulse_lookup_ne _ _ _ _ _ _ _ _ _ hna hgate]
      exact hn
  unfold resolveCollision
  dsimp only
  cases hlb : alLookup bodies id_b with
  | none =>
      dsimp only
      split
      · exact hn
      · split
        · exact hn
        · split
          · exact hn
          · exact hnb _ _ _ _ _ (fun _ => le_refl 0)
  | some bb =>
      dsimp only
      split
      · exact hn
      · split
        · exact hn
        · split
          · exact hn
          · refine hnb _ _ _ _ _ (fun hc => ?_)
            rw [hc, hlb] at hn
            obtain rfl : bb = bn := by injection hn
            exact hinv

/-- An entity that is not the dynamic side keeps its spatial entry through
the resolution, provided it could only be the B side with non-positive
inverse mass. -/
theorem resolveCollision_entities (id_a : Nat) (pos_a : ℝ × ℝ) (body_a : RigidBody)
    (id_b : Nat) (db : SpatialDb) (bodies : List (Nat × RigidBody))
    (cols : List (Nat × Nat)) (nx ny pen : ℝ) (s : Nat) (hsa : ¬s = id_a)
    (hsb : ∀ bb, alLookup bodies id_b = some bb → s = id_b → bb.inv_mass ≤ 0) :
    (resolveCollision id_a pos_a body_a id_b db bodies cols nx ny pen).1.entities s =
      db.entities s := by
  unfold resolveCollision
  dsimp only
  cases hlb : alLookup bodies id_b with
  | none =>
      dsimp only
      split
      · rfl
      · have hcor := fun cx cy =>
          applyCorrection_entities id_a pos_a body_a.inv_mass id_b 0 db cx cy s hsa
            (fun _ => le_refl 0)
        split
        · exact hcor _ _
        · split
          · exact hcor _ _
          · exact hcor _ _
  | some bb =>
      dsimp only
      split
      · rfl
      · have hcor := fun cx cy =>
          applyCorrection_entities id_a pos_a body_a.inv_mass id_b bb.inv_mass db cx cy s
            hsa (fun hc => hsb bb hlb hc)
        split
        · exact hcor _ _
        · split
          · exact hcor _ _
          · exact hcor _ _

theorem mem_insertPair (l : List (Nat × Nat)) (q p : Nat × Nat)
    (h : p ∈ insertPair l q) : p ∈ l ∨ p = q := by
  unfold insertPair at h
  by_cases hm : q ∈ l
  · rw [if_pos hm] at h
    exact Or.inl h
  · rw [if_neg hm] at h
    rcases List.mem_append.1 h with h1 | h2
    · exact Or.inl h1
    · exact Or.inr (by simpa using h2)

/-- Well-formedness of the bodies map produced by `RigidBody::new`: static
bodies carry non-positive (in fact zero) inverse mass, dynamic ones positive
inverse mass. -/
def staticOk (bodies : List (Nat × RigidBody)) : Prop :=
  ∀ id b, alLookup bodies id = some b →
    (b.is_static = true → b.inv_mass ≤ 0) ∧ (b.is_static = false → 0 < b.inv_mass)

/-- The collision-loop invariant for claim C8, relative to the
post-integration bodies `B`, spatial state `D` and incoming pair set `C0`:
signatures never change, static bodies and their entities are frozen, and
every new pair has a dynamic member. -/
def StInv (B : List (Nat × RigidBody)) (D : SpatialDb) (C0 : List (Nat × Nat))
    (st : PhysState) : Prop :=
  (∀ n, (alLookup st.2.1 n).map sig = (alLookup B n).map sig) ∧
    (∀ s b, alLookup B s = some b → b.is_static = true →
      alLookup st.2.1 s = some b ∧ st.1.entities s = D.entities s) ∧
    ∀ p ∈ st.2.2, p ∈ C0 ∨
      ∃ d, (d = p.1 ∨ d = p.2) ∧ ∃ bd, alLookup B d = some bd ∧ bd.is_static = false

theorem staticOk_of_stinv (B : List (Nat × RigidBody)) (D : SpatialDb)
    (C0 : List (Nat × Nat)) (st : PhysState) (hB : staticOk B)
    (h : StInv B D C0 st) : staticOk st.2.1 := by
  intro id b hb
  have hsig := h.1 id
  rw [hb] at hsig
  cases hBl : alLookup B id with
  | none => rw [hBl] at hsig; exact Option.noConfusion hsig
  | some b0 =>
      rw [hBl] at hsig
      have : sig b = sig b0 := by injection hsig
      have h1 : b.is_static = b0.is_static := congrArg Prod.fst this
      have h2 : b.inv_mass = b0.inv_mass := congrArg Prod.snd this
      rw [h1, h2]
      exact hB id b0 hBl

theorem processPair_stinv (B : List (Nat × RigidBody)) (D : SpatialDb)
    (C0 : List (Nat × Nat)) (hB : staticOk B) (id_a : Nat) (pos_a : ℝ × ℝ)
    (radius_a : ℝ) (body_a : RigidBody) (st : PhysState) (id_b : Nat)
    (hdyn : ∃ bd, alLookup B id_a = some bd ∧ bd.is_static = false)
    (h : StInv B D C0 st) :
    StInv B D C0 (processPair id_a pos_a radius_a body_a st id_b) := by
  unfold processPair
  by_cases hab : id_a = id_b
  · rw [if_pos hab]; exact h
  · rw [if_neg hab]
    cases hinfo : st.1.get_entity_info id_b with
    | none => exact h
    | some info =>
        cases hdet : detectCollision pos_a radius_a info.1 info.2.1 info.2.2 with
        | none => simp only [hdet]; exact h
        | some nrm =>
            obtain ⟨nx, nyv, pen⟩ := nrm
            simp only [hdet]
            obtain ⟨bd, hbd, hbds⟩ := hdyn
            have hcur : staticOk st.2.1 := staticOk_of_stinv B D C0 st hB h
            refine ⟨?_, ?_, ?_⟩
            · intro n
              rw [resolveCollision_sig, h.1 n]
            · intro s b hsb hsstat
              have hfr := h.2.1 s b hsb hsstat
              have hsna : ¬s = id_a := by
                intro hc
                rw [hc, hbd] at hsb
                obtain rfl : bd = b := by injection hsb
                rw [hsstat] at hbds
                exact Bool.noConfusion hbds
              have hsinv : b.inv_mass ≤ 0 := (hB s b hsb).1 hsstat
              constructor
              · exact resolveCollision_body_frozen _ _ _ _ _ _ _ _ _ _ s b hfr.1 hsna hsinv
              · rw [resolveCollision_entities _ _ _ _ _ _ _ _ _ _ s hsna ?_]
                · exact hfr.2
                · intro bb hbb hc
                  rw [hc] at hfr
                  rw [hfr.1] at hbb
                  obtain rfl : b = bb := by injection hbb
                  exact hsinv
            · intro p hp
              have hcols := resolveCollision_cols id_a pos_a body_a id_b st.1 st.2.1 st.2.2
                nx nyv pen
              rw [hcols] at hp
              rcases mem_insertPair _ _ _ hp with hold | hnew
              · exact h.2.2 p hold
              · right
                refine ⟨id_a, ?_, bd, hbd, hbds⟩
                rw [hnew]
                by_cases hlt : id_a < id_b
                · rw [if_pos hlt]; exact Or.inl rfl
                · rw [if_neg hlt]; exact Or.inr rfl

theorem foldl_processPair_stinv (B : List (Nat × RigidBody)) (D : SpatialDb)
    (C0 : List (Nat × Nat)) (hB : staticOk B) (id_a : Nat) (pos_a : ℝ × ℝ)
    (radius_a : ℝ) (body_a : RigidBody)
    (hdyn : ∃ bd, alLookup B id_a = some bd ∧ bd.is_static = false)
    (ids : List Nat) :
    ∀ st : PhysState, StInv B D C0 st →
      StInv B D C0 (ids.foldl (processPair id_a pos_a radius_a body_a) st) := by
  induction ids with
  | nil => intro st h; exact h
  | cons id ids ih =>
      intro st h
      rw [List.foldl_cons]
      exact ih _ (processPair_stinv B D C0 hB id_a pos_a radius_a body_a st id hdyn h)

theorem stepBody_stinv (B : List (Nat × RigidBody)) (D : SpatialDb)
    (C0 : List (Nat × Nat)) (hB : staticOk B) (st : PhysState) (id_a : Nat)
    (hdyn : ∃ bd, alLookup B id_a = some bd ∧ bd.is_static = false)
    (h : StInv B D C0 st) : StInv B D C0 (stepBody st id_a) := by
  unfold stepBody
  split
  · split
    · exact h
    · exact foldl_processPair_stinv B D C0 hB _ _ _ _ hdyn _ st h
  · exact h

theorem foldl_stepBody_stinv (B : List (Nat × RigidBody)) (D : SpatialDb)
    (C0 : List (Nat × Nat)) (hB : staticOk B) (ids : List Nat)
    (hids : ∀ id ∈ ids, ∃ bd, alLookup B id = some bd ∧ bd.is_static = false) :
    ∀ st : PhysState, StInv B D C0 st →
      StInv B D C0 (ids.foldl stepBody st) := by
  induction ids with
  | nil => intro st h; exact h
  | cons id ids ih =>
      intro st h
      rw [List.foldl_cons]
      exact ih (fun i hi => hids i (by simp [hi])) _
        (stepBody_stinv B D C0 hB st id (hids id (by simp)) h)

theorem foldl_update_position_entities (ups : List (Nat × ℝ × ℝ)) (s : Nat)
    (h : ∀ u ∈ ups, ¬u.1 = s) :
    ∀ db : SpatialDb,
      (ups.foldl (fun db u => db.update_position u.1 u.2.1 u.2.2) db).entities s =
        db.entities s := by
  induction ups with
  | nil => intro db; rfl
  | cons u us ih =>
      intro db
      rw [List.foldl_cons, ih (fun v hv => h v (by simp [hv]))]
      exact update_position_entities_ne _ _ _ _ _
        (fun hc => h u (by simp) hc.symm)

/-- The heart of C8: across one `step`, every static body keeps its exact
body record and its spatial entry, and every collision pair present
afterwards was either already present or has a dynamic member. -/
theorem step_static (w : PhysicsWorld) (dt : ℝ)
    (hkeys : (w.bodies.map Prod.fst).Nodup) (hok : staticOk w.bodies) :
    (∀ s b, alLookup w.bodies s = some b → b.is_static = true →
        alLookup (w.step dt).bodies s = some b ∧
          (w.step dt).db.entities s = w.db.entities s) ∧
      ∀ p ∈ (w.step dt).collisions, p ∈ w.collisions ∨
        ∃ d, (d = p.1 ∨ d = p.2) ∧
          ∃ bd, alLookup w.bodies d = some bd ∧ bd.is_static = false := by
  have hBlookup : ∀ n,
      alLookup (w.bodies.map (fun p => (p.1, integrateBody w.gravity_x w.gravity_y dt p.2))) n
        = (alLookup w.bodies n).map (integrateBody w.gravity_x w.gravity_y dt) :=
    fun n => alLookup_map w.bodies _ n
  have hfst : (Prod.fst ∘ fun p : Nat × RigidBody =>
      (p.1, integrateBody w.gravity_x w.gravity_y dt p.2)) = Prod.fst :=
    funext fun p => rfl
  have hkeysB :
      ((w.bodies.map (fun p => (p.1, integrateBody w.gravity_x w.gravity_y dt p.2))).map
        Prod.fst).Nodup := by
    rw [List.map_map, hfst]
    exact hkeys
  have hokB : staticOk
      (w.bodies.map (fun p => (p.1, integrateBody w.gravity_x w.gravity_y dt p.2))) := by
    intro id b hb
    rw [hBlookup] at hb
    cases h0 : alLookup w.bodies id with
    | none => rw [h0] at hb; exact Option.noConfusion hb
    | some b0 =>
        rw [h0, Option.map_some'] at hb
        obtain rfl : integrateBody w.gravity_x w.gravity_y dt b0 = b := by injection hb
        have hsig := integrateBody_sig w.gravity_x w.gravity_y dt b0
        rw [hsig.1, hsig.2]
        exact hok id b0 h0
  have hdynB : ∀ id ∈ ((w.bodies.map
        (fun p => (p.1, integrateBody w.gravity_x w.gravity_y dt p.2))).filter
          (fun p => ¬p.2.is_static = true)).map Prod.fst,
      ∃ bd, alLookup (w.bodies.map
          (fun p => (p.1, integrateBody w.gravity_x w.gravity_y dt p.2))) id = some bd ∧
        bd.is_static = false := by
    intro id hid
    obtain ⟨p, hpf, rfl⟩ := List.mem_map.1 hid
    have hpm := List.mem_filter.1 hpf
    refine ⟨p.2, alLookup_of_mem _ hkeysB p hpm.1, ?_⟩
    have := hpm.2
    simp only [decide_eq_true_eq] at this
    cases hs : p.2.is_static with
    | false => rfl
    | true => exact absurd hs this
  have hupds : ∀ s b, alLookup w.bodies s = some b → b.is_static = true →
      ∀ u ∈ (w.bodies.map
          (fun p => (p.1, integrateBody w.gravity_x w.gravity_y dt p.2))).filterMap
            (fun p => if p.2.is_static then none
              else (w.db.get_position p.1).map
                (fun pos => (p.1, pos.1 + p.2.vx * dt, pos.2 + p.2.vy * dt))),
        ¬u.1 = s := by
    intro s b hs hstat u hu hc
    obtain ⟨p, hpB, hpu⟩ := List.mem_filterMap.1 hu
    by_cases hps : p.2.is_static
    · rw [if_pos hps] at hpu
      exact Option.noConfusion hpu
    · rw [if_neg hps] at hpu
      cases hgp : w.db.get_position p.1 with
      | none => rw [hgp] at hpu; exact Option.noConfusion hpu
      | some pos =>
          rw [hgp, Option.map_some'] at hpu
          have hu1 : u.1 = p.1 := by rw [← Option.some.inj hpu]
          have hplook := alLookup_of_mem _ hkeysB p hpB
          rw [hu1] at hc
          rw [hc, hBlookup, hs, Option.map_some',
            integrateBody_static _ _ _ _ hstat] at hplook
          obtain rfl : b = p.2 := by injection hplook
          exact hps hstat
  have hInit : StInv
      (w.bodies.map (fun p => (p.1, integrateBody w.gravity_x w.gravity_y dt p.2)))
      (((w.bodies.map (fun p => (p.1, integrateBody w.gravity_x w.gravity_y dt p.2))).filterMap
          (fun p => if p.2.is_static then none
            else (w.db.get_position p.1).map
              (fun pos => (p.1, pos.1 + p.2.vx * dt, pos.2 + p.2.vy * dt)))).foldl
        (fun db u => db.update_position u.1 u.2.1 u.2.2) w.db)
      w.collisions
      (((w.bodies.map (fun p => (p.1, integrateBody w.gravity_x w.gravity_y dt p.2))).filterMap
          (fun p => if p.2.is_static then none
            else (w.db.get_position p.1).map
              (fun pos => (p.1, pos.1 + p.2.vx * dt, pos.2 + p.2.vy * dt)))).foldl
        (fun db u => db.update_position u.1 u.2.1 u.2.2) w.db,
       w.bodies.map (fun p => (p.1, integrateBody w.gravity_x w.gravity_y dt p.2)),
       w.collisions) :=
    ⟨fun n => rfl, fun s b hs _ => ⟨hs, rfl⟩, fun p hp => Or.inl hp⟩
  have hFinal := foldl_stepBody_stinv _ _ _ hokB _ hdynB _ hInit
  constructor
  · intro s b hs hstat
    have hBs : alLookup
        (w.bodies.map (fun p => (p.1, integrateBody w.gravity_x w.gravity_y dt p.2))) s =
          some b := by
      rw [hBlookup, hs, Option.map_some', integrateBody_static _ _ _ _ hstat]
    have h2 := hFinal.2.1 s b hBs hstat
    refine ⟨h2.1, ?_⟩
    refine h2.2.trans ?_
    exact foldl_update_position_entities _ s (hupds s b hs hstat) w.db
  · intro p hp
    rcases hFinal.2.2 p hp with hold | ⟨d, hd, bd, hbd, hbds⟩
    · exact Or.inl hold
    · right
      rw [hBlookup] at hbd
      cases h0 : alLookup w.bodies d with
      | none => rw [h0] at hbd; exact Option.noConfusion hbd
      | some bd0 =>
          rw [h0, Option.map_some'] at hbd
          obtain rfl : integrateBody w.gravity_x w.gravity_y dt bd0 = bd := by injection hbd
          refine ⟨d, hd, bd0, h0, ?_⟩
          have hsig := integrateBody_sig w.gravity_x w.gravity_y dt bd0
          rw [← hsig.1]
          exact hbds

/-- **C8**: in every `step(dt)`, a colliding pair in which both bodies are
static produces neither a positional correction nor an impulse nor a
recorded collision event: both bodies keep their exact body records (no
impulse) and their spatial entries (no correction, no integration), and the
normalised pair is never added to the event set (any pair present after the
step that was not present before has a dynamic member). -/
theorem c8_static_pair (w : PhysicsWorld) (dt : ℝ)
    (hkeys : (w.bodies.map Prod.fst).Nodup) (hok : staticOk w.bodies)
    (a b : Nat) (ba bb : RigidBody)
    (ha : alLookup w.bodies a = some ba) (hsa : ba.is_static = true)
    (hb : alLookup w.bodies b = some bb) (hsb : bb.is_static = true) :
    ((min a b, max a b) ∈ (w.step dt).collisions →
        (min a b, max a b) ∈ w.collisions) ∧
      alLookup (w.step dt).bodies a = some ba ∧
      (w.step dt).db.entities a = w.db.entities a ∧
      alLookup (w.step dt).bodies b = some bb ∧
      (w.step dt).db.entities b = w.db.entities b := by
  have hs := step_static w dt hkeys hok
  refine ⟨?_, (hs.1 a ba ha hsa).1, (hs.1 a ba ha hsa).2,
    (hs.1 b bb hb hsb).1, (hs.1 b bb hb hsb).2⟩
  intro hp
  rcases hs.2 _ hp with hold | ⟨d, hd, bd, hbd, hbds⟩
  · exact hold
  · exfalso
    have hdab : d = a ∨ d = b := by
      rcases hd with h1 | h1 <;> (simp only [] at h1; omega)
    rcases hdab with rfl | rfl
    · rw [ha] at hbd
      obtain rfl : ba = bd := by injection hbd
      rw [hsa] at hbds
      exact Bool.noConfusion hbds
    · rw [hb] at hbd
      obtain rfl : bb = bd := by injection hbd
      rw [hsb] at hbds
      exact Bool.noConfusion hbds

theorem c8_static_pair_witness :
    alLookup
        ((PhysicsWorld.mk (SpatialDb.new 10)
            [(1, RigidBody.new 0 (1/2) 0), (2, RigidBody.new (-1) (1/2) 0)] 0 0 []).step
          1).bodies 1 = some (RigidBody.new 0 (1/2) 0) ∧
      ((PhysicsWorld.mk (SpatialDb.new 10)
            [(1, RigidBody.new 0 (1/2) 0), (2, RigidBody.new (-1) (1/2) 0)] 0 0 []).step
          1).db.entities 1 = (SpatialDb.new 10).entities 1 ∧
      alLookup
        ((PhysicsWorld.mk (SpatialDb.new 10)
            [(1, RigidBody.new 0 (1/2) 0), (2, RigidBody.new (-1) (1/2) 0)] 0 0 []).step
          1).bodies 2 = some (RigidBody.new (-1) (1/2) 0) ∧
      ((PhysicsWorld.mk (SpatialDb.new 10)
            [(1, RigidBody.new 0 (1/2) 0), (2, RigidBody.new (-1) (1/2) 0)] 0 0 []).step
          1).db.entities 2 = (SpatialDb.new 10).entities 2 := by
  have hXs : (RigidBody.new (0 : ℝ) (1/2) 0).is_static = true := by
    show (if (0 : ℝ) ≤ 0 then true else false) = true
    rw [if_pos le_rfl]
  have hXi : (RigidBody.new (0 : ℝ) (1/2) 0).inv_mass = 0 := by
    show (if (0 : ℝ) ≤ 0 then (0 : ℝ) else 1 / 0) = 0
    rw [if_pos le_rfl]
  have hYs : (RigidBody.new (-1 : ℝ) (1/2) 0).is_static = true := by
    show (if (-1 : ℝ) ≤ 0 then true else false) = true
    rw [if_pos (by norm_num)]
  have hYi : (RigidBody.new (-1 : ℝ) (1/2) 0).inv_mass = 0 := by
    show (if (-1 : ℝ) ≤ 0 then (0 : ℝ) else 1 / (-1)) = 0
    rw [if_pos (by norm_num)]
  have hkeys : (([(1, RigidBody.new (0 : ℝ) (1/2) 0),
      (2, RigidBody.new (-1 : ℝ) (1/2) 0)]).map Prod.fst).Nodup := by
    simp
  have hok : staticOk
      [(1, RigidBody.new (0 : ℝ) (1/2) 0), (2, RigidBody.new (-1 : ℝ) (1/2) 0)] := by
    intro id b h
    rw [alLookup_cons, alLookup_cons, alLookup_nil] at h
    split_ifs at h with h1 h2
    · obtain rfl : RigidBody.new (0 : ℝ) (1/2) 0 = b := Option.some.inj h
      exact ⟨fun _ => le_of_eq hXi, fun hf => absurd (hXs.symm.trans hf) (by decide)⟩
    · obtain rfl : RigidBody.new (-1 : ℝ) (1/2) 0 = b := Option.some.inj h
      exact ⟨fun _ => le_of_eq hYi, fun hf => absurd (hYs.symm.trans hf) (by decide)⟩
  have ha : alLookup
      [(1, RigidBody.new (0 : ℝ) (1/2) 0), (2, RigidBody.new (-1 : ℝ) (1/2) 0)] 1 =
        some (RigidBody.new 0 (1/2) 0) := by
    rw [alLookup_cons, if_pos rfl]
  have hb : alLookup
      [(1, RigidBody.new (0 : ℝ) (1/2) 0), (2, RigidBody.new (-1 : ℝ) (1/2) 0)] 2 =
        some (RigidBody.new (-1) (1/2) 0) := by
    rw [alLookup_cons, if_neg (by decide), alLookup_cons, if_pos rfl]
  have H := c8_static_pair
    (PhysicsWorld.mk (SpatialDb.new 10)
      [(1, RigidBody.new 0 (1/2) 0), (2, RigidBody.new (-1) (1/2) 0)] 0 0 [])
    1 hkeys hok 1 2 (RigidBody.new 0 (1/2) 0) (RigidBody.new (-1) (1/2) 0)
    ha hXs hb hYs
  exact ⟨H.2.1, H.2.2.1, H.2.2.2.1, H.2.2.2.2⟩

/-! ## C2: `SpatialDb::cast_ray` -/

/-- The per-entity hit test of `cast_ray`'s candidate loop: the analytic
ray-vs-circle solve keeping only the root `(-b - sqrt disc)/(2a)` (gated by
`t >= 0 && t <= max_dist`, result normalised to a fraction of `max_dist`),
and line-line intersection for segments with both parameters in `[0,1]`
(there `t` is already the fraction of the ray). Returns
`(dist_fraction, hit_x, hit_y)`. -/
noncomputable def rayHit (x1 y1 dx dy x2 y2 max_dist : ℝ) (e : Entity) :
    Option (ℝ × ℝ × ℝ) :=
  match e.kind with
  | .circle radius =>
      let fx := x1 - e.x
      let fy := y1 - e.y
      let a := dx * dx + dy * dy
      let b := 2 * (fx * dx + fy * dy)
      let c := fx * fx + fy * fy - radius * radius
      let discriminant := b * b - 4 * a * c
      if 0 ≤ discriminant then
        let t := (-b - Real.sqrt discriminant) / (2 * a)
        if 0 ≤ t ∧ t ≤ max_dist then
          some (t / max_dist, x1 + dx * t, y1 + dy * t)
        else none
      else none
  | .segment wx2 wy2 =>
      let den := (x1 - x2) * (e.y - wy2) - (y1 - y2) * (e.x - wx2)
      if den ≠ 0 then
        let t := ((x1 - e.x) * (e.y - wy2) - (y1 - e.y) * (e.x - wx2)) / den
        let u := -((x1 - x2) * (y1 - e.y) - (y1 - y2) * (x1 - e.x)) / den
        if 0 ≤ t ∧ t ≤ 1 ∧ 0 ≤ u ∧ u ≤ 1 then
          some (t, x1 + t * (x2 - x1), y1 + t * (y2 - y1))
        else none
      else none

/-- One candidate's contribution to `cast_ray`: skipped when the id is
dangling or fails the tag filter, otherwise the geometric hit. -/
noncomputable def castHit (db : SpatialDb) (target_hash : Option Nat)
    (x1 y1 dx dy x2 y2 max_dist : ℝ) (id : Nat) : Option (ℝ × ℝ × ℝ) :=
  match db.entities id with
  | none => none
  | some e =>
      if tagOk target_hash e then rayHit x1 y1 dx dy x2 y2 max_dist e else none

/-- `cast_ray`'s accumulator step: keep the incumbent unless the new hit's
fraction is strictly smaller (`hit_dist < cd`). -/
noncomputable def castStep (db : SpatialDb) (target_hash : Option Nat)
    (x1 y1 dx dy x2 y2 max_dist : ℝ) (closest : Option (Nat × ℝ × ℝ × ℝ))
    (id : Nat) : Option (Nat × ℝ × ℝ × ℝ) :=
  match castHit db target_hash x1 y1 dx dy x2 y2 max_dist id with
  | none => closest
  | some (t, hx, hy) =>
      match closest with
      | none => some (id, t, hx, hy)
      | some cl => if t < cl.2.1 then some (id, t, hx, hy) else closest

/-- `HashSet::insert` on a first-seen-order list. -/
def dedupInsert (acc : List Nat) (id : Nat) : List Nat :=
  if id ∈ acc then acc else acc ++ [id]

/-- The candidate ids of `cast_ray`: march `0..=steps` sample points along
the ray, take the 3x3 cell neighbourhood of each, and gather every id
stored in those cells (the `HashSet` modelled in traversal order; the
theorems below do not depend on that order). -/
noncomputable def castCandidates (db : SpatialDb) (x1 y1 dx dy max_dist : ℝ) :
    List Nat :=
  let steps := ⌈max_dist / db.cell_size⌉
  let cells := (intRange 0 steps).flatMap (fun i =>
    let c := db.get_cell (x1 + dx * db.cell_size * (i : ℝ))
      (y1 + dy * db.cell_size * (i : ℝ))
    (intRange (-1) 1).flatMap (fun ox =>
      (intRange (-1) 1).map (fun oy => (c.1 + ox, c.2 + oy))))
  cells.foldl (fun acc cell => (db.grid cell).foldl dedupInsert acc) []

/-- `SpatialDb::cast_ray`. -/
noncomputable def SpatialDb.cast_ray (db : SpatialDb)
    (x1 y1 angle_deg max_dist : ℝ) (tag_filter : Option String) :
    Option (Nat × ℝ × ℝ × ℝ) :=
  let rad := angle_deg * Real.pi / 180
  let dx := Real.cos rad
  let dy := Real.sin rad
  let x2 := x1 + dx * max_dist
  let y2 := y1 + dy * max_dist
  let target_hash := tag_filter.map calculate_hash
  (castCandidates db x1 y1 dx dy max_dist).foldl
    (castStep db target_hash x1 y1 dx dy x2 y2 max_dist) none

/-- Modelled from the spec: ray-vs-circle choosing the nearer
NON-NEGATIVE root, returned as a fraction of `max_dist`. -/
noncomputable def specCircleRayHit (x1 y1 dx dy max_dist cx cy radius : ℝ) :
    Option ℝ :=
  let fx := x1 - cx
  let fy := y1 - cy
  let a := dx * dx + dy * dy
  let b := 2 * (fx * dx + fy * dy)
  let c := fx * fx + fy * fy - radius * radius
  let discriminant := b * b - 4 * a * c
  if 0 ≤ discriminant then
    let t1 := (-b - Real.sqrt discriminant) / (2 * a)
    let t2 := (-b + Real.sqrt discriminant) / (2 * a)
    if 0 ≤ t1 then (if t1 ≤ max_dist then some (t1 / max_dist) else none)
    else if 0 ≤ t2 then (if t2 ≤ max_dist then some (t2 / max_dist) else none)
    else none
  else none

/-- Loop invariant of `cast_ray`'s candidate fold over the ids seen so
far: a `none` accumulator means no id seen yet hits; a `some` accumulator
is a seen id, carries exactly its hit, and its fraction is minimal among
all hits seen. -/
def CastGood (db : SpatialDb) (target_hash : Option Nat)
    (x1 y1 dx dy x2 y2 max_dist : ℝ) (S : List Nat)
    (closest : Option (Nat × ℝ × ℝ × ℝ)) : Prop :=
  match closest with
  | none => ∀ id ∈ S, castHit db target_hash x1 y1 dx dy x2 y2 max_dist id = none
  | some q => q.1 ∈ S ∧
      castHit db target_hash x1 y1 dx dy x2 y2 max_dist q.1 = some q.2 ∧
      ∀ id ∈ S, ∀ h, castHit db target_hash x1 y1 dx dy x2 y2 max_dist id = some h →
        q.2.1 ≤ h.1

theorem castStep_good (db : SpatialDb) (th : Option Nat)
    (x1 y1 dx dy x2 y2 maxd : ℝ) (S : List Nat)
    (closest : Option (Nat × ℝ × ℝ × ℝ)) (id : Nat)
    (h : CastGood db th x1 y1 dx dy x2 y2 maxd S closest) :
    CastGood db th x1 y1 dx dy x2 y2 maxd (S ++ [id])
      (castStep db th x1 y1 dx dy x2 y2 maxd closest id) := by
  unfold castStep
  cases hh : castHit db th x1 y1 dx dy x2 y2 maxd id with
  | none =>
      cases closest with
      | none =>
          intro i hi
          rcases List.mem_append.1 hi with hi | hi
          · exact h i hi
          · rw [List.mem_singleton.1 hi]; exact hh
      | some q =>
          refine ⟨List.mem_append_left _ h.1, h.2.1, ?_⟩
          intro i hi h' hih
          rcases List.mem_append.1 hi with hi | hi
          · exact h.2.2 i hi h' hih
          · rw [List.mem_singleton.1 hi] at hih
            rw [hh] at hih
            exact Option.noConfusion hih
  | some v =>
      obtain ⟨t, hx, hy⟩ := v
      cases closest with
      | none =>
          refine ⟨List.mem_append_right _ (List.mem_singleton.2 rfl), hh, ?_⟩
          intro i hi h' hih
          rcases List.mem_append.1 hi with hi | hi
          · rw [h i hi] at hih; exact Option.noConfusion hih
          · rw [List.mem_singleton.1 hi] at hih
            rw [hh] at hih
            obtain rfl : (t, hx, hy) = h' := Option.some.inj hih
            exact le_refl t
      | some cl =>
          dsimp only
          by_cases hlt : t < cl.2.1
          · rw [if_pos hlt]
            refine ⟨List.mem_append_right _ (List.mem_singleton.2 rfl), hh, ?_⟩
            intro i hi h' hih
            rcases List.mem_append.1 hi with hi | hi
            · exact le_of_lt (lt_of_lt_of_le hlt (h.2.2 i hi h' hih))
            · rw [List.mem_singleton.1 hi] at hih
              rw [hh] at hih
              obtain rfl : (t, hx, hy) = h' := Option.some.inj hih
              exact le_refl t
          · rw [if_neg hlt]
            refine ⟨List.mem_append_left _ h.1, h.2.1, ?_⟩
            intro i hi h' hih
            rcases List.mem_append.1 hi with hi | hi
            · exact h.2.2 i hi h' hih
            · rw [List.mem_singleton.1 hi] at hih
              rw [hh] at hih
              obtain rfl : (t, hx, hy) = h' := Option.some.inj hih
              exact le_of_not_lt hlt

theorem foldl_castStep_good (db : SpatialDb) (th : Option Nat)
    (x1 y1 dx dy x2 y2 maxd : ℝ) (l : List Nat) :
    ∀ (S : List Nat) (closest : Option (Nat × ℝ × ℝ × ℝ)),
      CastGood db th x1 y1 dx dy x2 y2 maxd S closest →
      CastGood db th x1 y1 dx dy x2 y2 maxd (S ++ l)
        (l.foldl (castStep db th x1 y1 dx dy x2 y2 maxd) closest) := by
  induction l with
  | nil => intro S closest h; rw [List.append_nil]; exact h
  | cons a l ih =>
      intro S closest h
      rw [List.foldl_cons]
      have h1 := castStep_good db th x1 y1 dx dy x2 y2 maxd S closest a h
      have h2 := ih (S ++ [a]) _ h1
      rw [List.append_assoc] at h2
      exact h2

/-- The result of `cast_ray` satisfies the candidate-fold invariant over
the full candidate list. -/
theorem cast_ray_good (db : SpatialDb) (x1 y1 angle_deg max_dist : ℝ)
    (tag_filter : Option String) :
    CastGood db (tag_filter.map calculate_hash) x1 y1
      (Real.cos (angle_deg * Real.pi / 180)) (Real.sin (angle_deg * Real.pi / 180))
      (x1 + Real.cos (angle_deg * Real.pi / 180) * max_dist)
      (y1 + Real.sin (angle_deg * Real.pi / 180) * max_dist) max_dist
      (castCandidates db x1 y1 (Real.cos (angle_deg * Real.pi / 180))
        (Real.sin (angle_deg * Real.pi / 180)) max_dist)
      (db.cast_ray x1 y1 angle_deg max_dist tag_filter) := by
  have h0 : CastGood db (tag_filter.map calculate_hash) x1 y1
      (Real.cos (angle_deg * Real.pi / 180)) (Real.sin (angle_deg * Real.pi / 180))
      (x1 + Real.cos (angle_deg * Real.pi / 180) * max_dist)
      (y1 + Real.sin (angle_deg * Real.pi / 180) * max_dist) max_dist [] none :=
    fun i hi => absurd hi (List.not_mem_nil i)
  have h1 := foldl_castStep_good db (tag_filter.map calculate_hash) x1 y1
    (Real.cos (angle_deg * Real.pi / 180)) (Real.sin (angle_deg * Real.pi / 180))
    (x1 + Real.cos (angle_deg * Real.pi / 180) * max_dist)
    (y1 + Real.sin (angle_deg * Real.pi / 180) * max_dist) max_dist
    (castCandidates db x1 y1 (Real.cos (angle_deg * Real.pi / 180))
      (Real.sin (angle_deg * Real.pi / 180)) max_dist) [] none h0
  rw [List.nil_append] at h1
  exact h1

/-- A ray whose origin lies strictly inside a circle gets no hit from
`rayHit`: the only root considered, `(-b - sqrt disc)/(2a)`, is negative
there. -/
theorem rayHit_origin_inside (x1 y1 θ x2v y2v maxd : ℝ) (e : Entity) (radius : ℝ)
    (hk : e.kind = EntityKind.circle radius)
    (hin : (x1 - e.x) * (x1 - e.x) + (y1 - e.y) * (y1 - e.y) < radius * radius) :
    rayHit x1 y1 (Real.cos θ) (Real.sin θ) x2v y2v maxd e = none := by
    obtain ⟨ex, ey, ek, eth⟩ := e
    dsimp only at hk hin
    subst hk
    unfold rayHit
    dsimp only
    have ha : Real.cos (θ) * Real.cos (θ) +
        Real.sin (θ) * Real.sin (θ) = 1 := by
      have h1 := Real.sin_sq_add_cos_sq (θ)
      nlinarith [h1]
    by_cases hd : 0 ≤ (2 * ((x1 - ex) * Real.cos (θ) +
            (y1 - ey) * Real.sin (θ))) *
          (2 * ((x1 - ex) * Real.cos (θ) +
            (y1 - ey) * Real.sin (θ))) -
        4 * (Real.cos (θ) * Real.cos (θ) +
            Real.sin (θ) * Real.sin (θ)) *
          ((x1 - ex) * (x1 - ex) + (y1 - ey) * (y1 - ey) - radius * radius)
    · rw [if_pos hd, if_neg]
      intro hc
      have ht := hc.1
      set bb := 2 * ((x1 - ex) * Real.cos (θ) +
        (y1 - ey) * Real.sin (θ)) with hbb
      set cc := (x1 - ex) * (x1 - ex) + (y1 - ey) * (y1 - ey) - radius * radius with hcc
      have hclt : cc < 0 := by rw [hcc]; linarith
      have hdisc : bb * bb <
          bb * bb - 4 * (Real.cos (θ) *
              Real.cos (θ) +
            Real.sin (θ) *
              Real.sin (θ)) * cc := by
        rw [ha]
        nlinarith [hclt]
      have hsq : |bb| < Real.sqrt (bb * bb - 4 *
          (Real.cos (θ) * Real.cos (θ) +
            Real.sin (θ) * Real.sin (θ)) *
          cc) := by
        have h0 := Real.sqrt_lt_sqrt (mul_self_nonneg bb) hdisc
        have h1 : Real.sqrt (bb * bb) = |bb| := by
          rw [show bb * bb = bb ^ 2 by ring, Real.sqrt_sq_eq_abs]
        rw [h1] at h0
        exact h0
      have hneg : -bb - Real.sqrt (bb * bb - 4 *
          (Real.cos (θ) * Real.cos (θ) +
            Real.sin (θ) * Real.sin (θ)) *
          cc) < 0 := by
        have h2 : -bb ≤ |bb| := neg_le_abs bb
        linarith
      have h2a : (0:ℝ) < 2 * (Real.cos (θ) *
          Real.cos (θ) +
        Real.sin (θ) *
          Real.sin (θ)) := by rw [ha]; norm_num
      have := div_neg_of_neg_of_pos hneg h2a
      linarith [ht, this]
    · rw [if_neg hd]
/-- **C2**: `cast_ray(x, y, angle_deg, max_dist, tag)` returns, among the
collected candidates, the hit with the smallest fraction `t` of
`max_dist` (it returns `none` exactly when no candidate hits), where the
per-candidate hit is `castHit`: the circle case solves the analytic
ray-vs-circle equation but keeps ONLY the nearer root
`(-b - sqrt disc)/(2a)` and requires it non-negative, the segment case is
line-line intersection with both parameters in `[0,1]`, and the returned
`t` is the fraction of `max_dist` consumed. Consequently a ray whose
origin lies strictly inside a candidate circle reports NO hit for that
circle (the nearer root is negative), contrary to the claimed exit-root
hit. -/
theorem c2_smallest_hit (db : SpatialDb) (x1 y1 angle_deg max_dist : ℝ)
    (tag_filter : Option String) :
    (db.cast_ray x1 y1 angle_deg max_dist tag_filter = none ↔
      ∀ id ∈ castCandidates db x1 y1 (Real.cos (angle_deg * Real.pi / 180))
          (Real.sin (angle_deg * Real.pi / 180)) max_dist,
        castHit db (tag_filter.map calculate_hash) x1 y1
          (Real.cos (angle_deg * Real.pi / 180)) (Real.sin (angle_deg * Real.pi / 180))
          (x1 + Real.cos (angle_deg * Real.pi / 180) * max_dist)
          (y1 + Real.sin (angle_deg * Real.pi / 180) * max_dist) max_dist id = none) ∧
    (∀ id t hx hy,
      db.cast_ray x1 y1 angle_deg max_dist tag_filter = some (id, t, hx, hy) →
      id ∈ castCandidates db x1 y1 (Real.cos (angle_deg * Real.pi / 180))
          (Real.sin (angle_deg * Real.pi / 180)) max_dist ∧
        castHit db (tag_filter.map calculate_hash) x1 y1
          (Real.cos (angle_deg * Real.pi / 180)) (Real.sin (angle_deg * Real.pi / 180))
          (x1 + Real.cos (angle_deg * Real.pi / 180) * max_dist)
          (y1 + Real.sin (angle_deg * Real.pi / 180) * max_dist) max_dist id = some (t, hx, hy) ∧
        ∀ id' ∈ castCandidates db x1 y1 (Real.cos (angle_deg * Real.pi / 180))
          (Real.sin (angle_deg * Real.pi / 180)) max_dist,
          ∀ h', castHit db (tag_filter.map calculate_hash) x1 y1
          (Real.cos (angle_deg * Real.pi / 180)) (Real.sin (angle_deg * Real.pi / 180))
          (x1 + Real.cos (angle_deg * Real.pi / 180) * max_dist)
          (y1 + Real.sin (angle_deg * Real.pi / 180) * max_dist) max_dist id' = some h' → t ≤ h'.1) ∧
    (∀ e : Entity, ∀ radius : ℝ, e.kind = EntityKind.circle radius →
      (x1 - e.x) * (x1 - e.x) + (y1 - e.y) * (y1 - e.y) < radius * radius →
      rayHit x1 y1 (Real.cos (angle_deg * Real.pi / 180))
        (Real.sin (angle_deg * Real.pi / 180))
        (x1 + Real.cos (angle_deg * Real.pi / 180) * max_dist)
        (y1 + Real.sin (angle_deg * Real.pi / 180) * max_dist) max_dist e = none) := by
  refine ⟨⟨?_, ?_⟩, ?_, ?_⟩
  · intro h
    have G := cast_ray_good db x1 y1 angle_deg max_dist tag_filter
    rw [h] at G
    exact G
  · intro hall
    cases h : db.cast_ray x1 y1 angle_deg max_dist tag_filter with
    | none => rfl
    | some q =>
        have G := cast_ray_good db x1 y1 angle_deg max_dist tag_filter
        rw [h] at G
        have hc := G.2.1
        rw [hall q.1 G.1] at hc
        exact Option.noConfusion hc
  · intro id t hx hy h
    have G := cast_ray_good db x1 y1 angle_deg max_dist tag_filter
    rw [h] at G
    exact ⟨G.1, G.2.1, fun id' hid' h' hh' => G.2.2 id' hid' h' hh'⟩
  · intro e radius hk hin
    exact rayHit_origin_inside x1 y1 (angle_deg * Real.pi / 180) _ _ max_dist e radius hk hin

/-- The entity table of the one-circle example database. -/
theorem example_db_entities :
    (((SpatialDb.new 10).add_circle 0 0 5 "").1).entities =
      Function.update (fun _ => none) 1
        (some { x := 0, y := 0, kind := EntityKind.circle 5,
                tag_hash := calculate_hash "" }) := by
  have h := (add_to_grid_fields
    { SpatialDb.new 10 with
      next_id := 2,
      entities := Function.update (SpatialDb.new 10).entities 1
        (some { x := 0, y := 0, kind := EntityKind.circle 5,
                tag_hash := calculate_hash "" }) } 1).1
  exact h

/-- Every candidate of the inside-the-circle cast misses. -/
theorem example_db_casthit_none (id : Nat) :
    castHit (((SpatialDb.new 10).add_circle 0 0 5 "").1)
      (Option.map calculate_hash none) 0 0
      (Real.cos (0 * Real.pi / 180)) (Real.sin (0 * Real.pi / 180))
      (0 + Real.cos (0 * Real.pi / 180) * 10)
      (0 + Real.sin (0 * Real.pi / 180) * 10) 10 id = none := by
  unfold castHit
  by_cases hid : id = 1
  · subst hid
    rw [show (((SpatialDb.new 10).add_circle 0 0 5 "").1).entities 1 =
        some { x := 0, y := 0, kind := EntityKind.circle 5,
               tag_hash := calculate_hash "" } by
      rw [example_db_entities]; exact Function.update_same _ _ _]
    dsimp only
    have htag : tagOk (Option.map calculate_hash none)
        { x := 0, y := 0, kind := EntityKind.circle 5,
          tag_hash := calculate_hash "" } :=
      fun th h => Option.noConfusion h
    rw [if_pos htag]
    exact rayHit_origin_inside 0 0 (0 * Real.pi / 180) _ _ 10 _ 5 rfl (by norm_num)
  · rw [show (((SpatialDb.new 10).add_circle 0 0 5 "").1).entities id = none by
      rw [example_db_entities]; exact Function.update_noteq hid _ _]

theorem c2_counterexample :
    (((SpatialDb.new 10).add_circle 0 0 5 "").1).cast_ray 0 0 0 10 none = none ∧
      specCircleRayHit 0 0 (Real.cos (0 * Real.pi / 180))
        (Real.sin (0 * Real.pi / 180)) 10 0 0 5 = some (1 / 2) := by
  constructor
  · cases h : (((SpatialDb.new 10).add_circle 0 0 5 "").1).cast_ray 0 0 0 10 none with
    | none => rfl
    | some q =>
        exfalso
        have G := cast_ray_good (((SpatialDb.new 10).add_circle 0 0 5 "").1) 0 0 0 10 none
        rw [h] at G
        have hc := G.2.1
        rw [example_db_casthit_none q.1] at hc
        exact Option.noConfusion hc
  · have hdx : Real.cos (0 * Real.pi / 180) = 1 := by
      rw [show (0:ℝ) * Real.pi / 180 = 0 by ring, Real.cos_zero]
    have hdy : Real.sin (0 * Real.pi / 180) = 0 := by
      rw [show (0:ℝ) * Real.pi / 180 = 0 by ring, Real.sin_zero]
    have hs : Real.sqrt 100 = 10 := by
      rw [show (100:ℝ) = 10 ^ 2 by norm_num, Real.sqrt_sq (by norm_num : (0:ℝ) ≤ 10)]
    unfold specCircleRayHit
    rw [hdx, hdy]
    norm_num [hs]

theorem c2_smallest_hit_witness :
    (SpatialDb.new 10).cast_ray 0 0 0 10 none = none := by
  have H := c2_smallest_hit (SpatialDb.new 10) 0 0 0 10 none
  refine H.1.mpr ?_
  intro id hid
  rfl

/-! ## C3/C4: `graph_nav.rs` -/

structure Node where
  x : ℝ
  y : ℝ
  edges : List Nat

structure Graph where
  nodes : Nat → Option Node

def Graph.new : Graph := ⟨fun _ => none⟩

/-- `add_node`: `entry(id).or_insert(...)` keeps an existing node. -/
def Graph.add_node (g : Graph) (id : Nat) (x y : ℝ) : Graph :=
  match g.nodes id with
  | some _ => g
  | none => ⟨Function.update g.nodes id (some { x := x, y := y, edges := [] })⟩

/-- `add_edge`: silent no-op when `a` is absent; the target `b` is NOT
checked; duplicates are skipped. -/
def Graph.add_edge (g : Graph) (a b : Nat) : Graph :=
  match g.nodes a with
  | none => g
  | some n =>
      if b ∈ n.edges then g
      else ⟨Function.update g.nodes a (some { n with edges := n.edges ++ [b] })⟩

/-- `heuristic`: `self.nodes[&a]` / `self.nodes[&b]` panic on a missing
id, modelled as `none`. -/
noncomputable def Graph.heuristic (g : Graph) (a b : Nat) : Option ℝ :=
  match g.nodes a, g.nodes b with
  | some n1, some n2 =>
      some (Real.sqrt ((n1.x - n2.x) * (n1.x - n2.x) + (n1.y - n2.y) * (n1.y - n2.y)))
  | _, _ => none

/-- `dist` delegates to `heuristic`. -/
noncomputable def Graph.dist (g : Graph) (a b : Nat) : Option ℝ :=
  g.heuristic a b

inductive PathResult where
  | path (p : List Nat)
  | noPath
  | panicked
  | outOfFuel
deriving DecidableEq

/-- `BinaryHeap::pop` with the inverted `Ord`: remove the first element of
minimal `f_score`. -/
noncomputable def popMin : List (ℝ × Nat) → Option ((ℝ × Nat) × List (ℝ × Nat))
  | [] => none
  | x :: xs =>
      match popMin xs with
      | none => some (x, [])
      | some (m, rest) => if x.1 ≤ m.1 then some (x, xs) else some (m, x :: rest)

/-- The `while let Some(&prev) = came_from.get(&curr)` reconstruction walk,
with fuel against a cyclic `came_from` (where the source would spin). -/
def reconstruct (cf : Nat → Option Nat) : Nat → Nat → List Nat → Option (List Nat)
  | 0, _, _ => none
  | fuel + 1, curr, acc =>
      match cf curr with
      | none => some acc.reverse
      | some prev => reconstruct cf fuel prev (acc ++ [prev])

/-- The neighbour loop of one `find_path` iteration: `g_score[&current]`
and `dist(current, neighbor)` panic (`none`) on missing keys;
`unwrap_or(INFINITY)` makes an unscored neighbour always improvable;
improving inserts `came_from`, `g_score`, and pushes `(g + h, neighbor)`. -/
noncomputable def relaxNeighbors (g : Graph) (goal current : Nat) :
    List Nat → List (ℝ × Nat) × (Nat → Option Nat) × (Nat → Option ℝ) →
    Option (List (ℝ × Nat) × (Nat → Option Nat) × (Nat → Option ℝ))
  | [], st => some st
  | nbr :: rest, (open_set, came_from, g_score) =>
      match g_score current with
      | none => none
      | some gc =>
          match g.dist current nbr with
          | none => none
          | some d =>
              match g_score nbr with
              | none =>
                  match g.heuristic nbr goal with
                  | none => none
                  | some h =>
                      relaxNeighbors g goal current rest
                        (open_set ++ [(gc + d + h, nbr)],
                         Function.update came_from nbr (some current),
                         Function.update g_score nbr (some (gc + d)))
              | some old =>
                  if gc + d < old then
                    match g.heuristic nbr goal with
                    | none => none
                    | some h =>
                        relaxNeighbors g goal current rest
                          (open_set ++ [(gc + d + h, nbr)],
                           Function.update came_from nbr (some current),
                           Function.update g_score nbr (some (gc + d)))
                  else relaxNeighbors g goal current rest (open_set, came_from, g_score)

/-- The `while let Some(State { .. }) = open_set.pop()` loop, fuelled. -/
noncomputable def astarLoop (g : Graph) (goal : Nat) :
    Nat → List (ℝ × Nat) → (Nat → Option Nat) → (Nat → Option ℝ) → PathResult
  | 0, _, _, _ => .outOfFuel
  | fuel + 1, open_set, came_from, g_score =>
      match popMin open_set with
      | none => .noPath
      | some (m, rest) =>
          if m.2 = goal then
            match reconstruct came_from (fuel + 1) goal [goal] with
            | none => .outOfFuel
            | some p => .path p
          else
            match g.nodes m.2 with
            | none => astarLoop g goal fuel rest came_from g_score
            | some node =>
                match relaxNeighbors g goal m.2 node.edges (rest, came_from, g_score) with
                | none => .panicked
                | some st => astarLoop g goal fuel st.1 st.2.1 st.2.2

/-- `Graph::find_path`. -/
noncomputable def Graph.find_path (g : Graph) (start goal : Nat) (fuel : Nat) :
    PathResult :=
  if (g.nodes start).isSome = false ∨ (g.nodes goal).isSome = false then .noPath
  else
    match g.heuristic start goal with
    | none => .panicked
    | some h0 =>
        astarLoop g goal fuel [(h0, start)] (fun _ => none)
          (Function.update (fun _ => none) start (some 0))

theorem popMin_mem (l : List (ℝ × Nat)) (m : ℝ × Nat) (rest : List (ℝ × Nat))
    (h : popMin l = some (m, rest)) : m ∈ l ∧ ∀ q ∈ rest, q ∈ l := by
  induction l generalizing m rest with
  | nil => exact Option.noConfusion h
  | cons x xs ih =>
      rw [popMin] at h
      cases hp : popMin xs with
      | none =>
          rw [hp] at h
          obtain ⟨rfl, rfl⟩ : (x, ([] : List (ℝ × Nat))) = (m, rest) :=
            Option.some.inj h
          exact ⟨List.mem_cons_self x xs, fun q hq => absurd hq (List.not_mem_nil q)⟩
      | some p =>
          obtain ⟨m0, rest0⟩ := p
          rw [hp] at h
          dsimp only at h
          by_cases hle : x.1 ≤ m0.1
          · rw [if_pos hle] at h
            obtain ⟨rfl, rfl⟩ : (x, xs) = (m, rest) := Option.some.inj h
            exact ⟨List.mem_cons_self x xs, fun q hq => List.mem_cons_of_mem x hq⟩
          · rw [if_neg hle] at h
            obtain ⟨rfl, rfl⟩ : (m0, x :: rest0) = (m, rest) := Option.some.inj h
            have hm := ih m rest0 hp
            refine ⟨List.mem_cons_of_mem x hm.1, ?_⟩
            intro q hq
            rcases List.mem_cons.1 hq with h1 | h1
            · rw [h1]; exact List.mem_cons_self x xs
            · exact List.mem_cons_of_mem x (hm.2 q h1)

theorem update_isSome (gs : Nat → Option ℝ) (nbr : Nat) (v : ℝ) (x : Nat)
    (h : (gs x).isSome = true) :
    ((Function.update gs nbr (some v)) x).isSome = true := by
  by_cases hx : x = nbr
  · rw [hx, Function.update_same]; rfl
  · rw [Function.update_noteq hx]; exact h

theorem heuristic_isSome (g : Graph) (a b : Nat)
    (ha : (g.nodes a).isSome = true) (hb : (g.nodes b).isSome = true) :
    ∃ v, g.heuristic a b = some v := by
  unfold Graph.heuristic
  cases h1 : g.nodes a with
  | none => rw [h1] at ha; exact Bool.noConfusion ha
  | some n1 =>
      cases h2 : g.nodes b with
      | none => rw [h2] at hb; exact Bool.noConfusion hb
      | some n2 => exact ⟨_, rfl⟩

theorem relaxNeighbors_sound (g : Graph) (goal current : Nat)
    (hgoal : (g.nodes goal).isSome = true)
    (hcur : (g.nodes current).isSome = true) :
    ∀ (edges : List Nat)
      (o : List (ℝ × Nat)) (cf : Nat → Option Nat) (gs : Nat → Option ℝ),
      (gs current).isSome = true →
      (∀ nbr ∈ edges, (g.nodes nbr).isSome = true) →
      (∀ p ∈ o, (gs p.2).isSome = true) →
      ∃ st, relaxNeighbors g goal current edges (o, cf, gs) = some st ∧
        ∀ p ∈ st.1, (st.2.2 p.2).isSome = true := by
  intro edges
  induction edges with
  | nil =>
      intro o cf gs _ _ hinv
      exact ⟨(o, cf, gs), rfl, hinv⟩
  | cons nbr rest ih =>
      intro o cf gs hgs hedges hinv
      rw [relaxNeighbors]
      obtain ⟨gc, hgc⟩ := Option.isSome_iff_exists.1 hgs
      rw [hgc]
      dsimp only
      have hnbr := hedges nbr (List.mem_cons_self nbr rest)
      obtain ⟨d, hd⟩ := heuristic_isSome g current nbr hcur hnbr
      rw [show g.dist current nbr = some d from hd]
      dsimp only
      obtain ⟨h, hh⟩ := heuristic_isSome g nbr goal hnbr hgoal
      have hrest : ∀ x ∈ rest, (g.nodes x).isSome = true :=
        fun x hx => hedges x (List.mem_cons_of_mem nbr hx)
      have hupdcur : ((Function.update gs nbr (some (gc + d))) current).isSome = true :=
        update_isSome gs nbr (gc + d) current hgs
      have hupdinv : ∀ p ∈ o ++ [(gc + d + h, nbr)],
          ((Function.update gs nbr (some (gc + d))) p.2).isSome = true := by
        intro p hp
        rcases List.mem_append.1 hp with hp | hp
        · exact update_isSome gs nbr (gc + d) p.2 (hinv p hp)
        · rw [List.mem_singleton.1 hp]
          rw [Function.update_same]
          rfl
      cases hgn : gs nbr with
      | none =>
          rw [hh]
          dsimp only
          exact ih (o ++ [(gc + d + h, nbr)]) (Function.update cf nbr (some current))
            (Function.update gs nbr (some (gc + d))) hupdcur hrest hupdinv
      | some old =>
          dsimp only
          by_cases hlt : gc + d < old
          · rw [if_pos hlt, hh]
            dsimp only
            exact ih (o ++ [(gc + d + h, nbr)]) (Function.update cf nbr (some current))
              (Function.update gs nbr (some (gc + d))) hupdcur hrest hupdinv
          · rw [if_neg hlt]
            exact ih o cf gs hgs hrest hinv

theorem astarLoop_no_panic (g : Graph) (goal : Nat)
    (hgoal : (g.nodes goal).isSome = true) :
    ∀ (fuel : Nat) (open_set : List (ℝ × Nat)) (cf : Nat → Option Nat)
      (gs : Nat → Option ℝ),
      (∀ id n, g.nodes id = some n → ∀ e ∈ n.edges, (g.nodes e).isSome = true) →
      (∀ p ∈ open_set, (gs p.2).isSome = true) →
      astarLoop g goal fuel open_set cf gs ≠ PathResult.panicked := by
  intro fuel
  induction fuel with
  | zero => intro o cf gs _ _ h; exact PathResult.noConfusion h
  | succ fuel ih =>
      intro o cf gs hclosed hinv
      rw [astarLoop]
      cases hp : popMin o with
      | none => exact fun h => PathResult.noConfusion h
      | some pr =>
          obtain ⟨m, rest⟩ := pr
          dsimp only
          by_cases hmg : m.2 = goal
          · rw [if_pos hmg]
            cases reconstruct cf (fuel + 1) goal [goal] with
            | none => exact fun h => PathResult.noConfusion h
            | some p => exact fun h => PathResult.noConfusion h
          · rw [if_neg hmg]
            have hmem := popMin_mem o m rest hp
            have hrestinv : ∀ p ∈ rest, (gs p.2).isSome = true :=
              fun p hpq => hinv p (hmem.2 p hpq)
            cases hn : g.nodes m.2 with
            | none => exact ih rest cf gs hclosed hrestinv
            | some node =>
                obtain ⟨st, hst, hstinv⟩ := relaxNeighbors_sound g goal m.2 hgoal
                  (by rw [hn]; rfl) node.edges rest cf gs
                  (hinv m hmem.1) (hclosed m.2 node hn) hrestinv
                dsimp only
                rw [hst]
                exact ih st.1 st.2.1 st.2.2 hclosed hstinv

theorem c4_counterexample :
    (((Graph.new.add_node 1 0 0).add_node 3 5 0).add_edge 1 2).find_path 1 3 2 =
      PathResult.panicked := by
  rfl

/-- **C4** (amended): `find_path` returns a no-path result immediately when
`start` or `goal` is absent, and on graphs whose every stored edge target
is itself a node it never panics, for any fuel bound; but on a graph
holding a dangling edge target it can reach the panicking
`self.nodes[&...]` index (see the counterexample), so totality does not
extend to all states reachable through `add_node`/`add_edge`. -/
theorem c4_no_panic (g : Graph) (start goal fuel : Nat)
    (hclosed : ∀ id n, g.nodes id = some n → ∀ e ∈ n.edges, (g.nodes e).isSome = true) :
    g.find_path start goal fuel ≠ PathResult.panicked ∧
      ((g.nodes start).isSome = false ∨ (g.nodes goal).isSome = false →
        g.find_path start goal fuel = PathResult.noPath) := by
  constructor
  · unfold Graph.find_path
    by_cases hguard : (g.nodes start).isSome = false ∨ (g.nodes goal).isSome = false
    · rw [if_pos hguard]
      exact fun h => PathResult.noConfusion h
    · rw [if_neg hguard]
      have hpair := not_or.1 hguard
      have hstart : (g.nodes start).isSome = true := by
        cases h : (g.nodes start).isSome with
        | false => exact absurd h hpair.1
        | true => rfl
      have hgoal : (g.nodes goal).isSome = true := by
        cases h : (g.nodes goal).isSome with
        | false => exact absurd h hpair.2
        | true => rfl
      obtain ⟨v, hv⟩ := heuristic_isSome g start goal hstart hgoal
      rw [hv]
      dsimp only
      refine astarLoop_no_panic g goal hgoal fuel [(v, start)] (fun _ => none)
        (Function.update (fun _ => none) start (some 0)) hclosed ?_
      intro p hp
      rw [List.mem_singleton.1 hp]
      rw [Function.update_same]
      rfl
  · intro h
    unfold Graph.find_path
    rw [if_pos h]

theorem c4_no_panic_witness :
    Graph.new.find_path 1 2 5 = PathResult.noPath := by
  have H := c4_no_panic Graph.new 1 2 5 (fun id n h => Option.noConfusion h)
  exact H.2 (Or.inl rfl)

/-- One inserted edge: `b` is stored in `a`'s adjacency list. -/
def EdgeStep (g : Graph) (a b : Nat) : Prop :=
  ∃ n, g.nodes a = some n ∧ b ∈ n.edges

/-- An edge-connected sequence from `start` to `goal`. -/
def ValidPath (g : Graph) (start goal : Nat) (p : List Nat) : Prop :=
  p.head? = some start ∧ p.getLast? = some goal ∧ List.Chain' (EdgeStep g) p

/-- The Euclidean cost of one edge (0 as a don't-care default on a
missing node; `ValidPath`s below never hit it). -/
noncomputable def edgeCost (g : Graph) (a b : Nat) : ℝ :=
  match g.dist a b with
  | some d => d
  | none => 0

/-- Total Euclidean cost of a sequence. -/
noncomputable def pathCost (g : Graph) : List Nat → ℝ
  | a :: b :: rest => edgeCost g a b + pathCost g (b :: rest)
  | _ => 0

/-- Decidable check that a finite id set is closed under stored edges. -/
def closedUnder (g : Graph) (acc : List Nat) : Bool :=
  acc.all (fun a =>
    match g.nodes a with
    | none => true
    | some node => node.edges.all (fun b => acc.contains b))

theorem chain_stays_in_closed (g : Graph) (acc : List Nat)
    (hstep : ∀ a ∈ acc, ∀ node, g.nodes a = some node → ∀ b ∈ node.edges, b ∈ acc) :
    ∀ (p : List Nat) (u : Nat), u ∈ acc → List.Chain' (EdgeStep g) (u :: p) →
      (u :: p).getLast (List.cons_ne_nil u p) ∈ acc := by
  intro p
  induction p with
  | nil => intro u hu _; exact hu
  | cons v p ih =>
      intro u hu hch
      obtain ⟨n, hn, hv⟩ := (List.chain'_cons.1 hch).1
      have hvacc : v ∈ acc := hstep u hu n hn v hv
      exact ih v hvacc (List.chain'_cons.1 hch).2

/-- No `ValidPath` escapes a closed id set that contains its start but
not its target. -/
theorem validPath_in_closed (g : Graph) (s t : Nat) (acc : List Nat)
    (hs : s ∈ acc)
    (hstep : ∀ a ∈ acc, ∀ node, g.nodes a = some node → ∀ b ∈ node.edges, b ∈ acc)
    (p : List Nat) (hp : ValidPath g s t p) : t ∈ acc := by
  obtain ⟨hhead, hlast, hchain⟩ := hp
  cases p with
  | nil => exact Option.noConfusion hhead
  | cons u rest =>
      obtain rfl : u = s := Option.some.inj hhead
      have h := chain_stays_in_closed g acc hstep rest u hs hchain
      rw [List.getLast?_eq_getLast _ (List.cons_ne_nil u rest)] at hlast
      rw [Option.some.inj hlast] at h
      exact h

/-- The Bool closure check implies the propositional closure. -/
theorem closedUnder_sound (g : Graph) (acc : List Nat)
    (h : closedUnder g acc = true) :
    ∀ a ∈ acc, ∀ node, g.nodes a = some node → ∀ b ∈ node.edges, b ∈ acc := by
  intro a ha node hnode b hb
  have h1 := List.all_eq_true.1 h a ha
  rw [hnode] at h1
  have h2 := List.all_eq_true.1 h1 b hb
  simpa using h2

theorem c3_counterexample :
    (((Graph.new.add_node 1 0 0).add_node 3 5 0).add_edge 1 2).find_path 1 3 2 =
        PathResult.panicked ∧
      ((((Graph.new.add_node 1 0 0).add_node 3 5 0).add_edge 1 2).nodes 1).isSome
          = true ∧
      ((((Graph.new.add_node 1 0 0).add_node 3 5 0).add_edge 1 2).nodes 3).isSome
          = true ∧
      ([1, 2].contains 1 &&
        (closedUnder (((Graph.new.add_node 1 0 0).add_node 3 5 0).add_edge 1 2) [1, 2] &&
          !([1, 2].contains 3))) = true := by
  exact ⟨rfl, rfl, rfl, rfl⟩

theorem popMin_cons_ne_none (x : ℝ × Nat) (xs : List (ℝ × Nat)) :
    popMin (x :: xs) ≠ none := by
  rw [popMin]
  cases popMin xs with
  | none => exact fun h => Option.noConfusion h
  | some p =>
      dsimp only
      by_cases h : x.1 ≤ p.1.1
      · rw [if_pos h]; exact fun h => Option.noConfusion h
      · rw [if_neg h]; exact fun h => Option.noConfusion h

theorem popMin_eq_none (l : List (ℝ × Nat)) (h : popMin l = none) : l = [] := by
  cases l with
  | nil => rfl
  | cons x xs => exact absurd h (popMin_cons_ne_none x xs)

theorem popMin_min (l : List (ℝ × Nat)) (m : ℝ × Nat) (rest : List (ℝ × Nat))
    (h : popMin l = some (m, rest)) : ∀ e ∈ l, m.1 ≤ e.1 := by
  induction l generalizing m rest with
  | nil => exact Option.noConfusion h
  | cons x xs ih =>
      rw [popMin] at h
      cases hp : popMin xs with
      | none =>
          have hxs := popMin_eq_none xs hp
          rw [hp] at h
          obtain ⟨rfl, rfl⟩ : (x, ([] : List (ℝ × Nat))) = (m, rest) :=
            Option.some.inj h
          intro e he
          rw [hxs] at he
          rw [List.mem_singleton.1 he]
      | some p =>
          obtain ⟨m0, rest0⟩ := p
          rw [hp] at h
          dsimp only at h
          by_cases hle : x.1 ≤ m0.1
          · rw [if_pos hle] at h
            obtain ⟨rfl, rfl⟩ : (x, xs) = (m, rest) := Option.some.inj h
            intro e he
            rcases List.mem_cons.1 he with h1 | h1
            · rw [h1]
            · exact le_trans hle (ih m0 rest0 hp e h1)
          · rw [if_neg hle] at h
            obtain ⟨rfl, rfl⟩ : (m0, x :: rest0) = (m, rest) := Option.some.inj h
            intro e he
            rcases List.mem_cons.1 he with h1 | h1
            · rw [h1]; exact le_of_not_le hle
            · exact ih m rest0 hp e h1

theorem popMin_cover (l : List (ℝ × Nat)) (m : ℝ × Nat) (rest : List (ℝ × Nat))
    (h : popMin l = some (m, rest)) : ∀ e ∈ l, e = m ∨ e ∈ rest := by
  induction l generalizing m rest with
  | nil => exact Option.noConfusion h
  | cons x xs ih =>
      rw [popMin] at h
      cases hp : popMin xs with
      | none =>
          have hxs := popMin_eq_none xs hp
          rw [hp] at h
          obtain ⟨rfl, rfl⟩ : (x, ([] : List (ℝ × Nat))) = (m, rest) :=
            Option.some.inj h
          intro e he
          rw [hxs] at he
          exact Or.inl (List.mem_singleton.1 he)
      | some p =>
          obtain ⟨m0, rest0⟩ := p
          rw [hp] at h
          dsimp only at h
          by_cases hle : x.1 ≤ m0.1
          · rw [if_pos hle] at h
            obtain ⟨rfl, rfl⟩ : (x, xs) = (m, rest) := Option.some.inj h
            intro e he
            rcases List.mem_cons.1 he with h1 | h1
            · exact Or.inl h1
            · exact Or.inr h1
          · rw [if_neg hle] at h
            obtain ⟨rfl, rfl⟩ : (m0, x :: rest0) = (m, rest) := Option.some.inj h
            intro e he
            rcases List.mem_cons.1 he with h1 | h1
            · exact Or.inr (by rw [h1]; exact List.mem_cons_self x rest0)
            · rcases ih m rest0 hp e h1 with h2 | h2
              · exact Or.inl h2
              · exact Or.inr (List.mem_cons_of_mem x h2)

theorem euclid_triangle (x1 y1 x2 y2 x3 y3 : ℝ) :
    Real.sqrt ((x1 - x3) * (x1 - x3) + (y1 - y3) * (y1 - y3)) ≤
      Real.sqrt ((x1 - x2) * (x1 - x2) + (y1 - y2) * (y1 - y2)) +
        Real.sqrt ((x2 - x3) * (x2 - x3) + (y2 - y3) * (y2 - y3)) := by
  have h := Complex.abs.add_le ⟨x1 - x2, y1 - y2⟩ ⟨x2 - x3, y2 - y3⟩
  have hsum : (⟨x1 - x2, y1 - y2⟩ : ℂ) + ⟨x2 - x3, y2 - y3⟩ =
      (⟨x1 - x3, y1 - y3⟩ : ℂ) := by
    apply Complex.ext <;> simp
  rw [hsum] at h
  simpa only [Complex.abs_apply, Complex.normSq_mk] using h

/-- `dist` values are square roots, hence non-negative. -/
theorem dist_nonneg_opt (g : Graph) (a b : Nat) (d : ℝ)
    (h : g.dist a b = some d) : 0 ≤ d := by
  unfold Graph.dist Graph.heuristic at h
  cases h1 : g.nodes a with
  | none => rw [h1] at h; exact Option.noConfusion h
  | some n1 =>
      cases h2 : g.nodes b with
      | none => rw [h1, h2] at h; exact Option.noConfusion h
      | some n2 =>
          rw [h1, h2] at h
          dsimp only at h
          rw [← Option.some.inj h]
          exact Real.sqrt_nonneg _

/-- The heuristic of the goal itself is 0. -/
theorem heuristic_self (g : Graph) (u : Nat) (n : Node) (h : g.nodes u = some n) :
    g.heuristic u u = some 0 := by
  unfold Graph.heuristic
  rw [h]
  dsimp only
  rw [show (n.x - n.x) * (n.x - n.x) + (n.y - n.y) * (n.y - n.y) = 0 by ring,
    Real.sqrt_zero]

/-- Consistency of the heuristic: one edge step plus the remaining
heuristic dominates. -/
theorem heuristic_consistent (g : Graph) (a b c : Nat) (ha hb dab : ℝ)
    (h1 : g.heuristic a c = some ha) (h2 : g.heuristic b c = some hb)
    (h3 : g.dist a b = some dab) : ha ≤ dab + hb := by
  unfold Graph.dist at h3
  unfold Graph.heuristic at h1 h2 h3
  cases ga : g.nodes a with
  | none => rw [ga] at h1; exact Option.noConfusion h1
  | some na =>
      cases gb : g.nodes b with
      | none => rw [gb] at h2; exact Option.noConfusion h2
      | some nb =>
          cases gc : g.nodes c with
          | none => rw [ga, gc] at h1; exact Option.noConfusion h1
          | some nc =>
              rw [ga, gc] at h1
              rw [gb, gc] at h2
              rw [ga, gb] at h3
              dsimp only at h1 h2 h3
              rw [← Option.some.inj h1, ← Option.some.inj h2, ← Option.some.inj h3]
              exact euclid_triangle na.x na.y nb.x nb.y nc.x nc.y

/-- Neighbour `e` of `u` (scored `z`) is fully relaxed: its score beats
`z` + edge cost. -/
def relaxcond (g : Graph) (u : Nat) (z : ℝ) (gs : Nat → Option ℝ) (e : Nat) : Prop :=
  ∃ z' d', gs e = some z' ∧ g.dist u e = some d' ∧ z' ≤ z + d'

/-- All stored neighbours of `u` are relaxed against score `z`. -/
def relaxedAt (g : Graph) (gs : Nat → Option ℝ) (u : Nat) (z : ℝ) : Prop :=
  ∀ node, g.nodes u = some node → ∀ nb ∈ node.edges, relaxcond g u z gs nb

/-- Pointwise decrease of scores (entries are never lost, never raised). -/
def GSLE (gs1 gs2 : Nat → Option ℝ) : Prop :=
  ∀ u z, gs1 u = some z → ∃ z2, gs2 u = some z2 ∧ z2 ≤ z

theorem GSLE_refl (gs : Nat → Option ℝ) : GSLE gs gs :=
  fun u z h => ⟨z, h, le_refl z⟩

theorem GSLE_trans (gs1 gs2 gs3 : Nat → Option ℝ)
    (h1 : GSLE gs1 gs2) (h2 : GSLE gs2 gs3) : GSLE gs1 gs3 := by
  intro u z h
  obtain ⟨z2, hz2, hle2⟩ := h1 u z h
  obtain ⟨z3, hz3, hle3⟩ := h2 u z2 hz2
  exact ⟨z3, hz3, le_trans hle3 hle2⟩

theorem relaxcond_mono (g : Graph) (u : Nat) (z : ℝ) (gs1 gs2 : Nat → Option ℝ)
    (hle : GSLE gs1 gs2) (e : Nat) (h : relaxcond g u z gs1 e) :
    relaxcond g u z gs2 e := by
  obtain ⟨z', d', hz', hd', hle'⟩ := h
  obtain ⟨z2, hz2, hle2⟩ := hle e z' hz'
  exact ⟨z2, d', hz2, hd', le_trans hle2 hle'⟩

theorem relaxedAt_mono (g : Graph) (u : Nat) (z : ℝ) (gs1 gs2 : Nat → Option ℝ)
    (hle : GSLE gs1 gs2) (h : relaxedAt g gs1 u z) : relaxedAt g gs2 u z :=
  fun node hn nb hnb => relaxcond_mono g u z gs1 gs2 hle nb (h node hn nb hnb)

/-- The loop invariant of `find_path`'s A* search: every open entry's key
is its node's score at push time plus its heuristic (and scores only
fall); every scored node either has a matching live open entry or (if not
the goal) has been fully relaxed; scores are non-negative, `start` is
pinned at 0 with no parent, every other scored node has a parent, and
every parent link is a real edge whose endpoints' scores dominate it. -/
def AInv (g : Graph) (start goal : Nat) (open_set : List (ℝ × Nat))
    (cf : Nat → Option Nat) (gs : Nat → Option ℝ) : Prop :=
  (∀ p ∈ open_set, ∃ w z hu, g.heuristic p.2 goal = some hu ∧ p.1 = w + hu ∧
      gs p.2 = some z ∧ z ≤ w) ∧
  (∀ u z, gs u = some z → ∃ hu, g.heuristic u goal = some hu ∧
      ((z + hu, u) ∈ open_set ∨ (u ≠ goal ∧ relaxedAt g gs u z))) ∧
  (∀ u z, gs u = some z → 0 ≤ z) ∧
  gs start = some 0 ∧
  cf start = none ∧
  (∀ u z, gs u = some z → u = start ∨ (cf u).isSome = true) ∧
  (∀ n c, cf n = some c → ∃ node zc zn dcn, g.nodes c = some node ∧ n ∈ node.edges ∧
      gs c = some zc ∧ gs n = some zn ∧ g.dist c n = some dcn ∧ zc + dcn ≤ zn)

/-- `AInv` weakened while `current`'s neighbour sweep is in progress: the
scored-node alternative may also be `current` itself. -/
def SweepInv (g : Graph) (start goal current : Nat) (gc : ℝ)
    (open_set : List (ℝ × Nat)) (cf : Nat → Option Nat) (gs : Nat → Option ℝ) : Prop :=
  (∀ p ∈ open_set, ∃ w z hu, g.heuristic p.2 goal = some hu ∧ p.1 = w + hu ∧
      gs p.2 = some z ∧ z ≤ w) ∧
  (∀ u z, gs u = some z → ∃ hu, g.heuristic u goal = some hu ∧
      ((z + hu, u) ∈ open_set ∨ (u ≠ goal ∧ relaxedAt g gs u z) ∨ u = current)) ∧
  (∀ u z, gs u = some z → 0 ≤ z) ∧
  gs start = some 0 ∧
  cf start = none ∧
  (∀ u z, gs u = some z → u = start ∨ (cf u).isSome = true) ∧
  (∀ n c, cf n = some c → ∃ node zc zn dcn, g.nodes c = some node ∧ n ∈ node.edges ∧
      gs c = some zc ∧ gs n = some zn ∧ g.dist c n = some dcn ∧ zc + dcn ≤ zn) ∧
  gs current = some gc

theorem edgeCost_eq (g : Graph) (a b : Nat) (d : ℝ) (h : g.dist a b = some d) :
    edgeCost g a b = d := by
  unfold edgeCost
  rw [h]

theorem relax_update_inv (g : Graph) (start goal current nbr : Nat) (node : Node)
    (gc d hval : ℝ)
    (hnode : g.nodes current = some node) (hmem : nbr ∈ node.edges)
    (hdist : g.dist current nbr = some d)
    (hh : g.heuristic nbr goal = some hval)
    (hd0 : 0 ≤ d) (hgc0 : 0 ≤ gc)
    (o : List (ℝ × Nat)) (cf : Nat → Option Nat) (gs : Nat → Option ℝ)
    (hinv : SweepInv g start goal current gc o cf gs)
    (hnew : ∀ zold, gs nbr = some zold → gc + d < zold) :
    SweepInv g start goal current gc (o ++ [(gc + d + hval, nbr)])
      (Function.update cf nbr (some current))
      (Function.update gs nbr (some (gc + d))) ∧
      GSLE gs (Function.update gs nbr (some (gc + d))) := by
  obtain ⟨ENT, P1x, G0, S0, CF1, CF3, CF2, HGC⟩ := hinv
  have hstartne : start ≠ nbr := by
    intro hc
    rw [← hc] at hnew
    have := hnew 0 S0
    linarith
  have hcurne : current ≠ nbr := by
    intro hc
    rw [← hc] at hnew
    have := hnew gc HGC
    linarith
  have hgsle : GSLE gs (Function.update gs nbr (some (gc + d))) := by
    intro u z hz
    by_cases hu : u = nbr
    · rw [hu] at hz
      refine ⟨gc + d, ?_, le_of_lt (hnew z hz)⟩
      rw [hu, Function.update_same]
    · exact ⟨z, by rw [Function.update_noteq hu]; exact hz, le_refl z⟩
  refine ⟨⟨?_, ?_, ?_, ?_, ?_, ?_, ?_, ?_⟩, hgsle⟩
  · intro p hp
    rcases List.mem_append.1 hp with hp | hp
    · obtain ⟨w, z, hu, hheu, hpw, hpz, hzw⟩ := ENT p hp
      by_cases hb : p.2 = nbr
      · rw [hb] at hpz
        refine ⟨w, gc + d, hu, hheu, hpw, ?_, le_trans (le_of_lt (hnew z hpz)) hzw⟩
        rw [hb, Function.update_same]
      · exact ⟨w, z, hu, hheu, hpw, by rw [Function.update_noteq hb]; exact hpz, hzw⟩
    · rw [List.mem_singleton.1 hp]
      exact ⟨gc + d, gc + d, hval, hh, rfl, Function.update_same _ _ _, le_refl _⟩
  · intro u z hz
    by_cases hu : u = nbr
    · subst hu
      rw [Function.update_same] at hz
      obtain rfl : gc + d = z := Option.some.inj hz
      refine ⟨hval, hh, Or.inl ?_⟩
      exact List.mem_append_right _ (List.mem_singleton.2 rfl)
    · rw [Function.update_noteq hu] at hz
      obtain ⟨hu', hheu, hwit⟩ := P1x u z hz
      refine ⟨hu', hheu, ?_⟩
      rcases hwit with hw | hw | hw
      · exact Or.inl (List.mem_append_left _ hw)
      · exact Or.inr (Or.inl ⟨hw.1, relaxedAt_mono g u z gs _ hgsle hw.2⟩)
      · exact Or.inr (Or.inr hw)
  · intro u z hz
    by_cases hu : u = nbr
    · rw [hu, Function.update_same] at hz
      rw [← Option.some.inj hz]
      exact add_nonneg hgc0 hd0
    · rw [Function.update_noteq hu] at hz
      exact G0 u z hz
  · rw [Function.update_noteq hstartne]
    exact S0
  · rw [Function.update_noteq hstartne]
    exact CF1
  · intro u z hz
    by_cases hu : u = nbr
    · right
      rw [hu, Function.update_same]
      rfl
    · rw [Function.update_noteq hu] at hz
      rcases CF3 u z hz with hs | hs
      · exact Or.inl hs
      · right
        rw [Function.update_noteq hu]
        exact hs
  · intro n c hc
    by_cases hn : n = nbr
    · subst hn
      rw [Function.update_same] at hc
      obtain rfl : current = c := Option.some.inj hc
      refine ⟨node, gc, gc + d, d, hnode, hmem, ?_, ?_, hdist, le_refl _⟩
      · rw [Function.update_noteq hcurne]; exact HGC
      · rw [Function.update_same]
    · rw [Function.update_noteq hn] at hc
      obtain ⟨node0, zc, zn, dcn, hnode0, hmem0, hzc, hzn, hdcn, hle⟩ := CF2 n c hc
      by_cases hcn : c = nbr
      · rw [hcn] at hzc
        refine ⟨node0, gc + d, zn, dcn, hnode0, hmem0, ?_, ?_, hdcn, ?_⟩
        · rw [hcn, Function.update_same]
        · rw [Function.update_noteq hn]; exact hzn
        · exact le_trans (add_le_add_right (le_of_lt (hnew zc hzc)) dcn) hle
      · refine ⟨node0, zc, zn, dcn, hnode0, hmem0, ?_, ?_, hdcn, hle⟩
        · rw [Function.update_noteq hcn]; exact hzc
        · rw [Function.update_noteq hn]; exact hzn
  · rw [Function.update_noteq hcurne]
    exact HGC

theorem relax_sweep (g : Graph) (start goal current : Nat) (node : Node) (gc : ℝ)
    (hclosed : ∀ id n, g.nodes id = some n → ∀ e ∈ n.edges, (g.nodes e).isSome = true)
    (hnode : g.nodes current = some node)
    (hgoalnode : (g.nodes goal).isSome = true) :
    ∀ (edges : List Nat), (∀ e ∈ edges, e ∈ node.edges) →
      ∀ (o : List (ℝ × Nat)) (cf : Nat → Option Nat) (gs : Nat → Option ℝ),
        SweepInv g start goal current gc o cf gs →
        ∃ o' cf' gs',
          relaxNeighbors g goal current edges (o, cf, gs) = some (o', cf', gs') ∧
          SweepInv g start goal current gc o' cf' gs' ∧ GSLE gs gs' ∧
          ∀ e ∈ edges, relaxcond g current gc gs' e := by
  intro edges
  induction edges with
  | nil =>
      intro _ o cf gs hinv
      exact ⟨o, cf, gs, rfl, hinv, GSLE_refl gs,
        fun e he => absurd he (List.not_mem_nil e)⟩
  | cons nbr rest ih =>
      intro hsub o cf gs hinv
      have HGC := hinv.2.2.2.2.2.2.2
      have hG0 := hinv.2.2.1
      have hcurnode : (g.nodes current).isSome = true := by rw [hnode]; rfl
      have hmem : nbr ∈ node.edges := hsub nbr (List.mem_cons_self nbr rest)
      have hnbrnode : (g.nodes nbr).isSome = true := hclosed current node hnode nbr hmem
      obtain ⟨d, hdist⟩ := heuristic_isSome g current nbr hcurnode hnbrnode
      have hdist' : g.dist current nbr = some d := hdist
      obtain ⟨hval, hh⟩ := heuristic_isSome g nbr goal hnbrnode hgoalnode
      have hd0 : 0 ≤ d := dist_nonneg_opt g current nbr d hdist'
      have hgc0 : 0 ≤ gc := hG0 current gc HGC
      have hrest : ∀ e ∈ rest, e ∈ node.edges :=
        fun e he => hsub e (List.mem_cons_of_mem nbr he)
      rw [relaxNeighbors, HGC]
      dsimp only
      rw [hdist']
      dsimp only
      cases hgn : gs nbr with
      | none =>
          rw [hh]
          dsimp only
          have hupd := relax_update_inv g start goal current nbr node gc d hval
            hnode hmem hdist' hh hd0 hgc0 o cf gs
            ⟨hinv.1, hinv.2.1, hinv.2.2.1, hinv.2.2.2.1, hinv.2.2.2.2.1,
              hinv.2.2.2.2.2.1, hinv.2.2.2.2.2.2.1, HGC⟩
            (fun zold hz => absurd (hgn ▸ hz) (fun hc => Option.noConfusion hc))
          obtain ⟨o', cf', gs', hrel, hinv', hgsle', hconds⟩ :=
            ih hrest (o ++ [(gc + d + hval, nbr)])
              (Function.update cf nbr (some current))
              (Function.update gs nbr (some (gc + d))) hupd.1
          refine ⟨o', cf', gs', hrel, hinv', GSLE_trans _ _ _ hupd.2 hgsle', ?_⟩
          intro e he
          rcases List.mem_cons.1 he with h1 | h1
          · subst h1
            refine relaxcond_mono g current gc _ gs' hgsle' e ?_
            exact ⟨gc + d, d, Function.update_same _ _ _, hdist', le_refl _⟩
          · exact hconds e h1
      | some old =>
          dsimp only
          by_cases hlt : gc + d < old
          · rw [if_pos hlt, hh]
            dsimp only
            have hupd := relax_update_inv g start goal current nbr node gc d hval
              hnode hmem hdist' hh hd0 hgc0 o cf gs
              ⟨hinv.1, hinv.2.1, hinv.2.2.1, hinv.2.2.2.1, hinv.2.2.2.2.1,
                hinv.2.2.2.2.2.1, hinv.2.2.2.2.2.2.1, HGC⟩
              (fun zold hz => by
                rw [hgn] at hz
                rw [← Option.some.inj hz]
                exact hlt)
            obtain ⟨o', cf', gs', hrel, hinv', hgsle', hconds⟩ :=
              ih hrest (o ++ [(gc + d + hval, nbr)])
                (Function.update cf nbr (some current))
                (Function.update gs nbr (some (gc + d))) hupd.1
            refine ⟨o', cf', gs', hrel, hinv', GSLE_trans _ _ _ hupd.2 hgsle', ?_⟩
            intro e he
            rcases List.mem_cons.1 he with h1 | h1
            · subst h1
              refine relaxcond_mono g current gc _ gs' hgsle' e ?_
              exact ⟨gc + d, d, Function.update_same _ _ _, hdist', le_refl _⟩
            · exact hconds e h1
          · rw [if_neg hlt]
            obtain ⟨o', cf', gs', hrel, hinv', hgsle', hconds⟩ := ih hrest o cf gs
              ⟨hinv.1, hinv.2.1, hinv.2.2.1, hinv.2.2.2.1, hinv.2.2.2.2.1,
                hinv.2.2.2.2.2.1, hinv.2.2.2.2.2.2.1, HGC⟩
            refine ⟨o', cf', gs', hrel, hinv', hgsle', ?_⟩
            intro e he
            rcases List.mem_cons.1 he with h1 | h1
            · subst h1
              refine relaxcond_mono g current gc gs gs' hgsle' e ?_
              exact ⟨old, d, hgn, hdist', le_of_not_lt hlt⟩
            · exact hconds e h1

theorem heuristic_le_pathCost (g : Graph) (goal : Nat)
    (hclosed : ∀ id n, g.nodes id = some n → ∀ e ∈ n.edges, (g.nodes e).isSome = true)
    (hgoalnode : (g.nodes goal).isSome = true) :
    ∀ (q : List Nat) (u : Nat) (hu : ℝ),
      List.Chain' (EdgeStep g) (u :: q) →
      (u :: q).getLast? = some goal →
      g.heuristic u goal = some hu → hu ≤ pathCost g (u :: q) := by
  intro q
  induction q with
  | nil =>
      intro u hu _ hlast hheu
      obtain rfl : u = goal := Option.some.inj hlast
      obtain ⟨n, hn⟩ := Option.isSome_iff_exists.1 hgoalnode
      rw [heuristic_self g u n hn] at hheu
      rw [← Option.some.inj hheu]
      rw [show pathCost g [u] = 0 from rfl]
  | cons v q' ih =>
      intro u hu hch hlast hheu
      obtain ⟨hstep, hch'⟩ := List.chain'_cons.1 hch
      obtain ⟨n, hn, hmem⟩ := hstep
      have hunode : (g.nodes u).isSome = true := by rw [hn]; rfl
      have hvnode : (g.nodes v).isSome = true := hclosed u n hn v hmem
      obtain ⟨d, hd⟩ := heuristic_isSome g u v hunode hvnode
      have hd' : g.dist u v = some d := hd
      obtain ⟨hv, hh'⟩ := heuristic_isSome g v goal hvnode hgoalnode
      have htri := heuristic_consistent g u v goal hu hv d hheu hh' hd'
      rw [List.getLast?_cons_cons] at hlast
      have ihh := ih v hv hch' hlast hh'
      rw [show pathCost g (u :: v :: q') = edgeCost g u v + pathCost g (v :: q') from rfl,
        edgeCost_eq g u v d hd']
      linarith

theorem cascade_walk (g : Graph) (start goal : Nat)
    (hclosed : ∀ id n, g.nodes id = some n → ∀ e ∈ n.edges, (g.nodes e).isSome = true)
    (hgoalnode : (g.nodes goal).isSome = true)
    (o : List (ℝ × Nat)) (cf : Nat → Option Nat) (gs : Nat → Option ℝ)
    (inv : AInv g start goal o cf gs)
    (v fstar : ℝ) (hgsgoal : gs goal = some v) (hvf : v ≤ fstar)
    (hmin : ∀ e ∈ o, fstar ≤ e.1) :
    ∀ (q : List Nat) (u : Nat) (C : ℝ),
      List.Chain' (EdgeStep g) (u :: q) →
      (u :: q).getLast? = some goal →
      (∃ z, gs u = some z ∧ z ≤ C) →
      v ≤ C + pathCost g (u :: q) := by
  intro q
  induction q with
  | nil =>
      intro u C _ hlast hz
      obtain ⟨z, hgs, hzC⟩ := hz
      obtain rfl : u = goal := Option.some.inj hlast
      rw [hgsgoal] at hgs
      obtain rfl : v = z := Option.some.inj hgs
      rw [show pathCost g [u] = 0 from rfl]
      linarith
  | cons w q' ih =>
      intro u C hch hlast hz
      obtain ⟨z, hgs, hzC⟩ := hz
      obtain ⟨hu, hheu, hwit⟩ := inv.2.1 u z hgs
      obtain ⟨hstep, hch'⟩ := List.chain'_cons.1 hch
      rcases hwit with hw | hw
      · have hf := hmin (z + hu, u) hw
        have htri := heuristic_le_pathCost g goal hclosed hgoalnode (w :: q') u hu
          hch hlast hheu
        dsimp only at hf
        linarith
      · obtain ⟨hne, hrel⟩ := hw
        obtain ⟨n, hn, hmem⟩ := hstep
        obtain ⟨z1, d1, hz1, hd1, hle1⟩ := hrel n hn w hmem
        rw [List.getLast?_cons_cons] at hlast
        have ihh := ih w (C + d1) hch' hlast ⟨z1, hz1, by linarith⟩
        rw [show pathCost g (u :: w :: q') = edgeCost g u w + pathCost g (w :: q') from rfl,
          edgeCost_eq g u w d1 hd1]
        linarith

theorem cascade_le (g : Graph) (start goal : Nat)
    (hclosed : ∀ id n, g.nodes id = some n → ∀ e ∈ n.edges, (g.nodes e).isSome = true)
    (hgoalnode : (g.nodes goal).isSome = true)
    (o : List (ℝ × Nat)) (cf : Nat → Option Nat) (gs : Nat → Option ℝ)
    (inv : AInv g start goal o cf gs)
    (v fstar : ℝ) (hgsgoal : gs goal = some v) (hvf : v ≤ fstar)
    (hmin : ∀ e ∈ o, fstar ≤ e.1) :
    ∀ q, ValidPath g start goal q → v ≤ pathCost g q := by
  intro q hq
  obtain ⟨hhead, hlast, hchain⟩ := hq
  cases q with
  | nil => exact Option.noConfusion hhead
  | cons u rest =>
      have hu : u = start := Option.some.inj hhead
      subst hu
      have h := cascade_walk g u goal hclosed hgoalnode o cf gs inv v fstar
        hgsgoal hvf hmin rest u 0 hchain hlast ⟨0, inv.2.2.2.1, le_refl 0⟩
      linarith

theorem cascade_empty (g : Graph) (start goal : Nat)
    (cf : Nat → Option Nat) (gs : Nat → Option ℝ)
    (inv : AInv g start goal [] cf gs) :
    ∀ q, ¬ValidPath g start goal q := by
  have hwalk : ∀ (q : List Nat) (u : Nat), List.Chain' (EdgeStep g) (u :: q) →
      (u :: q).getLast? = some goal → (gs u).isSome = true → False := by
    intro q
    induction q with
    | nil =>
        intro u _ hlast hsome
        obtain rfl : u = goal := Option.some.inj hlast
        obtain ⟨z, hz⟩ := Option.isSome_iff_exists.1 hsome
        obtain ⟨hu, hheu, hwit⟩ := inv.2.1 u z hz
        rcases hwit with hw | hw
        · exact absurd hw (List.not_mem_nil _)
        · exact hw.1 rfl
    | cons w q' ih =>
        intro u hch hlast hsome
        obtain ⟨z, hz⟩ := Option.isSome_iff_exists.1 hsome
        obtain ⟨hu, hheu, hwit⟩ := inv.2.1 u z hz
        rcases hwit with hw | hw
        · exact absurd hw (List.not_mem_nil _)
        · obtain ⟨hstep, hch'⟩ := List.chain'_cons.1 hch
          obtain ⟨n, hn, hmem⟩ := hstep
          obtain ⟨z1, d1, hz1, _, _⟩ := hw.2 n hn w hmem
          rw [List.getLast?_cons_cons] at hlast
          exact ih w hch' hlast (by rw [hz1]; rfl)
  intro q hq
  obtain ⟨hhead, hlast, hchain⟩ := hq
  cases q with
  | nil => exact Option.noConfusion hhead
  | cons u rest =>
      obtain rfl : u = start := Option.some.inj hhead
      exact hwalk rest u hchain hlast (by rw [inv.2.2.2.1]; rfl)

theorem reconstruct_sound (g : Graph) (start goal : Nat)
    (cf : Nat → Option Nat) (gs : Nat → Option ℝ)
    (hCF3 : ∀ u z, gs u = some z → u = start ∨ (cf u).isSome = true)
    (hCF2 : ∀ n c, cf n = some c → ∃ node zc zn dcn, g.nodes c = some node ∧
        n ∈ node.edges ∧ gs c = some zc ∧ gs n = some zn ∧ g.dist c n = some dcn ∧
        zc + dcn ≤ zn)
    (hG0 : ∀ u z, gs u = some z → 0 ≤ z)
    (v : ℝ) :
    ∀ (fuel : Nat) (curr : Nat) (acc : List Nat) (vcurr : ℝ),
      gs curr = some vcurr →
      acc.head? = some goal →
      acc.getLast? = some curr →
      List.Chain' (fun a b => EdgeStep g b a) acc →
      pathCost g acc.reverse ≤ v - vcurr →
      ∀ p, reconstruct cf fuel curr acc = some p →
        ValidPath g start goal p ∧ pathCost g p ≤ v := by
  intro fuel
  induction fuel with
  | zero => intro curr acc vcurr _ _ _ _ _ p hp; exact Option.noConfusion hp
  | succ fuel ih =>
      intro curr acc vcurr hvc hhead hlastacc hchain hcost p hp
      rw [reconstruct] at hp
      cases hc : cf curr with
      | none =>
          rw [hc] at hp
          obtain rfl : acc.reverse = p := Option.some.inj hp
          have hcs : curr = start := by
            rcases hCF3 curr vcurr hvc with hs | hs
            · exact hs
            · rw [hc] at hs; exact Bool.noConfusion hs
          refine ⟨⟨?_, ?_, ?_⟩, ?_⟩
          · rw [List.head?_reverse, hlastacc, hcs]
          · rw [List.getLast?_reverse, hhead]
          · rw [List.chain'_reverse]
            exact hchain
          · have h0 : 0 ≤ vcurr := hG0 curr vcurr hvc
            linarith
      | some prev =>
          rw [hc] at hp
          obtain ⟨node, zc, zn, dcn, hnd, hmm, hzc, hzn, hdcn, hle⟩ := hCF2 curr prev hc
          have hzneq : zn = vcurr := Option.some.inj (hzn.symm.trans hvc)
          rw [hzneq] at hle
          have hrevhead : acc.reverse.head? = some curr := by
            rw [List.head?_reverse]; exact hlastacc
          obtain ⟨tail, hterm⟩ : ∃ tail, acc.reverse = curr :: tail := by
            cases hrv : acc.reverse with
            | nil => rw [hrv] at hrevhead; exact Option.noConfusion hrevhead
            | cons x t =>
                rw [hrv] at hrevhead
                exact ⟨t, by rw [Option.some.inj hrevhead]⟩
          refine ih prev (acc ++ [prev]) zc hzc ?_ ?_ ?_ ?_ p hp
          · cases acc with
            | nil => exact Option.noConfusion hhead
            | cons a t => exact hhead
          · rw [List.getLast?_concat]
          · rw [List.chain'_append]
            refine ⟨hchain, List.chain'_singleton prev, ?_⟩
            intro x hx y hy
            rw [hlastacc] at hx
            obtain rfl : curr = x := Option.some.inj hx
            obtain rfl : prev = y := Option.some.inj hy
            exact ⟨node, hnd, hmm⟩
          · rw [List.reverse_append, show ([prev] : List Nat).reverse = [prev] from rfl,
              List.singleton_append, hterm]
            rw [show pathCost g (prev :: curr :: tail) =
              edgeCost g prev curr + pathCost g (curr :: tail) from rfl,
              edgeCost_eq g prev curr dcn hdcn]
            rw [hterm] at hcost
            linarith

theorem astarLoop_sound (g : Graph) (start goal : Nat)
    (hclosed : ∀ id n, g.nodes id = some n → ∀ e ∈ n.edges, (g.nodes e).isSome = true)
    (hgoalnode : (g.nodes goal).isSome = true) :
    ∀ (fuel : Nat) (o : List (ℝ × Nat)) (cf : Nat → Option Nat) (gs : Nat → Option ℝ),
      AInv g start goal o cf gs →
      (∀ p, astarLoop g goal fuel o cf gs = PathResult.path p →
        ValidPath g start goal p ∧
          ∀ q, ValidPath g start goal q → pathCost g p ≤ pathCost g q) ∧
      (astarLoop g goal fuel o cf gs = PathResult.noPath →
        ∀ q, ¬ValidPath g start goal q) := by
  intro fuel
  induction fuel with
  | zero =>
      intro o cf gs _
      constructor
      · intro p hp
        rw [astarLoop] at hp
        exact PathResult.noConfusion hp
      · intro hp
        rw [astarLoop] at hp
        exact PathResult.noConfusion hp
  | succ fuel ih =>
      intro o cf gs hinv
      rw [astarLoop]
      cases hpop : popMin o with
      | none =>
          dsimp only
          constructor
          · intro p hp
            exact PathResult.noConfusion hp
          · intro _ q
            have ho : o = [] := popMin_eq_none o hpop
            subst ho
            exact cascade_empty g start goal cf gs hinv q
      | some pr =>
          obtain ⟨m, rest⟩ := pr
          dsimp only
          by_cases hmg : m.2 = goal
          · rw [if_pos hmg]
            have hmem := (popMin_mem o m rest hpop).1
            obtain ⟨w, z, hu, hheu, hmw, hmz, hzw⟩ := hinv.1 m hmem
            obtain ⟨gnode, hgnode⟩ := Option.isSome_iff_exists.1 hgoalnode
            have hheu0 : hu = 0 := by
              rw [hmg] at hheu
              rw [heuristic_self g goal gnode hgnode] at hheu
              exact (Option.some.inj hheu).symm
            rw [hmg] at hmz
            have hmin := popMin_min o m rest hpop
            have hcasc := cascade_le g start goal hclosed hgoalnode o cf gs hinv z m.1
              hmz (by rw [hmw, hheu0]; linarith) hmin
            cases hrec : reconstruct cf (fuel + 1) goal [goal] with
            | none =>
                dsimp only
                constructor
                · intro p hp
                  exact PathResult.noConfusion hp
                · intro hp
                  exact PathResult.noConfusion hp
            | some p0 =>
                dsimp only
                constructor
                · intro p hp
                  obtain rfl : p0 = p := by injection hp
                  have hrs := reconstruct_sound g start goal cf gs
                    hinv.2.2.2.2.2.1 hinv.2.2.2.2.2.2 hinv.2.2.1 z
                    (fuel + 1) goal [goal] z hmz rfl rfl
                    (List.chain'_singleton goal)
                    (by show (0:ℝ) ≤ z - z; linarith) p0 hrec
                  exact ⟨hrs.1, fun q hq => le_trans hrs.2 (hcasc q hq)⟩
                · intro hp
                  exact PathResult.noConfusion hp
          · rw [if_neg hmg]
            have hmem := (popMin_mem o m rest hpop).1
            obtain ⟨w, z, hu, hheu, hmw, hmz, hzw⟩ := hinv.1 m hmem
            have hnodecur : (g.nodes m.2).isSome = true := by
              unfold Graph.heuristic at hheu
              cases hg : g.nodes m.2 with
              | none => rw [hg] at hheu; exact Option.noConfusion hheu
              | some _ => rfl
            obtain ⟨node, hnode⟩ := Option.isSome_iff_exists.1 hnodecur
            rw [hnode]
            dsimp only
            have hsweepinv : SweepInv g start goal m.2 z rest cf gs := by
              refine ⟨?_, ?_, hinv.2.2.1, hinv.2.2.2.1, hinv.2.2.2.2.1,
                hinv.2.2.2.2.2.1, hinv.2.2.2.2.2.2, hmz⟩
              · intro p hp
                exact hinv.1 p ((popMin_mem o m rest hpop).2 p hp)
              · intro u z0 hz0
                obtain ⟨hu0, hheu0, hwit⟩ := hinv.2.1 u z0 hz0
                refine ⟨hu0, hheu0, ?_⟩
                rcases hwit with hw | hw
                · rcases popMin_cover o m rest hpop _ hw with he | he
                  · exact Or.inr (Or.inr (congrArg Prod.snd he))
                  · exact Or.inl he
                · exact Or.inr (Or.inl hw)
            obtain ⟨o', cf', gs', hrel, hinv', hgsle, hconds⟩ := relax_sweep g start goal
              m.2 node z hclosed hnode hgoalnode node.edges (fun e he => he)
              rest cf gs hsweepinv
            rw [hrel]
            dsimp only
            have hainv' : AInv g start goal o' cf' gs' := by
              refine ⟨hinv'.1, ?_, hinv'.2.2.1, hinv'.2.2.2.1, hinv'.2.2.2.2.1,
                hinv'.2.2.2.2.2.1, hinv'.2.2.2.2.2.2.1⟩
              intro u z0 hz0
              obtain ⟨hu0, hheu0, hwit⟩ := hinv'.2.1 u z0 hz0
              refine ⟨hu0, hheu0, ?_⟩
              rcases hwit with hw | hw | hw
              · exact Or.inl hw
              · exact Or.inr hw
              · subst hw
                have hz' : gs' m.2 = some z := hinv'.2.2.2.2.2.2.2
                obtain rfl : z0 = z := by
                  rw [hz0] at hz'
                  exact Option.some.inj hz'
                right
                refine ⟨hmg, ?_⟩
                intro node' hn' nb hnb
                obtain rfl : node = node' := Option.some.inj (hnode.symm.trans hn')
                exact hconds nb hnb
            exact ih o' cf' gs' hainv'

/-- **C3** (amended): on graphs whose every stored edge target exists as a
node, with `start` and `goal` present, any sequence `find_path` returns is
edge-connected from `start` to `goal` and its total Euclidean cost is
minimal over all edge-connected sequences; and a no-path result is sound:
no edge-connected sequence from `start` to `goal` exists. (On graphs with
a dangling edge target the search can panic instead — see the
counterexample — so the original unconditional claim fails.) -/
theorem c3_astar (g : Graph) (start goal fuel : Nat)
    (hclosed : ∀ id n, g.nodes id = some n → ∀ e ∈ n.edges, (g.nodes e).isSome = true)
    (hstartnode : (g.nodes start).isSome = true)
    (hgoalnode : (g.nodes goal).isSome = true) :
    (∀ p, g.find_path start goal fuel = PathResult.path p →
      ValidPath g start goal p ∧
        ∀ q, ValidPath g start goal q → pathCost g p ≤ pathCost g q) ∧
    (g.find_path start goal fuel = PathResult.noPath →
      ∀ q, ¬ValidPath g start goal q) := by
  unfold Graph.find_path
  have hguard : ¬((g.nodes start).isSome = false ∨ (g.nodes goal).isSome = false) := by
    intro hc
    rcases hc with hc | hc
    · rw [hstartnode] at hc; exact Bool.noConfusion hc
    · rw [hgoalnode] at hc; exact Bool.noConfusion hc
  rw [if_neg hguard]
  obtain ⟨h0, hh0⟩ := heuristic_isSome g start goal hstartnode hgoalnode
  rw [hh0]
  dsimp only
  have hinit : AInv g start goal [(h0, start)] (fun _ => none)
      (Function.update (fun _ => none) start (some 0)) := by
    refine ⟨?_, ?_, ?_, Function.update_same _ _ _, rfl, ?_, ?_⟩
    · intro p hp
      rw [List.mem_singleton.1 hp]
      exact ⟨0, 0, h0, hh0, (zero_add h0).symm, Function.update_same _ _ _, le_refl 0⟩
    · intro u z hz
      by_cases hu : u = start
      · subst hu
        rw [Function.update_same] at hz
        obtain rfl : (0:ℝ) = z := Option.some.inj hz
        refine ⟨h0, hh0, Or.inl ?_⟩
        rw [zero_add]
        exact List.mem_singleton.2 rfl
      · rw [Function.update_noteq hu] at hz
        exact Option.noConfusion hz
    · intro u z hz
      by_cases hu : u = start
      · subst hu
        rw [Function.update_same] at hz
        exact le_of_eq (Option.some.inj hz)
      · rw [Function.update_noteq hu] at hz
        exact Option.noConfusion hz
    · intro u z hz
      by_cases hu : u = start
      · exact Or.inl hu
      · rw [Function.update_noteq hu] at hz
        exact Option.noConfusion hz
    · intro n c hc
      exact Option.noConfusion hc
  exact astarLoop_sound g start goal hclosed hgoalnode fuel [(h0, start)] _ _ hinit

theorem c3_astar_witness :
    ValidPath (((Graph.new.add_node 1 0 0).add_node 2 10 0).add_edge 1 2) 1 2 [1, 2] := by
  have hn : (((Graph.new.add_node 1 0 0).add_node 2 10 0).add_edge 1 2).nodes =
      Function.update (Function.update (Function.update
        ((fun _ => none) : Nat → Option Node) 1
          (some { x := 0, y := 0, edges := [] })) 2
          (some { x := 10, y := 0, edges := [] })) 1
          (some { x := 0, y := 0, edges := [2] }) := rfl
  have hclosed : ∀ id n,
      (((Graph.new.add_node 1 0 0).add_node 2 10 0).add_edge 1 2).nodes id = some n →
      ∀ e ∈ n.edges,
        ((((Graph.new.add_node 1 0 0).add_node 2 10 0).add_edge 1 2).nodes e).isSome
          = true := by
    intro id n h
    rw [hn] at h
    by_cases h1 : id = 1
    · subst h1
      rw [Function.update_same] at h
      obtain rfl : ({ x := 0, y := 0, edges := [2] } : Node) = n := Option.some.inj h
      intro e he
      have he2 : e = 2 := List.mem_singleton.1 he
      subst he2
      rfl
    · rw [Function.update_noteq h1] at h
      by_cases h2 : id = 2
      · subst h2
        rw [Function.update_same] at h
        obtain rfl : ({ x := 10, y := 0, edges := [] } : Node) = n := Option.some.inj h
        intro e he
        exact absurd he (List.not_mem_nil e)
      · rw [Function.update_noteq h2, Function.update_noteq h1] at h
        exact Option.noConfusion h
  have H := c3_astar (((Graph.new.add_node 1 0 0).add_node 2 10 0).add_edge 1 2)
    1 2 3 hclosed rfl rfl
  exact (H.1 [1, 2] rfl).1

end Engine
